import Mathlib

/-!
# Bootloader of the Magic Pill Box firmware (`Bootloader/src/BootMain.c`)

A shallow embedding of the update path of the SAMD21 bootloader:
`main`, `StartFilesystemAndTest`, `DeleteApplication` and `WriteApplication`,
of `main` of the A/B test bootloader (`BootMain_Mars.c`), and of three parts of
the application: `I2cReadDataWait` (`I2cDriver.c`), the ring buffer of the
serial console (`circular_buffer.c`) and `SSD1306_DrawPixel` (`SSD1306.c`).

* Machine integers are natural numbers; the places where the C code narrows a
  value (`uint8_t RowsToDelete`, `uint8_t remain_pages`, 32-bit addresses) carry
  an explicit modulus.
* Every call into a driver (NVM controller, DSU CRC engine, FatFs, serial
  console) is recorded as a `Call`; the functions return the calls they issue,
  in program order, together with the resulting flash content.
* Status codes of the drivers are answers of the environment and are collected
  in `Hardware` and `SdCard`.
-/

namespace BootMain

/-! ## Defines -/

/-- Start of main application (`#define APP_START_ADDRESS ((uint32_t) 0x12000)`). -/
def APP_START_ADDRESS : Nat := 0x12000

/-- Main application reset vector address. -/
def APP_START_RESET_VEC_ADDRESS : Nat := APP_START_ADDRESS + 0x04

def PAGE_PER_ROW : Nat := 4

def ROW_SIZE : Nat := 256

/-- The rows below `0x12000`: 73728 / 256. -/
def BOOTLODER_ROW_NUM : Nat := 288

/-- Conversion of an address expression to `uint32_t`. -/
def u32 (x : Nat) : Nat := x % 2 ^ 32

/-- Conversion of an `int` value to `uint8_t`. -/
def u8 (x : Int) : Nat := (x % 256).toNat

/-! ## Environment -/

/-- The fields of `struct nvm_parameters` that the bootloader reads
(`uint16_t nvm_number_of_pages`, `uint8_t page_size`). -/
structure nvm_parameters where
  nvm_number_of_pages : Nat
  page_size : Nat

/-- Content of the internal flash, byte by byte. -/
abbrev Flash := Nat → Nat

/-- Answers of the hardware and of the file system driver during one boot.

* `parameters`: what `nvm_get_parameters` reports;
* `erase_status a`: `nvm_erase_row(a)` returns `STATUS_OK`;
* `write_status a`: `nvm_write_buffer(a, ..)` returns `STATUS_OK`;
* `read_status k`: the `f_read` call number `k` of `WriteApplication` returns `FR_OK`;
* `crc32 acc bytes`: the value the DSU engine leaves in its data register when
  started with `acc` over `bytes`;
* `dsu_accepts a`: `dsu_crc32_cal` carries out the computation for the flash
  start address `a` (otherwise it leaves `*pcrc32` as it was). -/
structure Hardware where
  parameters : nvm_parameters
  erase_status : Nat → Bool
  write_status : Nat → Bool
  read_status : Nat → Bool
  crc32 : Nat → List Nat → Nat
  dsu_accepts : Nat → Bool

/-- Answers of the SD card stack to the calls of `StartFilesystemAndTest`. -/
structure SdCard where
  /-- Whether `SdCard_Initiate() == CTRL_GOOD`. -/
  initiate_good : Bool
  /-- Whether `f_mount` returns `FR_INVALID_DRIVE`. -/
  mount_invalid_drive : Bool
  /-- Whether `f_open` of the test text file returns `FR_OK`. -/
  open_test_file_ok : Bool
  /-- Whether `f_puts` returns a value different from 0. -/
  puts_ok : Bool
  /-- Whether `f_open` of the test binary file returns `FR_OK`. -/
  open_bin_file_ok : Bool
  /-- Whether `f_write` returns 0. -/
  write_bin_ok : Bool

/-- The two `FIL` objects of the bootloader. -/
inductive Handle where
  | file_object
  | file_object_bin
  deriving DecidableEq, Repr

/-- The calls into drivers and libraries, with the arguments that matter. -/
inductive Call where
  | system_init
  | delay_init
  | InitializeSerialConsole
  | system_interrupt_enable_global
  | sd_mmc_init
  | configure_nvm
  | irq_initialize_vectors
  | cpu_irq_enable
  | dsu_crc32_init
  | SerialConsoleWriteString (s : String)
  | LogMessage (s : String)
  | delay_cycles_ms (ms : Nat)
  | system_reset
  | SdCard_Initiate
  | f_mount
  | f_open (h : Handle) (name : String)
  | f_puts
  | f_write (len : Nat)
  | f_read (h : Handle) (len : Nat)
  | f_close (h : Handle)
  | f_unlink (name : String)
  | nvm_get_parameters
  | nvm_erase_row (addr : Nat)
  | nvm_write_buffer (addr : Nat) (data : List Nat)
  | dsu_crc32_cal_ram (data : List Nat)
  | dsu_crc32_cal_nvm (addr : Nat) (len : Nat)
  | DeinitializeSerialConsole
  | sd_mmc_deinit
  | jumpToApplication
  deriving Repr

def test_file_name : String := "0:sd_mmc_test.txt"

def test_bin_file : String := "0:sd_binary.bin"

def app_file_name : String := "0:Application.bin"

/-! ## Flash primitives -/

/-- Raw read of `len` bytes of flash starting at `addr`. -/
def readBack (fl : Flash) (addr len : Nat) : List Nat :=
  (List.range len).map (fun i => fl (addr + i))

/-- Modelled from the spec: `nvm_erase_row` of the ASF NVM driver is not among
the sources. `eraseRow(address)` erases exactly one row; after success every
byte in the row reads as the erased value `0xFF`. On a reported error the
content is left as it was. The result is the status (`true` for `STATUS_OK`)
and the new flash content. -/
def nvm_erase_row (hw : Hardware) (fl : Flash) (addr : Nat) : Bool × Flash :=
  if hw.erase_status addr then
    (true, fun a => if addr ≤ a ∧ a < addr + ROW_SIZE then 0xFF else fl a)
  else
    (false, fl)

/-- Modelled from the spec: `nvm_write_buffer` of the ASF NVM driver is not
among the sources. `writePage(address, bytes)` stores the bytes at the address,
so that reading back reproduces them; bytes outside the written range keep
their value. On a reported error the content is left as it was. -/
def nvm_write_buffer (hw : Hardware) (fl : Flash) (addr : Nat) (data : List Nat) : Bool × Flash :=
  if hw.write_status addr then
    (true, fun a => if addr ≤ a ∧ a < addr + data.length then data.getD (a - addr) 0 else fl a)
  else
    (false, fl)

/-- Modelled from the spec: `dsu_crc32_cal(addr, len, &crc)` of the ASF DSU
driver is not among the sources. `accumulate(state, bytes)` over the `len`
bytes of flash at `addr`. The argument checks of the driver are not known, so
whether it carries out the computation for a start address is an answer of the
environment (`Hardware.dsu_accepts`); when it does not, the accumulator keeps
its value. -/
def dsu_crc32_cal_nvm (hw : Hardware) (fl : Flash) (addr len : Nat) (crc : Nat) : Nat :=
  if hw.dsu_accepts addr then hw.crc32 crc (readBack fl addr len) else crc

/-- Modelled from the spec: `dsu_crc32_cal(readBuffer, ROW_SIZE, &crc)`,
`accumulate(state, bytes)` over the content of the RAM buffer. -/
def dsu_crc32_cal_ram (hw : Hardware) (data : List Nat) (crc : Nat) : Nat :=
  hw.crc32 crc data

/-! ## `DeleteApplication` -/

/-- The row count
`uint8_t RowsToDelete = (nvm_number_of_pages * page_size - 0x12000)/ROW_SIZE;`.
The right-hand side is computed in `int` (division truncates towards zero) and
narrowed to 8 bits by the initialisation. -/
def RowsToDelete (p : nvm_parameters) : Nat :=
  u8 (Int.tdiv ((p.nvm_number_of_pages : Int) * (p.page_size : Int) - 0x12000) (ROW_SIZE : Int))

/-- Outcome of `DeleteApplication`: returned value, flash content, calls issued. -/
structure DeleteResult where
  ok : Bool
  flash : Flash
  trace : List Call

/-- The loop `for(int i=0;i<RowsToDelete; i++)`, with `n` iterations left to do
(`n = RowsToDelete - i`). -/
def DeleteApplication.loop (hw : Hardware) : Nat → Nat → Flash → DeleteResult
  | 0, _, fl => { ok := true, flash := fl, trace := [] }
  | n + 1, i, fl =>
    let addr := u32 (APP_START_ADDRESS + i * ROW_SIZE)
    let r := nvm_erase_row hw fl addr
    if r.1 then
      let rest := DeleteApplication.loop hw n (i + 1) r.2
      { rest with trace := Call.nvm_erase_row addr :: rest.trace }
    else
      { ok := false, flash := r.2,
        trace := [Call.nvm_erase_row addr, Call.SerialConsoleWriteString "ERASE ERROR"] }

/-- The function `static bool DeleteApplication(void)`. -/
def DeleteApplication (hw : Hardware) (fl : Flash) : DeleteResult :=
  let r := DeleteApplication.loop hw (RowsToDelete hw.parameters) 0 fl
  { r with trace :=
      [Call.nvm_get_parameters, Call.SerialConsoleWriteString "number of pages %d. Page size: %d byte\r\n"]
        ++ r.trace }

/-! ## `WriteApplication` -/

/-- Outcome of `WriteApplication`: returned value, flash content, calls issued,
and the two accumulators `resultCrcSd` and `resultCrcNvm` as they are when the
function returns. -/
structure WriteResult where
  ok : Bool
  flash : Flash
  trace : List Call
  resultCrcSd : Nat
  resultCrcNvm : Nat

/-- Address of page `i` of row `addrCnt`:
`APP_START_ADDRESS + (addrCnt*ROW_SIZE) + (i*64)`, a `uint32_t`. The product
`addrCnt*ROW_SIZE` is computed in `int`: it stays below `2^31`, and the sum
below `2^32`, for every image shorter than `2^31` bytes. From row `2^23` on
the product overflows, which C leaves undefined; the reduction modulo `2^32`
written here is what a two's-complement build computes, and no statement about
the source is drawn from it. -/
def pageAddress (addrCnt i : Nat) : Nat :=
  u32 (APP_START_ADDRESS + addrCnt * ROW_SIZE + i * 64)

/-- The bytes `&readBuffer[off] .. &readBuffer[off + len - 1]` handed to a driver. -/
def slice (readBuffer : List Nat) (off len : Nat) : List Nat :=
  (readBuffer.drop off).take len

/-- The loop `for(i = 0;i<remain_pages;i++)` of the last row, with `n`
iterations left to do; returns the flash content and the calls issued. -/
def WriteApplication.remainLoop (hw : Hardware) (readBuffer : List Nat) (addrCnt : Nat) :
    Nat → Nat → Flash → Flash × List Call
  | 0, _, fl => (fl, [])
  | n + 1, i, fl =>
    let addr := pageAddress addrCnt i
    let data := slice readBuffer (64 * i) 64
    let fl1 := (nvm_write_buffer hw fl addr data).2
    let rest := WriteApplication.remainLoop hw readBuffer addrCnt n (i + 1) fl1
    (rest.1, Call.nvm_write_buffer addr data :: rest.2)

/-- The comparison after the copy loop. -/
def WriteApplication.finish (fl : Flash) (trace : List Call) (resultCrcSd resultCrcNvm : Nat) :
    WriteResult :=
  if resultCrcNvm ≠ resultCrcSd then
    { ok := false, flash := fl,
      trace := trace ++ [Call.SerialConsoleWriteString "CRC ERROR\r\n",
        Call.f_close Handle.file_object_bin],
      resultCrcSd := resultCrcSd, resultCrcNvm := resultCrcNvm }
  else
    { ok := true, flash := fl,
      trace := trace ++ [Call.SerialConsoleWriteString "CRC IS CORRECT!!!\r\n"],
      resultCrcSd := resultCrcSd, resultCrcNvm := resultCrcNvm }

/-- The branch `if(numBytesRead != ROW_SIZE)` of the copy loop: the last row.
`remain_pages` and `remain_bytes` are `uint8_t`. The loop is left by `break`,
so the comparison follows. -/
def WriteApplication.lastRow (hw : Hardware) (readBuffer : List Nat) (numBytesRead addrCnt : Nat)
    (resultCrcSd resultCrcNvm : Nat) (fl : Flash) : WriteResult :=
  let remain_pages := (numBytesRead / 64) % 256
  let remain_bytes := (numBytesRead % 64) % 256
  let r := WriteApplication.remainLoop hw readBuffer addrCnt remain_pages 0 fl
  let i := remain_pages
  let addr := pageAddress addrCnt i
  let data := slice readBuffer (64 * i) remain_bytes
  let fl1 := (nvm_write_buffer hw r.1 addr data).2
  let crcAddr := u32 (APP_START_ADDRESS + addrCnt * ROW_SIZE + 1)
  let crcNvm := dsu_crc32_cal_nvm hw fl1 crcAddr ROW_SIZE resultCrcNvm
  WriteApplication.finish fl1
    (r.2 ++ [Call.nvm_write_buffer addr data, Call.dsu_crc32_cal_nvm crcAddr ROW_SIZE])
    resultCrcSd crcNvm

/-- The loop `while (numBytesRead == ROW_SIZE)`. `rest` holds the bytes of the
file that have not been read yet, `readBuffer` the 256-byte buffer (it keeps
the bytes of the previous row beyond what a short read delivers), `addrCnt`
the row counter. The condition holds on entry and after every full row, so the
loop is left only by `return` or by `break`. The two accesses to the register
at `0x41007058` around the RAM checksum (an erratum workaround) touch neither
flash nor storage and are not recorded. -/
def WriteApplication.loop (hw : Hardware) (rest : List Nat) (readBuffer : List Nat)
    (addrCnt : Nat) (resultCrcSd resultCrcNvm : Nat) (fl : Flash) : WriteResult :=
  if hw.read_status addrCnt = false then
    { ok := false, flash := fl,
      trace := [Call.f_read Handle.file_object_bin ROW_SIZE,
        Call.SerialConsoleWriteString "read File ERROR", Call.f_close Handle.file_object_bin],
      resultCrcSd := resultCrcSd, resultCrcNvm := resultCrcNvm }
  else
    let chunk := rest.take ROW_SIZE
    let numBytesRead := chunk.length
    let buf := chunk ++ readBuffer.drop numBytesRead
    if h : numBytesRead ≠ ROW_SIZE then
      let r := WriteApplication.lastRow hw buf numBytesRead addrCnt resultCrcSd resultCrcNvm fl
      { r with trace := Call.f_read Handle.file_object_bin ROW_SIZE :: r.trace }
    else
      let a0 := pageAddress addrCnt 0
      let a1 := u32 (APP_START_ADDRESS + addrCnt * ROW_SIZE + 64)
      let a2 := u32 (APP_START_ADDRESS + addrCnt * ROW_SIZE + 128)
      let a3 := u32 (APP_START_ADDRESS + addrCnt * ROW_SIZE + 192)
      let fl1 := (nvm_write_buffer hw fl a0 (slice buf 0 64)).2
      let fl2 := (nvm_write_buffer hw fl1 a1 (slice buf 64 64)).2
      let fl3 := (nvm_write_buffer hw fl2 a2 (slice buf 128 64)).2
      let fl4 := (nvm_write_buffer hw fl3 a3 (slice buf 192 64)).2
      let crcSd := dsu_crc32_cal_ram hw (slice buf 0 ROW_SIZE) resultCrcSd
      let crcNvm := dsu_crc32_cal_nvm hw fl4 a0 ROW_SIZE resultCrcNvm
      let r := WriteApplication.loop hw (rest.drop ROW_SIZE) buf (addrCnt + 1) crcSd crcNvm fl4
      { r with trace :=
          [Call.f_read Handle.file_object_bin ROW_SIZE,
            Call.nvm_write_buffer a0 (slice buf 0 64),
            Call.nvm_write_buffer a1 (slice buf 64 64),
            Call.nvm_write_buffer a2 (slice buf 128 64),
            Call.nvm_write_buffer a3 (slice buf 192 64),
            Call.dsu_crc32_cal_ram (slice buf 0 ROW_SIZE),
            Call.dsu_crc32_cal_nvm a0 ROW_SIZE] ++ r.trace }
termination_by rest.length
decreasing_by
  have hlen : (List.take ROW_SIZE rest).length = ROW_SIZE := not_not.mp h
  have hle : ROW_SIZE ≤ rest.length := by
    rw [List.length_take] at hlen
    omega
  rw [List.length_drop]
  have hpos : 0 < ROW_SIZE := by decide
  omega

/-- The function `static bool WriteApplication(char* binary_file_name)`. `file` is the
content of the named file on the card (`none` when `f_open` does not return
`FR_OK`), `readBuffer` the initial content of the local buffer. -/
def WriteApplication (hw : Hardware) (file : Option (List Nat)) (readBuffer : List Nat)
    (fl : Flash) : WriteResult :=
  match file with
  | none =>
    { ok := false, flash := fl,
      trace := [Call.f_open Handle.file_object_bin app_file_name,
        Call.SerialConsoleWriteString "no File ERROR", Call.f_close Handle.file_object_bin],
      resultCrcSd := 0, resultCrcNvm := 0 }
  | some content =>
    let r := WriteApplication.loop hw content readBuffer 0 0 0 fl
    { r with trace := Call.f_open Handle.file_object_bin app_file_name :: r.trace }

/-! ## `StartFilesystemAndTest` and `main` -/

/-- The function `static bool StartFilesystemAndTest(void)`: the returned value and the calls
issued. Every `goto main_end_of_test` continues with the last message. -/
def StartFilesystemAndTest (sd : SdCard) : Bool × List Call :=
  if sd.initiate_good then
    let t0 := [Call.SdCard_Initiate,
      Call.SerialConsoleWriteString "SD Card initiated correctly!\n\r",
      Call.SerialConsoleWriteString "Mount disk (f_mount)...\r\n",
      Call.f_mount]
    let main_end_of_test := [Call.SerialConsoleWriteString "End of Test.\n\r"]
    if sd.mount_invalid_drive then
      (false, t0 ++ [Call.LogMessage "[FAIL] res %d\r\n"] ++ main_end_of_test)
    else
      let t1 := t0 ++ [Call.SerialConsoleWriteString "[OK]\r\n",
        Call.SerialConsoleWriteString "Create a file (f_open)...\r\n",
        Call.f_open Handle.file_object test_file_name]
      if sd.open_test_file_ok = false then
        (false, t1 ++ [Call.LogMessage "[FAIL] res %d\r\n"] ++ main_end_of_test)
      else
        let t2 := t1 ++ [Call.SerialConsoleWriteString "[OK]\r\n",
          Call.SerialConsoleWriteString "Write to test file (f_puts)...\r\n",
          Call.f_puts]
        if sd.puts_ok = false then
          (false, t2 ++ [Call.f_close Handle.file_object, Call.LogMessage "[FAIL]\r\n"]
            ++ main_end_of_test)
        else
          let t3 := t2 ++ [Call.SerialConsoleWriteString "[OK]\r\n",
            Call.f_close Handle.file_object,
            Call.SerialConsoleWriteString "Test is successful.\n\r",
            Call.f_open Handle.file_object test_bin_file]
          if sd.open_bin_file_ok = false then
            (false, t3 ++ [Call.SerialConsoleWriteString "Could not open binary file!\r\n",
              Call.LogMessage "[FAIL] res %d\r\n"] ++ main_end_of_test)
          else
            let t4 := t3 ++ [Call.SerialConsoleWriteString "Write to test file (f_write)...\r\n",
              Call.f_write 256]
            if sd.write_bin_ok = false then
              (false, t4 ++ [Call.f_close Handle.file_object, Call.LogMessage "[FAIL]\r\n"]
                ++ main_end_of_test)
            else
              (true, t4 ++ [Call.SerialConsoleWriteString "[OK]\r\n",
                Call.f_close Handle.file_object,
                Call.SerialConsoleWriteString "Test is successful.\n\r"] ++ main_end_of_test)
  else
    (false, [Call.SdCard_Initiate,
      Call.SerialConsoleWriteString "SD Card failed initiation! Check connections!\n\r"])

/-- What the bootloader finds at reset: the hardware, the SD card stack, the
content of `0:Application.bin` on the card (`none` when there is no such
file), the content of the internal flash and of the stack area that becomes
`readBuffer`. -/
structure Boot where
  hw : Hardware
  sd : SdCard
  appFile : Option (List Nat)
  flash : Flash
  readBuffer : List Nat

/-- How `main` ends: by the jump into the application or by `system_reset`. -/
inductive Exit where
  | jumped
  | reset
  deriving DecidableEq, Repr

/-- State of the device when `main` ends. -/
structure MainResult where
  exit : Exit
  flash : Flash
  appFile : Option (List Nat)
  trace : List Call

/-- The calls of step 1 of `main`, the peripheral initialisation. -/
def mainInit : List Call :=
  [Call.system_init, Call.delay_init, Call.InitializeSerialConsole,
    Call.system_interrupt_enable_global, Call.sd_mmc_init, Call.configure_nvm,
    Call.irq_initialize_vectors, Call.cpu_irq_enable, Call.dsu_crc32_init,
    Call.SerialConsoleWriteString "ESE5160 - ENTER BOOTLOADER",
    Call.SerialConsoleWriteString "\x0C\n\r-- SD/MMC Card Example on FatFs --\n\r"]

/-- The calls of step 4 of `main`: shut the peripherals down and jump. -/
def mainExit : List Call :=
  [Call.f_close Handle.file_object,
    Call.SerialConsoleWriteString "ESE5160 - EXIT BOOTLOADER",
    Call.delay_cycles_ms 100, Call.DeinitializeSerialConsole, Call.sd_mmc_deinit,
    Call.jumpToApplication]

/-- Step 3 of `main`, the update itself:
`if(res == FR_OK) { DeleteApplication(); WriteApplication(app_file_name); f_unlink(app_file_name); }`.
The values returned by the two functions are not used. `f_unlink` removes the
file from the card. Returns the flash content, the file on the card and the
calls issued. -/
def update (b : Boot) : Flash × Option (List Nat) × List Call :=
  match b.appFile with
  | some _ =>
    let d := DeleteApplication b.hw b.flash
    let w := WriteApplication b.hw b.appFile b.readBuffer d.flash
    (w.flash, none,
      [Call.f_open Handle.file_object app_file_name] ++ d.trace ++ w.trace
        ++ [Call.f_unlink app_file_name])
  | none => (b.flash, b.appFile, [Call.f_open Handle.file_object app_file_name])

/-- The function `int main(void)` of the bootloader. `system_reset` restarts the controller
("System will restart in 5 seconds..."), so nothing of `main` runs after it. -/
def main (b : Boot) : MainResult :=
  let s := StartFilesystemAndTest b.sd
  if s.1 = false then
    { exit := Exit.reset, flash := b.flash, appFile := b.appFile,
      trace := mainInit ++ s.2 ++
        [Call.SerialConsoleWriteString
            "SD CARD failed! Check your connections. System will restart in 5 seconds...",
          Call.delay_cycles_ms 5000, Call.system_reset] }
  else
    let u := update b
    { exit := Exit.jumped, flash := u.1, appFile := u.2.1,
      trace := mainInit ++ s.2 ++
        [Call.SerialConsoleWriteString "SD CARD mount success! Filesystem also mounted. \r\n"]
        ++ u.2.2 ++ mainExit }

/-! ## Reading a trace -/

/-- The addresses passed to `nvm_erase_row`, in order. -/
def eraseAddrs : List Call → List Nat
  | [] => []
  | Call.nvm_erase_row a :: t => a :: eraseAddrs t
  | _ :: t => eraseAddrs t

/-- The arguments (address, bytes) passed to `nvm_write_buffer`, in order. -/
def writeCalls : List Call → List (Nat × List Nat)
  | [] => []
  | Call.nvm_write_buffer a d :: t => (a, d) :: writeCalls t
  | _ :: t => writeCalls t

/-- The file names passed to `f_unlink`, in order. -/
def unlinkCalls : List Call → List String
  | [] => []
  | Call.f_unlink n :: t => n :: unlinkCalls t
  | _ :: t => unlinkCalls t

/-- The flash operations of a trace, in order, other calls left out. -/
def flashOps : List Call → List Call
  | [] => []
  | Call.nvm_erase_row a :: t => Call.nvm_erase_row a :: flashOps t
  | Call.nvm_write_buffer a d :: t => Call.nvm_write_buffer a d :: flashOps t
  | _ :: t => flashOps t

/-- The number of `jumpToApplication` calls of a trace. -/
def jumpCount : List Call → Nat
  | [] => 0
  | Call.jumpToApplication :: t => jumpCount t + 1
  | _ :: t => jumpCount t

/-- The `dsu_crc32_cal` calls of a trace, in order. -/
def crcCalls : List Call → List Call
  | [] => []
  | Call.dsu_crc32_cal_ram d :: t => Call.dsu_crc32_cal_ram d :: crcCalls t
  | Call.dsu_crc32_cal_nvm a l :: t => Call.dsu_crc32_cal_nvm a l :: crcCalls t
  | _ :: t => crcCalls t

/-- The number of `f_read` calls on the image file in a trace. -/
def readCount : List Call → Nat
  | [] => 0
  | Call.f_read Handle.file_object_bin _ :: t => readCount t + 1
  | _ :: t => readCount t

/-! ## Concrete devices -/

/-- The flash geometry of the SAMD21: 4096 pages of 64 bytes. -/
def samd21 : nvm_parameters := { nvm_number_of_pages := 4096, page_size := 64 }

/-- One bit step of the reflected CRC-32 (generator `0xEDB88320`). -/
def crc32_bit (crc : Nat) : Nat :=
  if crc % 2 = 1 then (crc / 2) ^^^ 0xEDB88320 else crc / 2

/-- One byte step of the reflected CRC-32. -/
def crc32_byte (crc b : Nat) : Nat :=
  crc32_bit (crc32_bit (crc32_bit (crc32_bit (crc32_bit (crc32_bit (crc32_bit (crc32_bit
    (crc ^^^ b))))))))

/-- Modelled from the spec: the DSU engine behind `dsu_crc32_cal` is not among
the sources. `accumulate(state, bytes)` of a 32-bit checksum: the register is
loaded with the accumulator passed in and stepped once per byte (CRC-32,
reflected). Used by the concrete devices below. -/
def crc32_update (crc : Nat) (bytes : List Nat) : Nat :=
  bytes.foldl crc32_byte crc

/-- An SD card stack on which every call of `StartFilesystemAndTest` succeeds. -/
def sdGood : SdCard :=
  { initiate_good := true, mount_invalid_drive := false, open_test_file_ok := true,
    puts_ok := true, open_bin_file_ok := true, write_bin_ok := true }

/-- A SAMD21 on which every call succeeds and the DSU takes word-aligned
addresses only. -/
def hwGood : Hardware :=
  { parameters := samd21, erase_status := fun _ => true, write_status := fun _ => true,
    read_status := fun _ => true, crc32 := crc32_update, dsu_accepts := fun a => a % 4 == 0 }

/-- A SAMD21 whose page writes fail (`nvm_write_buffer` reports an error and
stores nothing); everything else succeeds. -/
def hwWriteFault : Hardware :=
  { hwGood with write_status := fun _ => false }

/-- A SAMD21 whose second application row (`0x12100`) cannot be erased. -/
def hwEraseFault : Hardware :=
  { hwGood with erase_status := fun a => a != 0x12100 }

/-- The one-row image `0x00..0xFF`. -/
def rowImage : List Nat := List.range 256

/-- Boot with the one-row image on the card, flash holding zeroes, on `hw`. -/
def bootWith (hw : Hardware) (img : List Nat) : Boot :=
  { hw := hw, sd := sdGood, appFile := some img, flash := fun _ => 0,
    readBuffer := List.replicate 256 0 }

/-- Boot without `0:Application.bin` on the card. -/
def bootNoImage : Boot :=
  { hw := hwGood, sd := sdGood, appFile := none, flash := fun _ => 0,
    readBuffer := List.replicate 256 0 }

/-- An image of 224 full rows and one byte. -/
def image57345 : List Nat := List.replicate 57345 0xA5

/-- An image of 737 rows, one row more than the SAMD21's application region. -/
def image737rows : List Nat := List.replicate 188672 0xA5

/-- An image of 300 bytes: one full row and a final row of 44 bytes. -/
def image300 : List Nat := List.replicate 300 0xA5

/-! ## Auxiliary notions for the proofs -/

/-- The write `w` stores a byte at address `a`. -/
def Covers (w : Nat × List Nat) (a : Nat) : Prop :=
  w.1 ≤ a ∧ a < w.1 + w.2.length

/-- The four page addresses and the flash content after a full row. -/
def fullRowFlash (hw : Hardware) (b : List Nat) (c : Nat) (fl : Flash) : Flash :=
  let fl1 := (nvm_write_buffer hw fl (pageAddress c 0) (slice b 0 64)).2
  let fl2 := (nvm_write_buffer hw fl1 (u32 (APP_START_ADDRESS + c * ROW_SIZE + 64)) (slice b 64 64)).2
  let fl3 := (nvm_write_buffer hw fl2 (u32 (APP_START_ADDRESS + c * ROW_SIZE + 128)) (slice b 128 64)).2
  (nvm_write_buffer hw fl3 (u32 (APP_START_ADDRESS + c * ROW_SIZE + 192)) (slice b 192 64)).2

/-- The calls of one full row of the copy loop. -/
def fullRowCalls (b : List Nat) (c : Nat) : List Call :=
  [Call.f_read Handle.file_object_bin ROW_SIZE,
    Call.nvm_write_buffer (pageAddress c 0) (slice b 0 64),
    Call.nvm_write_buffer (u32 (APP_START_ADDRESS + c * ROW_SIZE + 64)) (slice b 64 64),
    Call.nvm_write_buffer (u32 (APP_START_ADDRESS + c * ROW_SIZE + 128)) (slice b 128 64),
    Call.nvm_write_buffer (u32 (APP_START_ADDRESS + c * ROW_SIZE + 192)) (slice b 192 64),
    Call.dsu_crc32_cal_ram (slice b 0 ROW_SIZE),
    Call.dsu_crc32_cal_nvm (pageAddress c 0) ROW_SIZE]

/-- A write `w` of the copy loop that starts at row `c` with `L` bytes left to
read: it targets page offset `off` of some row `k` between `c` and the last row
`c + L / 256`, carries at most one page, stays inside the row, and in the last
row stays inside the `L % 256` bytes that were read. -/
def InRow (c L : Nat) (w : Nat × List Nat) : Prop :=
  ∃ k off, c ≤ k ∧ k ≤ c + L / 256 ∧ off % 64 = 0 ∧ off < 256 ∧
    w.1 = u32 (APP_START_ADDRESS + k * ROW_SIZE + off) ∧ w.2.length ≤ 64 ∧
    off + w.2.length ≤ 256 ∧ (k = c + L / 256 → off + w.2.length ≤ L % 256)

/-- An SD card stack without a card: `SdCard_Initiate` does not return
`CTRL_GOOD`. -/
def sdAbsent : SdCard :=
  { sdGood with initiate_good := false }

/-- Boot without a card in the slot. -/
def bootNoCard : Boot :=
  { bootNoImage with sd := sdAbsent }

/-- A controller that reports the geometry 0 pages of 0 bytes; every call
succeeds. -/
def hwZeroGeometry : Hardware :=
  { hwGood with parameters := { nvm_number_of_pages := 0, page_size := 0 } }

/-- A SAMD21 whose page writes fail and whose DSU computes for every start
address; everything else succeeds. -/
def hwWriteFaultAnyAddress : Hardware :=
  { hwWriteFault with dsu_accepts := fun _ => true }

/-! ## `jumpToApplication` -/

/-- The 32-bit word stored at `addr` (the Cortex-M0+ is little-endian). -/
def readWord (fl : Flash) (addr : Nat) : Nat :=
  fl addr % 256 + 256 * (fl (addr + 1) % 256) + 65536 * (fl (addr + 2) % 256)
    + 16777216 * (fl (addr + 3) % 256)

/-- What `jumpToApplication` does to the processor. -/
inductive CpuOp where
  /-- The call `__set_MSP(value)`. -/
  | set_MSP (value : Nat)
  /-- The assignment `SCB->VTOR = value`. -/
  | set_VTOR (value : Nat)
  /-- The call of the function at address `target`. -/
  | call (target : Nat)
  deriving DecidableEq, Repr

/-- The function `static void jumpToApplication(void)`: rebase the stack
pointer, rebase the vector table, call the application's reset vector. The
CMSIS constant `SCB_VTOR_TBLOFF_Msk` is not defined in the sources at hand and
is a parameter. -/
def jumpToApplication (SCB_VTOR_TBLOFF_Msk : Nat) (fl : Flash) : List CpuOp :=
  [CpuOp.set_MSP (readWord fl APP_START_ADDRESS),
    CpuOp.set_VTOR (APP_START_ADDRESS &&& SCB_VTOR_TBLOFF_Msk),
    CpuOp.call (readWord fl APP_START_RESET_VEC_ADDRESS)]

/-- A flash content whose application starts with the words `0x20008000`
(initial stack pointer) and `0x000121A5` (reset vector). -/
def flashWithVectors : Flash := fun a =>
  if a = 0x12000 then 0x00 else if a = 0x12001 then 0x80 else if a = 0x12002 then 0x00
  else if a = 0x12003 then 0x20 else if a = 0x12004 then 0xA5 else if a = 0x12005 then 0x21
  else if a = 0x12006 then 0x01 else if a = 0x12007 then 0x00 else 0xFF

/-! ## `main` of `BootMain_Mars.c` (the A/B test bootloader, `TEST_AB`) -/

def testA_file_name : String := "0:FlagA.txt"

def testB_file_name : String := "0:FlagB.txt"

def testA_bin_file : String := "0:TestA.bin"

def testB_bin_file : String := "0:TestB.bin"

/-- What the A/B bootloader finds at reset. `flagA` and `flagB` tell whether
`0:FlagA.txt` and `0:FlagB.txt` can be opened, `testA` and `testB` are the
contents of `0:TestA.bin` and `0:TestB.bin` (`none` when the file cannot be
opened), `crc_ok` tells whether the two `dsu_crc32_cal` calls on `readBuffer`
return `STATUS_OK`. -/
structure Mars.Boot where
  hw : Hardware
  sd : SdCard
  flagA : Bool
  flagB : Bool
  testA : Option (List Nat)
  testB : Option (List Nat)
  crc_ok : Bool
  flash : Flash
  readBuffer : List Nat

/-- Lines 126 to 162 of `main`: report the geometry, erase the first
application row and check that it reads `0xFF`. `char` is unsigned on the ARM,
so the check compares bytes with `0xFF`. Returns the flash content and the
calls issued. -/
def Mars.eraseFirstRow (m : Mars.Boot) : Flash × List Call :=
  let e := nvm_erase_row m.hw m.flash APP_START_ADDRESS
  (e.2,
    [Call.nvm_get_parameters,
      Call.SerialConsoleWriteString "NVM Info: Number of Pages %d. Size of a page: %d bytes. \r\n",
      Call.nvm_erase_row APP_START_ADDRESS]
    ++ (if e.1 then [] else [Call.SerialConsoleWriteString "Erase error"])
    ++ (if (readBack e.2 APP_START_ADDRESS 256).all (fun x => x == 0xFF) then []
        else [Call.SerialConsoleWriteString "Error - test page is not erased!"]))

/-- Lines 166 to 197 of `main`: `isTaskA` is set by the `f_open` of
`0:FlagA.txt`, and decides which image is opened. Returns the content of the
opened image (`none` when that `f_open` fails) and the calls issued. -/
def Mars.selectImage (m : Mars.Boot) : Option (List Nat) × List Call :=
  let isTaskA := m.flagA
  let file := if isTaskA then m.testA else m.testB
  (file,
    [Call.SerialConsoleWriteString "hello about to do isTaskA \r\n",
      Call.f_open Handle.file_object testA_file_name]
    ++ (if isTaskA then
        [Call.SerialConsoleWriteString "flagA.txt is in SD card, we are doing testA\r\n",
          Call.f_open Handle.file_object testA_bin_file,
          Call.SerialConsoleWriteString "TaskA Bin is found and opened\r\n"]
      else
        [Call.SerialConsoleWriteString "flagA.txt is not in SD card, we are doing testB\r\n",
          Call.f_open Handle.file_object testB_bin_file,
          Call.SerialConsoleWriteString "TaskB Bin is found and opened\r\n"])
    ++ (if file.isSome then []
        else [Call.SerialConsoleWriteString "Could not open test file!\r\n"])
    ++ [Call.SerialConsoleWriteString "finished fopen\r\n"])

/-- The bytes that the one `f_read` of 256 bytes delivers
(`numBytesLeft -= numBytesLeft` ends the loop after the first pass): nothing
when the file could not be opened or the read fails. -/
def Mars.readRow (m : Mars.Boot) (file : Option (List Nat)) : List Nat :=
  match file with
  | some content => if m.hw.read_status 0 then content.take 256 else []
  | none => []

/-- Lines 199 to 247 of `main`: read one row into `readBuffer`, write it to
the first application row in four pages, compute the two checksums, both over
`readBuffer`. Returns the flash content and the calls issued. -/
def Mars.copyFirstRow (m : Mars.Boot) (file : Option (List Nat)) (fl : Flash) :
    Flash × List Call :=
  let chunk := Mars.readRow m file
  let buf := chunk ++ m.readBuffer.drop chunk.length
  let w0 := nvm_write_buffer m.hw fl APP_START_ADDRESS (slice buf 0 64)
  let w1 := nvm_write_buffer m.hw w0.2 (u32 (APP_START_ADDRESS + 64)) (slice buf 64 64)
  let w2 := nvm_write_buffer m.hw w1.2 (u32 (APP_START_ADDRESS + 128)) (slice buf 128 64)
  let w3 := nvm_write_buffer m.hw w2.2 (u32 (APP_START_ADDRESS + 192)) (slice buf 192 64)
  (w3.2,
    [Call.f_read Handle.file_object 256,
      Call.nvm_write_buffer APP_START_ADDRESS (slice buf 0 64),
      Call.nvm_write_buffer (u32 (APP_START_ADDRESS + 64)) (slice buf 64 64),
      Call.nvm_write_buffer (u32 (APP_START_ADDRESS + 128)) (slice buf 128 64),
      Call.nvm_write_buffer (u32 (APP_START_ADDRESS + 192)) (slice buf 192 64),
      Call.SerialConsoleWriteString
        (if w3.1 then "Test write to NVM succeeded!\r\n" else "Test write to NVM failed!\r\n"),
      Call.dsu_crc32_cal_ram (slice buf 0 256),
      Call.dsu_crc32_cal_ram (slice buf 0 256),
      Call.SerialConsoleWriteString
        (if m.crc_ok then "CRC SD CARD: %d  CRC NVM: %d \r\n" else "Could not calculate CRC!!\r\n")])

/-- The part of `main` between `#ifdef TEST_AB` and `#endif`: erase the first
application row, pick the image by the marker `0:FlagA.txt`, copy its first
row. Returns the flash content and the calls issued. -/
def Mars.testAB (m : Mars.Boot) : Flash × List Call :=
  let e := Mars.eraseFirstRow m
  let s := Mars.selectImage m
  let c := Mars.copyFirstRow m s.1 e.1
  (c.1, e.2 ++ s.2 ++ c.2)

/-- The calls of step 4 of `main` of `BootMain_Mars.c`. -/
def Mars.mainExit : List Call :=
  [Call.SerialConsoleWriteString "ESE5160 - EXIT BOOTLOADER",
    Call.delay_cycles_ms 100, Call.DeinitializeSerialConsole, Call.sd_mmc_deinit,
    Call.jumpToApplication]

/-- The function `int main(void)` of `BootMain_Mars.c`. Steps 1 and 2 and
`StartFilesystemAndTest` are those of `BootMain.c`. Returns how it ends, the
flash content and the calls issued. -/
def Mars.main (m : Mars.Boot) : Exit × Flash × List Call :=
  let s := StartFilesystemAndTest m.sd
  if s.1 = false then
    (Exit.reset, m.flash, mainInit ++ s.2 ++
      [Call.SerialConsoleWriteString
          "SD CARD failed! Check your connections. System will restart in 5 seconds...",
        Call.delay_cycles_ms 5000, Call.system_reset])
  else
    let u := Mars.testAB m
    (Exit.jumped, u.1, mainInit ++ s.2 ++
      [Call.SerialConsoleWriteString "SD CARD mount success! Filesystem also mounted. \r\n"]
      ++ u.2 ++ Mars.mainExit)

/-- The file names passed to `f_open`, in order. -/
def openCalls : List Call → List String
  | [] => []
  | Call.f_open _ n :: t => n :: openCalls t
  | _ :: t => openCalls t

/-- A card with both markers and both images. -/
def marsBothMarkers : Mars.Boot :=
  { hw := hwGood, sd := sdGood, flagA := true, flagB := true,
    testA := some rowImage, testB := some (List.replicate 256 0xBB), crc_ok := true,
    flash := fun _ => 0, readBuffer := List.replicate 256 0 }

/-- A card with neither marker and neither image. -/
def marsNoMarkers : Mars.Boot :=
  { hw := hwGood, sd := sdGood, flagA := false, flagB := false,
    testA := none, testB := none, crc_ok := true,
    flash := fun _ => 0, readBuffer := List.replicate 256 0 }

/-- Flash in the erased state: every byte reads `0xFF`. -/
def flashErased : Flash := fun _ => 0xFF

/-! ## `I2cDriver.c` (application) -/

def ERROR_NONE : Int := 0

def ERROR_ABORTED : Int := -3

def ERROR_IO : Int := -6

def ERROR_NOT_INITIALIZED : Int := -20

def ERROR_NOT_READY : Int := -29

/-- The type `struct I2C_Data`; a null pointer is `none`. -/
structure I2C_Data where
  address : Nat
  msgOut : Option (List Nat)
  msgIn : Option (List Nat)
  lenIn : Nat
  lenOut : Nat

/-- Answers of FreeRTOS and of the ASF I2C master driver during one call of
`I2cReadDataWait`, in the order in which the function asks for them.

* `ERR_INVALID_ARG`, `ERR_TIMEOUT`: the two ASF status codes that the driver
  uses; their definitions are not among the sources;
* `mutexTake`: `xSemaphoreTake(sensorI2cMutexHandle, ..) == pdTRUE`;
* `writeJob`: `i2c_master_write_packet_job(..) == STATUS_OK`;
* `semTakeWrite`: the first `xSemaphoreTake(semHandle, xMaxBlockTime) == pdTRUE`;
* `errorAfterWrite`: the value of `sensorTransmitError` read after it;
* `readJob`: `i2c_master_read_packet_job(..) == STATUS_OK`;
* `semTakeRead`: the second `xSemaphoreTake(semHandle, xMaxBlockTime) == pdTRUE`;
* `errorAfterRead`: the value of `sensorTransmitError` read after it;
* `mutexGive`: `xSemaphoreGive(sensorI2cMutexHandle) == pdTRUE`. -/
structure I2cBus where
  ERR_INVALID_ARG : Int
  ERR_TIMEOUT : Int
  mutexTake : Bool
  writeJob : Bool
  semTakeWrite : Bool
  errorAfterWrite : Nat
  readJob : Bool
  semTakeRead : Bool
  errorAfterRead : Nat
  mutexGive : Bool

/-- The function `int32_t I2cGetMutex(TickType_t waitTime)`. -/
def I2cGetMutex (e : I2cBus) : Int :=
  if e.mutexTake then ERROR_NONE else ERROR_NOT_READY

/-- The function `int32_t I2cFreeMutex(void)`. -/
def I2cFreeMutex (e : I2cBus) : Int :=
  if e.mutexGive then ERROR_NONE else ERROR_NOT_INITIALIZED

/-- The function `int32_t I2cWriteData(I2C_Data *data)`. -/
def I2cWriteData (e : I2cBus) (data : Option I2C_Data) : Int :=
  match data with
  | none => e.ERR_INVALID_ARG
  | some d =>
    if d.msgOut.isNone then e.ERR_INVALID_ARG
    else if e.writeJob then ERROR_NONE else ERROR_IO

/-- The function `int32_t I2cReadData(I2C_Data *data)`; the parameter check looks
at `msgOut`, as in the source. -/
def I2cReadData (e : I2cBus) (data : Option I2C_Data) : Int :=
  match data with
  | none => e.ERR_INVALID_ARG
  | some d =>
    if d.msgOut.isNone then e.ERR_INVALID_ARG
    else if e.readJob then ERROR_NONE else ERROR_IO

/-- The label `exitError0` of `I2cReadDataWait`:
`error = I2cFreeMutex(); return error;`. The value that `error` holds on
arrival is overwritten. -/
def I2cReadDataWait.exitError0 (e : I2cBus) (_error : Int) : Int :=
  I2cFreeMutex e

/-- The function
`int32_t I2cReadDataWait(I2C_Data *data, const TickType_t delay, const TickType_t xMaxBlockTime)`:
the returned value. `I2cGetSemaphoreHandle` always returns `ERROR_NONE`. -/
def I2cReadDataWait (e : I2cBus) (data : Option I2C_Data) : Int :=
  let error := I2cGetMutex e
  if ERROR_NONE ≠ error then error
  else
    let error := I2cWriteData e data
    if ERROR_NONE ≠ error then I2cReadDataWait.exitError0 e error
    else if e.semTakeWrite then
      if e.errorAfterWrite ≠ 0 then I2cReadDataWait.exitError0 e ERROR_ABORTED
      else
        let error := I2cReadData e data
        if ERROR_NONE ≠ error then I2cReadDataWait.exitError0 e error
        else if e.semTakeRead then
          if e.errorAfterRead ≠ 0 then I2cReadDataWait.exitError0 e ERROR_ABORTED
          else I2cFreeMutex e
        else I2cReadDataWait.exitError0 e e.ERR_TIMEOUT
    else I2cReadDataWait.exitError0 e e.ERR_TIMEOUT

/-- The transaction completes normally: both jobs are accepted, both waits on
the semaphore succeed and the bus error flag is clear after each. -/
def I2cBus.completes (e : I2cBus) (data : Option I2C_Data) : Bool :=
  I2cWriteData e data == ERROR_NONE && e.semTakeWrite && e.errorAfterWrite == 0 &&
    I2cReadData e data == ERROR_NONE && e.semTakeRead && e.errorAfterRead == 0

/-- A bus on which the write job is refused by the driver and everything else
succeeds; the ASF codes are those of `status_codes.h`. -/
def busWriteRefused : I2cBus :=
  { ERR_INVALID_ARG := -8, ERR_TIMEOUT := -3, mutexTake := true, writeJob := false,
    semTakeWrite := true, errorAfterWrite := 0, readJob := true, semTakeRead := true,
    errorAfterRead := 0, mutexGive := true }

/-- The request of `SHTC3_ReadTemperatureAndHumidity(buffer, 5)`: five bytes to
read after the two-byte measurement command. -/
def sensorRequest : I2C_Data :=
  { address := 0x70, msgOut := some [0x78, 0x66], msgIn := some [0, 0, 0, 0, 0],
    lenIn := 5, lenOut := 2 }

/-! ## `circular_buffer.c` and the serial console -/

/-- Arithmetic on `size_t`, 32 bits wide on this controller. -/
def size_t (x : Nat) : Nat := x % 2 ^ 32

/-- The difference `a - b` of two `size_t` values, which wraps around. -/
def size_t_sub (a b : Nat) : Nat := (a + 2 ^ 32 - b) % 2 ^ 32

/-- The type `struct circular_buf_t`. `buffer` is the memory that the pointer
`uint8_t * buffer` points to, by index. -/
structure circular_buf_t where
  buffer : Nat → Nat
  head : Nat
  tail : Nat
  max : Nat
  full : Bool

/-- The function `static void advance_pointer(cbuf_handle_t cbuf)`. -/
def advance_pointer (cbuf : circular_buf_t) : circular_buf_t :=
  let tail := if cbuf.full then size_t (cbuf.tail + 1) % cbuf.max else cbuf.tail
  let head := size_t (cbuf.head + 1) % cbuf.max
  { cbuf with tail := tail, head := head, full := (head == tail) }

/-- The function `static void retreat_pointer(cbuf_handle_t cbuf)`. -/
def retreat_pointer (cbuf : circular_buf_t) : circular_buf_t :=
  { cbuf with full := false, tail := size_t (cbuf.tail + 1) % cbuf.max }

/-- The function `void circular_buf_reset(cbuf_handle_t cbuf)`. -/
def circular_buf_reset (cbuf : circular_buf_t) : circular_buf_t :=
  { cbuf with head := 0, tail := 0, full := false }

/-- The function `cbuf_handle_t circular_buf_init(uint8_t* buffer, size_t size)`.
The fields of the fresh structure that `circular_buf_reset` sets are shown as
already set. -/
def circular_buf_init (buffer : Nat → Nat) (size : Nat) : circular_buf_t :=
  circular_buf_reset { buffer := buffer, head := 0, tail := 0, max := size, full := false }

/-- The function `bool circular_buf_empty(cbuf_handle_t cbuf)`. -/
def circular_buf_empty (cbuf : circular_buf_t) : Bool :=
  !cbuf.full && (cbuf.head == cbuf.tail)

/-- The function `bool circular_buf_full(cbuf_handle_t cbuf)`. -/
def circular_buf_full (cbuf : circular_buf_t) : Bool :=
  cbuf.full

/-- The function `size_t circular_buf_size(cbuf_handle_t cbuf)`. -/
def circular_buf_size (cbuf : circular_buf_t) : Nat :=
  if !cbuf.full then
    if cbuf.head ≥ cbuf.tail then cbuf.head - cbuf.tail
    else size_t_sub (size_t (cbuf.max + cbuf.head)) cbuf.tail
  else cbuf.max

/-- The function `size_t circular_buf_capacity(cbuf_handle_t cbuf)`. -/
def circular_buf_capacity (cbuf : circular_buf_t) : Nat :=
  cbuf.max

/-- The function `void circular_buf_put(cbuf_handle_t cbuf, uint8_t data)`. -/
def circular_buf_put (cbuf : circular_buf_t) (data : Nat) : circular_buf_t :=
  advance_pointer { cbuf with buffer := Function.update cbuf.buffer cbuf.head data }

/-- The function `int circular_buf_put2(cbuf_handle_t cbuf, uint8_t data)`: the
returned value and the buffer. -/
def circular_buf_put2 (cbuf : circular_buf_t) (data : Nat) : Int × circular_buf_t :=
  if !circular_buf_full cbuf then
    (0, advance_pointer { cbuf with buffer := Function.update cbuf.buffer cbuf.head data })
  else (-1, cbuf)

/-- The function `int circular_buf_get(cbuf_handle_t cbuf, uint8_t * data)`: the
returned value, the buffer and the byte that `data` points to, `data` being
its value before the call. -/
def circular_buf_get (cbuf : circular_buf_t) (data : Nat) : Int × circular_buf_t × Nat :=
  if !circular_buf_empty cbuf then
    (0, retreat_pointer cbuf, cbuf.buffer cbuf.tail)
  else (-1, cbuf, data)

/-- The function `int SerialConsoleReadCharacter(uint8_t *rxChar)`, on the
buffer `cbufRx`. The application's version brackets the call with
`vTaskSuspendAll` and `xTaskResumeAll`. -/
def SerialConsoleReadCharacter (cbufRx : circular_buf_t) (rxChar : Nat) :
    Int × circular_buf_t × Nat :=
  circular_buf_get cbufRx rxChar

/-- The loop `for (iter = 0; iter < strlen(string); iter++) circular_buf_put(cbufTx, string[iter]);`
of `SerialConsoleWriteString`. -/
def putString (cbufTx : circular_buf_t) (string : List Nat) : circular_buf_t :=
  string.foldl circular_buf_put cbufTx

/-- A number `n` of successive `circular_buf_get` calls: the value returned and
the byte delivered by each, and the buffer afterwards. -/
def getMany : Nat → circular_buf_t → Nat → List (Int × Nat) × circular_buf_t
  | 0, cbuf, _ => ([], cbuf)
  | n + 1, cbuf, data =>
    let r := circular_buf_get cbuf data
    let rest := getMany n r.2.1 r.2.2
    ((r.1, r.2.2) :: rest.1, rest.2)

/-- One call of the buffer's interface. -/
inductive CbufOp where
  | put (data : Nat)
  | put2 (data : Nat)
  | get
  deriving Repr

/-- The buffer after one call. -/
def CbufOp.apply (cbuf : circular_buf_t) : CbufOp → circular_buf_t
  | CbufOp.put data => circular_buf_put cbuf data
  | CbufOp.put2 data => (circular_buf_put2 cbuf data).2
  | CbufOp.get => (circular_buf_get cbuf 0).2.1

/-- The buffer after a sequence of calls. -/
def runOps (cbuf : circular_buf_t) (ops : List CbufOp) : circular_buf_t :=
  ops.foldl CbufOp.apply cbuf

/-- The representation invariant of the buffer: a capacity that is a nonzero
`size_t`, both indices inside the array, and `full` only with equal indices. -/
def WellFormed (cbuf : circular_buf_t) : Prop :=
  0 < cbuf.max ∧ cbuf.max < 2 ^ 32 ∧ cbuf.head < cbuf.max ∧ cbuf.tail < cbuf.max ∧
    (cbuf.full = true → cbuf.head = cbuf.tail)

/-- The bytes held by the buffer, oldest first. -/
def contents (cbuf : circular_buf_t) : List Nat :=
  (List.range (circular_buf_size cbuf)).map (fun i => cbuf.buffer ((cbuf.tail + i) % cbuf.max))

/-- A freshly initialised buffer of capacity 4 over zeroed memory. -/
def cbufSmall : circular_buf_t := circular_buf_init (fun _ => 0) 4

/-- The buffer of capacity 4 after the bytes `0x41`, `0x42` were put. -/
def cbufTwo : circular_buf_t := putString cbufSmall [0x41, 0x42]

/-- The buffer of capacity 4 after the bytes 1, 2, 3, 4 were put: it is full. -/
def cbufFull : circular_buf_t := putString cbufSmall [1, 2, 3, 4]

/-! ## `SSD1306.c` -/

def SSD1306_WIDTH : Nat := 128

def SSD1306_HEIGHT : Nat := 64

def SSD1306_COLOR_BLACK : Nat := 0

def SSD1306_COLOR_WHITE : Nat := 1

/-- The type `SSD1306_t`. -/
structure SSD1306_t where
  CurrentX : Nat
  CurrentY : Nat
  Inverted : Nat
  Initialized : Nat

/-- The number of elements of
`static uint8_t SSD1306_Buffer[SSD1306_WIDTH * SSD1306_HEIGHT / 8]`. -/
def SSD1306_Buffer_size : Nat := SSD1306_WIDTH * SSD1306_HEIGHT / 8

/-- The function `void SSD1306_DrawPixel(uint16_t x, uint16_t y, SSD1306_COLOR_t color)`.
`SSD1306_Buffer` is the memory from the start of the array on, by index; the
indices from `SSD1306_Buffer_size` on lie behind the array. Returns the memory
and the index that the call reads and writes (`none` when it returns at
once). -/
def SSD1306_DrawPixel (SSD1306 : SSD1306_t) (SSD1306_Buffer : Nat → Nat) (x y color : Nat) :
    (Nat → Nat) × Option Nat :=
  if x ≥ SSD1306_WIDTH ∨ y ≥ SSD1306_HEIGHT then (SSD1306_Buffer, none)
  else
    let color := if SSD1306.Inverted ≠ 0 then (if color = 0 then 1 else 0) else color
    let i := x + (y / 8) * SSD1306_WIDTH + 1
    if color = SSD1306_COLOR_WHITE then
      (Function.update SSD1306_Buffer i ((SSD1306_Buffer i ||| (1 <<< (y % 8))) % 256), some i)
    else
      (Function.update SSD1306_Buffer i (SSD1306_Buffer i % 256 &&& (0xFF ^^^ (1 <<< (y % 8)))),
        some i)

/-! ## Lemmas -/

theorem image57345_length : image57345.length = 57345 :=
  List.length_replicate _ _

theorem crcCalls_append (s t : List Call) : crcCalls (s ++ t) = crcCalls s ++ crcCalls t := by
  induction s with
  | nil => rfl
  | cons c s ih => cases c <;> simp [crcCalls, ih]

theorem eraseAddrs_append (s t : List Call) : eraseAddrs (s ++ t) = eraseAddrs s ++ eraseAddrs t := by
  induction s with
  | nil => rfl
  | cons c s ih => cases c <;> simp [eraseAddrs, ih]

theorem writeCalls_append (s t : List Call) : writeCalls (s ++ t) = writeCalls s ++ writeCalls t := by
  induction s with
  | nil => rfl
  | cons c s ih => cases c <;> simp [writeCalls, ih]

theorem unlinkCalls_append (s t : List Call) : unlinkCalls (s ++ t) = unlinkCalls s ++ unlinkCalls t := by
  induction s with
  | nil => rfl
  | cons c s ih => cases c <;> simp [unlinkCalls, ih]

theorem flashOps_append (s t : List Call) : flashOps (s ++ t) = flashOps s ++ flashOps t := by
  induction s with
  | nil => rfl
  | cons c s ih => cases c <;> simp [flashOps, ih]

theorem jumpCount_append (s t : List Call) : jumpCount (s ++ t) = jumpCount s + jumpCount t := by
  induction s with
  | nil => simp [jumpCount]
  | cons c s ih => cases c <;> simp [jumpCount, ih]; omega

theorem loop_read_error (hw : Hardware) (rest buf : List Nat) (c sd nvm : Nat) (fl : Flash)
    (h : hw.read_status c = false) :
    WriteApplication.loop hw rest buf c sd nvm fl =
      { ok := false, flash := fl,
        trace := [Call.f_read Handle.file_object_bin ROW_SIZE,
          Call.SerialConsoleWriteString "read File ERROR", Call.f_close Handle.file_object_bin],
        resultCrcSd := sd, resultCrcNvm := nvm } := by
  rw [WriteApplication.loop]; simp [h]

theorem loop_last (hw : Hardware) (rest buf : List Nat) (c sd nvm : Nat) (fl : Flash)
    (h : hw.read_status c = true) (hlen : rest.length < ROW_SIZE) :
    WriteApplication.loop hw rest buf c sd nvm fl =
      { WriteApplication.lastRow hw (rest ++ buf.drop rest.length) rest.length c sd nvm fl with
        trace := Call.f_read Handle.file_object_bin ROW_SIZE ::
          (WriteApplication.lastRow hw (rest ++ buf.drop rest.length) rest.length c sd nvm fl).trace } := by
  rw [WriteApplication.loop]
  have h1 : List.take ROW_SIZE rest = rest := List.take_of_length_le (le_of_lt hlen)
  have h2 : rest.length ≠ ROW_SIZE := ne_of_lt hlen
  simp [h, h1, h2]

theorem loop_full (hw : Hardware) (rest buf : List Nat) (c sd nvm : Nat) (fl : Flash)
    (h : hw.read_status c = true) (hlen : ROW_SIZE ≤ rest.length) :
    WriteApplication.loop hw rest buf c sd nvm fl =
      let b := rest.take ROW_SIZE ++ buf.drop ROW_SIZE
      let a0 := pageAddress c 0
      let a1 := u32 (APP_START_ADDRESS + c * ROW_SIZE + 64)
      let a2 := u32 (APP_START_ADDRESS + c * ROW_SIZE + 128)
      let a3 := u32 (APP_START_ADDRESS + c * ROW_SIZE + 192)
      let fl1 := (nvm_write_buffer hw fl a0 (slice b 0 64)).2
      let fl2 := (nvm_write_buffer hw fl1 a1 (slice b 64 64)).2
      let fl3 := (nvm_write_buffer hw fl2 a2 (slice b 128 64)).2
      let fl4 := (nvm_write_buffer hw fl3 a3 (slice b 192 64)).2
      let crcSd := dsu_crc32_cal_ram hw (slice b 0 ROW_SIZE) sd
      let crcNvm := dsu_crc32_cal_nvm hw fl4 a0 ROW_SIZE nvm
      let r := WriteApplication.loop hw (rest.drop ROW_SIZE) b (c + 1) crcSd crcNvm fl4
      { r with trace :=
          [Call.f_read Handle.file_object_bin ROW_SIZE,
            Call.nvm_write_buffer a0 (slice b 0 64),
            Call.nvm_write_buffer a1 (slice b 64 64),
            Call.nvm_write_buffer a2 (slice b 128 64),
            Call.nvm_write_buffer a3 (slice b 192 64),
            Call.dsu_crc32_cal_ram (slice b 0 ROW_SIZE),
            Call.dsu_crc32_cal_nvm a0 ROW_SIZE] ++ r.trace } := by
  rw [WriteApplication.loop]
  have h1 : (List.take ROW_SIZE rest).length = ROW_SIZE := by
    rw [List.length_take]; omega
  simp only [h, h1]
  simp

theorem writeCalls_remainLoop (hw : Hardware) (buf : List Nat) (c : Nat) (n i : Nat) (fl : Flash) :
    writeCalls (WriteApplication.remainLoop hw buf c n i fl).2 =
      (List.range' i n).map (fun j => (pageAddress c j, slice buf (64 * j) 64)) := by
  induction n generalizing i fl with
  | zero => simp [WriteApplication.remainLoop, writeCalls]
  | succ n ih =>
    simp [WriteApplication.remainLoop, writeCalls, ih, List.range'_succ]

theorem writeCalls_finish (fl : Flash) (t : List Call) (sd nvm : Nat) :
    writeCalls (WriteApplication.finish fl t sd nvm).trace = writeCalls t := by
  unfold WriteApplication.finish
  split <;> simp [writeCalls_append, writeCalls]

theorem writeCalls_lastRow (hw : Hardware) (buf : List Nat) (n c sd nvm : Nat) (fl : Flash) :
    writeCalls (WriteApplication.lastRow hw buf n c sd nvm fl).trace =
      (List.range' 0 (n / 64 % 256)).map (fun j => (pageAddress c j, slice buf (64 * j) 64))
        ++ [(pageAddress c (n / 64 % 256), slice buf (64 * (n / 64 % 256)) (n % 64 % 256))] := by
  simp [WriteApplication.lastRow, writeCalls_finish, writeCalls_append, writeCalls_remainLoop,
    writeCalls]

theorem loop_full' (hw : Hardware) (rest buf : List Nat) (c sd nvm : Nat) (fl : Flash)
    (h : hw.read_status c = true) (hlen : ROW_SIZE ≤ rest.length) :
    WriteApplication.loop hw rest buf c sd nvm fl =
      { WriteApplication.loop hw (rest.drop ROW_SIZE) (rest.take ROW_SIZE ++ buf.drop ROW_SIZE)
          (c + 1)
          (dsu_crc32_cal_ram hw (slice (rest.take ROW_SIZE ++ buf.drop ROW_SIZE) 0 ROW_SIZE) sd)
          (dsu_crc32_cal_nvm hw (fullRowFlash hw (rest.take ROW_SIZE ++ buf.drop ROW_SIZE) c fl)
            (pageAddress c 0) ROW_SIZE nvm)
          (fullRowFlash hw (rest.take ROW_SIZE ++ buf.drop ROW_SIZE) c fl) with
        trace := fullRowCalls (rest.take ROW_SIZE ++ buf.drop ROW_SIZE) c ++
          (WriteApplication.loop hw (rest.drop ROW_SIZE) (rest.take ROW_SIZE ++ buf.drop ROW_SIZE)
          (c + 1)
          (dsu_crc32_cal_ram hw (slice (rest.take ROW_SIZE ++ buf.drop ROW_SIZE) 0 ROW_SIZE) sd)
          (dsu_crc32_cal_nvm hw (fullRowFlash hw (rest.take ROW_SIZE ++ buf.drop ROW_SIZE) c fl)
            (pageAddress c 0) ROW_SIZE nvm)
          (fullRowFlash hw (rest.take ROW_SIZE ++ buf.drop ROW_SIZE) c fl)).trace } := by
  rw [loop_full hw rest buf c sd nvm fl h hlen]
  rfl

/-- Induction along the copy loop: a property of the loop's result follows
from the three ways an iteration can go. -/
theorem loop_ind (hw : Hardware)
    (P : List Nat → List Nat → Nat → Nat → Nat → Flash → WriteResult → Prop)
    (herr : ∀ rest buf c sd nvm fl, hw.read_status c = false →
      P rest buf c sd nvm fl
        { ok := false, flash := fl,
          trace := [Call.f_read Handle.file_object_bin ROW_SIZE,
            Call.SerialConsoleWriteString "read File ERROR",
            Call.f_close Handle.file_object_bin],
          resultCrcSd := sd, resultCrcNvm := nvm })
    (hlast : ∀ rest buf c sd nvm fl, hw.read_status c = true → rest.length < ROW_SIZE →
      P rest buf c sd nvm fl
        { WriteApplication.lastRow hw (rest ++ buf.drop rest.length) rest.length c sd nvm fl with
          trace := Call.f_read Handle.file_object_bin ROW_SIZE ::
            (WriteApplication.lastRow hw (rest ++ buf.drop rest.length) rest.length c sd nvm
              fl).trace })
    (hfull : ∀ rest buf c sd nvm fl, hw.read_status c = true → ROW_SIZE ≤ rest.length →
      ∀ r : WriteResult,
      P (rest.drop ROW_SIZE) (rest.take ROW_SIZE ++ buf.drop ROW_SIZE) (c + 1)
        (dsu_crc32_cal_ram hw (slice (rest.take ROW_SIZE ++ buf.drop ROW_SIZE) 0 ROW_SIZE) sd)
        (dsu_crc32_cal_nvm hw (fullRowFlash hw (rest.take ROW_SIZE ++ buf.drop ROW_SIZE) c fl)
          (pageAddress c 0) ROW_SIZE nvm)
        (fullRowFlash hw (rest.take ROW_SIZE ++ buf.drop ROW_SIZE) c fl) r →
      P rest buf c sd nvm fl
        { r with trace := fullRowCalls (rest.take ROW_SIZE ++ buf.drop ROW_SIZE) c ++ r.trace })
    (rest buf : List Nat) (c sd nvm : Nat) (fl : Flash) :
    P rest buf c sd nvm fl (WriteApplication.loop hw rest buf c sd nvm fl) := by
  induction rest, buf, c, sd, nvm, fl using WriteApplication.loop.induct hw with
  | case1 rest buf c sd nvm fl h =>
    rw [loop_read_error hw rest buf c sd nvm fl h]
    exact herr rest buf c sd nvm fl h
  | case2 rest buf c sd nvm fl h chunk n hn =>
    have hr : hw.read_status c = true := by simpa using h
    have hlen : rest.length < ROW_SIZE := by
      have h1 : (List.take ROW_SIZE rest).length ≠ ROW_SIZE := hn
      rw [List.length_take] at h1
      omega
    rw [loop_last hw rest buf c sd nvm fl hr hlen]
    exact hlast rest buf c sd nvm fl hr hlen
  | case3 rest buf c sd nvm fl h chunk n b hn a0 a1 a2 a3 fl1 fl2 fl3 fl4 crcSd crcNvm ih =>
    have hr : hw.read_status c = true := by simpa using h
    have h1 : (List.take ROW_SIZE rest).length = ROW_SIZE := not_not.mp hn
    have hlen : ROW_SIZE ≤ rest.length := by
      rw [List.length_take] at h1
      omega
    have hb : b = rest.take ROW_SIZE ++ buf.drop ROW_SIZE := by
      show List.take ROW_SIZE rest ++ List.drop (List.take ROW_SIZE rest).length buf = _
      rw [h1]
    rw [loop_full' hw rest buf c sd nvm fl hr hlen]
    apply hfull rest buf c sd nvm fl hr hlen
    rw [← hb]
    exact ih

/-- Calls that are neither an erase, nor an unlink, nor the jump. -/
theorem others_finish (fl : Flash) (t : List Call) (sd nvm : Nat) :
    eraseAddrs (WriteApplication.finish fl t sd nvm).trace = eraseAddrs t ∧
    unlinkCalls (WriteApplication.finish fl t sd nvm).trace = unlinkCalls t ∧
    jumpCount (WriteApplication.finish fl t sd nvm).trace = jumpCount t := by
  unfold WriteApplication.finish
  split <;> simp [eraseAddrs_append, unlinkCalls_append, jumpCount_append, eraseAddrs,
    unlinkCalls, jumpCount]

theorem others_remainLoop (hw : Hardware) (buf : List Nat) (c n i : Nat) (fl : Flash) :
    eraseAddrs (WriteApplication.remainLoop hw buf c n i fl).2 = [] ∧
    unlinkCalls (WriteApplication.remainLoop hw buf c n i fl).2 = [] ∧
    jumpCount (WriteApplication.remainLoop hw buf c n i fl).2 = 0 := by
  induction n generalizing i fl with
  | zero => simp [WriteApplication.remainLoop, eraseAddrs, unlinkCalls, jumpCount]
  | succ n ih =>
    simp [WriteApplication.remainLoop, eraseAddrs, unlinkCalls, jumpCount, ih]

theorem others_lastRow (hw : Hardware) (buf : List Nat) (n c sd nvm : Nat) (fl : Flash) :
    eraseAddrs (WriteApplication.lastRow hw buf n c sd nvm fl).trace = [] ∧
    unlinkCalls (WriteApplication.lastRow hw buf n c sd nvm fl).trace = [] ∧
    jumpCount (WriteApplication.lastRow hw buf n c sd nvm fl).trace = 0 := by
  simp [WriteApplication.lastRow, others_finish, others_remainLoop, eraseAddrs_append,
    unlinkCalls_append, jumpCount_append, eraseAddrs, unlinkCalls, jumpCount]

theorem others_loop (hw : Hardware) (rest buf : List Nat) (c sd nvm : Nat) (fl : Flash) :
    eraseAddrs (WriteApplication.loop hw rest buf c sd nvm fl).trace = [] ∧
    unlinkCalls (WriteApplication.loop hw rest buf c sd nvm fl).trace = [] ∧
    jumpCount (WriteApplication.loop hw rest buf c sd nvm fl).trace = 0 := by
  refine loop_ind hw (fun _ _ _ _ _ _ r =>
    eraseAddrs r.trace = [] ∧ unlinkCalls r.trace = [] ∧ jumpCount r.trace = 0)
    ?_ ?_ ?_ rest buf c sd nvm fl
  · intro rest buf c sd nvm fl _
    simp [eraseAddrs, unlinkCalls, jumpCount]
  · intro rest buf c sd nvm fl _ _
    simp [eraseAddrs, unlinkCalls, jumpCount, others_lastRow]
  · intro rest buf c sd nvm fl _ _ r ih
    simp [eraseAddrs_append, unlinkCalls_append, jumpCount_append, fullRowCalls, eraseAddrs,
      unlinkCalls, jumpCount, ih]

theorem slice_length_le (b : List Nat) (off len : Nat) : (slice b off len).length ≤ len := by
  simp [slice, List.length_take]

theorem inRow_mk (k off : Nat) {c L a : Nat} {d : List Nat} (h1 : c ≤ k) (h2 : k ≤ c + L / 256)
    (h3 : off % 64 = 0) (h4 : a = u32 (APP_START_ADDRESS + k * ROW_SIZE + off))
    (h5 : d.length ≤ 64) (h6 : off + d.length ≤ 256)
    (h7 : k = c + L / 256 → off + d.length ≤ L % 256) (h8 : off < 256) : InRow c L (a, d) :=
  ⟨k, off, h1, h2, h3, h8, h4, h5, h6, h7⟩

theorem writes_loop_inRow (hw : Hardware) (rest buf : List Nat) (c sd nvm : Nat) (fl : Flash) :
    ∀ w ∈ writeCalls (WriteApplication.loop hw rest buf c sd nvm fl).trace,
      InRow c rest.length w := by
  refine loop_ind hw (fun rest _ c _ _ _ r => ∀ w ∈ writeCalls r.trace, InRow c rest.length w)
    ?_ ?_ ?_ rest buf c sd nvm fl
  · intro rest buf c sd nvm fl _ w hw'
    simp [writeCalls] at hw'
  · intro rest buf c sd nvm fl _ hlen w hw'
    simp only [ROW_SIZE] at hlen
    have h64 : rest.length / 64 % 256 = rest.length / 64 := by omega
    have hrem : rest.length % 64 % 256 = rest.length % 64 := by omega
    simp only [writeCalls, writeCalls_lastRow, h64, hrem, List.mem_append, List.mem_map,
      List.mem_range', List.mem_singleton] at hw'
    rcases hw' with ⟨j, ⟨i, hi, hj⟩, rfl⟩ | rfl
    · have hs := slice_length_le (rest ++ List.drop rest.length buf) (64 * j) 64
      refine inRow_mk c (64 * j) (le_refl _) (by omega) (by omega) ?_ hs
        (by omega) (by intro _; omega) (by omega)
      simp [pageAddress, Nat.mul_comm]
    · have hs := slice_length_le (rest ++ List.drop rest.length buf) (64 * (rest.length / 64))
        (rest.length % 64)
      refine inRow_mk c (64 * (rest.length / 64)) (le_refl _) (by omega) (by omega)
        ?_ (by omega) (by omega) (by intro _; omega) (by omega)
      simp [pageAddress, Nat.mul_comm]
  · intro rest buf c sd nvm fl _ hlen r ih w hw'
    simp only [ROW_SIZE] at hlen
    simp only [writeCalls_append, fullRowCalls, writeCalls, List.mem_append, List.mem_cons,
      List.mem_singleton, List.not_mem_nil, or_false] at hw'
    have hq : 1 ≤ rest.length / 256 := by omega
    rcases hw' with rfl | rfl | rfl | rfl | hw'
    · have hs := slice_length_le (List.take ROW_SIZE rest ++ List.drop ROW_SIZE buf) 0 64
      exact inRow_mk c (0) (le_refl _) (by omega) (by omega)
        (by simp [pageAddress]) hs (by omega) (by intro h; omega) (by omega)
    · have hs := slice_length_le (List.take ROW_SIZE rest ++ List.drop ROW_SIZE buf) 64 64
      exact inRow_mk c (64) (le_refl _) (by omega) (by omega) rfl hs (by omega)
        (by intro h; omega) (by omega)
    · have hs := slice_length_le (List.take ROW_SIZE rest ++ List.drop ROW_SIZE buf) 128 64
      exact inRow_mk c (128) (le_refl _) (by omega) (by omega) rfl hs (by omega)
        (by intro h; omega) (by omega)
    · have hs := slice_length_le (List.take ROW_SIZE rest ++ List.drop ROW_SIZE buf) 192 64
      exact inRow_mk c (192) (le_refl _) (by omega) (by omega) rfl hs (by omega)
        (by intro h; omega) (by omega)
    · obtain ⟨k, off, h1, h2, h3, h8, h4, h5, h6, h7⟩ := ih w hw'
      rw [List.length_drop] at h2 h7
      simp only [ROW_SIZE] at h2 h7
      refine ⟨k, off, by omega, by omega, h3, h8, h4, h5, h6, ?_⟩
      intro hk
      have := h7 (by omega)
      omega

theorem RowsToDelete_lt (p : nvm_parameters) : RowsToDelete p < 256 := by
  unfold RowsToDelete u8
  omega

theorem u32_row (j : Nat) (hj : j < 256) :
    u32 (APP_START_ADDRESS + j * ROW_SIZE) = 0x12000 + 256 * j := by
  unfold u32 APP_START_ADDRESS ROW_SIZE
  omega

theorem delete_loop_others (hw : Hardware) (n i : Nat) (fl : Flash) :
    writeCalls (DeleteApplication.loop hw n i fl).trace = [] ∧
    unlinkCalls (DeleteApplication.loop hw n i fl).trace = [] ∧
    jumpCount (DeleteApplication.loop hw n i fl).trace = 0 := by
  induction n generalizing i fl with
  | zero => simp [DeleteApplication.loop, writeCalls, unlinkCalls, jumpCount]
  | succ n ih =>
    unfold DeleteApplication.loop
    by_cases h : (nvm_erase_row hw fl (u32 (APP_START_ADDRESS + i * ROW_SIZE))).1 = true
    · simp [h, writeCalls, unlinkCalls, jumpCount, ih]
    · simp [h, writeCalls, unlinkCalls, jumpCount]

theorem delete_loop_erase_inv (hw : Hardware) (n i : Nat) (fl : Flash) :
    ∀ a ∈ eraseAddrs (DeleteApplication.loop hw n i fl).trace,
      ∃ j, i ≤ j ∧ j < i + n ∧ a = u32 (APP_START_ADDRESS + j * ROW_SIZE) := by
  induction n generalizing i fl with
  | zero => simp [DeleteApplication.loop, eraseAddrs]
  | succ n ih =>
    intro a ha
    unfold DeleteApplication.loop at ha
    by_cases h : (nvm_erase_row hw fl (u32 (APP_START_ADDRESS + i * ROW_SIZE))).1 = true
    · simp only [h, if_true, eraseAddrs, List.mem_cons] at ha
      rcases ha with rfl | ha
      · exact ⟨i, le_refl _, by omega, rfl⟩
      · obtain ⟨j, h1, h2, h3⟩ := ih (i + 1) _ a ha
        exact ⟨j, by omega, by omega, h3⟩
    · simp only [h, eraseAddrs, List.mem_cons, List.not_mem_nil, or_false] at ha
      exact ⟨i, le_refl _, by omega, ha⟩

theorem delete_loop_all_ok (hw : Hardware) (herase : ∀ a, hw.erase_status a = true)
    (n i : Nat) (fl : Flash) :
    (DeleteApplication.loop hw n i fl).ok = true ∧
    eraseAddrs (DeleteApplication.loop hw n i fl).trace =
      (List.range' i n).map (fun j => u32 (APP_START_ADDRESS + j * ROW_SIZE)) ∧
    flashOps (DeleteApplication.loop hw n i fl).trace =
      (List.range' i n).map (fun j => Call.nvm_erase_row (u32 (APP_START_ADDRESS + j * ROW_SIZE))) := by
  induction n generalizing i fl with
  | zero => simp [DeleteApplication.loop, eraseAddrs, flashOps]
  | succ n ih =>
    unfold DeleteApplication.loop
    have h : (nvm_erase_row hw fl (u32 (APP_START_ADDRESS + i * ROW_SIZE))).1 = true := by
      simp [nvm_erase_row, herase]
    simp [h, eraseAddrs, flashOps, ih, List.range'_succ]

theorem sft_others (sd : SdCard) :
    eraseAddrs (StartFilesystemAndTest sd).2 = [] ∧
    writeCalls (StartFilesystemAndTest sd).2 = [] ∧
    unlinkCalls (StartFilesystemAndTest sd).2 = [] ∧
    jumpCount (StartFilesystemAndTest sd).2 = 0 ∧
    flashOps (StartFilesystemAndTest sd).2 = [] := by
  rcases sd with ⟨a, b, c, d, e, f⟩
  cases a <;> cases b <;> cases c <;> cases d <;> cases e <;> cases f <;>
    exact ⟨rfl, rfl, rfl, rfl, rfl⟩

theorem delete_others (hw : Hardware) (fl : Flash) :
    writeCalls (DeleteApplication hw fl).trace = [] ∧
    unlinkCalls (DeleteApplication hw fl).trace = [] ∧
    jumpCount (DeleteApplication hw fl).trace = 0 := by
  have h := delete_loop_others hw (RowsToDelete hw.parameters) 0 fl
  simp [DeleteApplication, writeCalls, unlinkCalls, jumpCount, h]

theorem write_others (hw : Hardware) (file : Option (List Nat)) (buf : List Nat) (fl : Flash) :
    eraseAddrs (WriteApplication hw file buf fl).trace = [] ∧
    unlinkCalls (WriteApplication hw file buf fl).trace = [] ∧
    jumpCount (WriteApplication hw file buf fl).trace = 0 := by
  cases file with
  | none => simp [WriteApplication, eraseAddrs, unlinkCalls, jumpCount]
  | some content =>
    have h := others_loop hw content buf 0 0 0 fl
    simp [WriteApplication, eraseAddrs, unlinkCalls, jumpCount, h]

/-- The trace of `main` when the card test passes. -/
theorem main_trace_ok (b : Boot) (hsd : (StartFilesystemAndTest b.sd).1 = true) :
    (main b).trace = mainInit ++ (StartFilesystemAndTest b.sd).2 ++
      [Call.SerialConsoleWriteString "SD CARD mount success! Filesystem also mounted. \r\n"]
      ++ (update b).2.2 ++ mainExit ∧
    (main b).exit = Exit.jumped ∧ (main b).flash = (update b).1 ∧
    (main b).appFile = (update b).2.1 := by
  simp [main, hsd]

theorem update_some (b : Boot) (img : List Nat) (h : b.appFile = some img) :
    update b =
      ((WriteApplication b.hw (some img) b.readBuffer (DeleteApplication b.hw b.flash).flash).flash,
        none,
        [Call.f_open Handle.file_object app_file_name] ++ (DeleteApplication b.hw b.flash).trace
          ++ (WriteApplication b.hw (some img) b.readBuffer
              (DeleteApplication b.hw b.flash).flash).trace
          ++ [Call.f_unlink app_file_name]) := by
  simp [update, h]

theorem main_some (b : Boot) (img : List Nat) (hsd : (StartFilesystemAndTest b.sd).1 = true)
    (himg : b.appFile = some img) :
    unlinkCalls (main b).trace = [app_file_name] ∧ (main b).appFile = none ∧
    (main b).exit = Exit.jumped ∧
    eraseAddrs (main b).trace = eraseAddrs (DeleteApplication b.hw b.flash).trace ∧
    writeCalls (main b).trace = writeCalls (WriteApplication b.hw (some img) b.readBuffer
      (DeleteApplication b.hw b.flash).flash).trace := by
  obtain ⟨ht, he, _, hf⟩ := main_trace_ok b hsd
  have hs := sft_others b.sd
  have hd := delete_others b.hw b.flash
  have hw' := write_others b.hw (some img) b.readBuffer (DeleteApplication b.hw b.flash).flash
  rw [ht, hf, update_some b img himg]
  generalize DeleteApplication b.hw b.flash = D at hd hw' ⊢
  generalize WriteApplication b.hw (some img) b.readBuffer D.flash = W at hw' ⊢
  generalize StartFilesystemAndTest b.sd = S at hs ⊢
  simp [unlinkCalls_append, eraseAddrs_append, writeCalls_append, hs, hd, hw', he, mainInit,
    mainExit, unlinkCalls, eraseAddrs, writeCalls]

theorem loop_ok_iff (hw : Hardware) (hread : ∀ k, hw.read_status k = true)
    (rest buf : List Nat) (c sd nvm : Nat) (fl : Flash) :
    (WriteApplication.loop hw rest buf c sd nvm fl).ok = true ↔
      (WriteApplication.loop hw rest buf c sd nvm fl).resultCrcNvm =
        (WriteApplication.loop hw rest buf c sd nvm fl).resultCrcSd := by
  refine loop_ind hw (fun _ _ _ _ _ _ r => r.ok = true ↔ r.resultCrcNvm = r.resultCrcSd)
    ?_ ?_ ?_ rest buf c sd nvm fl
  · intro rest buf c sd nvm fl h
    rw [hread c] at h
    exact absurd h (by decide)
  · intro rest buf c sd nvm fl _ _
    simp only [WriteApplication.lastRow, WriteApplication.finish]
    split <;> simp_all
  · intro rest buf c sd nvm fl _ _ r ih
    exact ih

theorem rowImage_length : rowImage.length = 256 := by
  simp [rowImage]

/-- On the device whose page writes fail, the one-row image ends in a checksum
mismatch. -/
theorem writeFault_crc_mismatch :
    (WriteApplication hwWriteFault (some rowImage) (List.replicate 256 0)
      (DeleteApplication hwWriteFault (fun _ => 0)).flash).resultCrcNvm ≠
    (WriteApplication hwWriteFault (some rowImage) (List.replicate 256 0)
      (DeleteApplication hwWriteFault (fun _ => 0)).flash).resultCrcSd := by
  have h0 : hwWriteFault.read_status 0 = true := rfl
  have h1 : hwWriteFault.read_status 1 = true := rfl
  have hl : ROW_SIZE ≤ rowImage.length := by simp [rowImage_length, ROW_SIZE]
  have hl2 : (List.drop ROW_SIZE rowImage).length < ROW_SIZE := by
    simp [rowImage_length, ROW_SIZE]
  simp only [WriteApplication]
  rw [loop_full' _ _ _ _ _ _ _ h0 hl]
  rw [loop_last _ _ _ _ _ _ _ h1 hl2]
  decide!

theorem write_ok_iff (hw : Hardware) (hread : ∀ k, hw.read_status k = true)
    (img buf : List Nat) (fl : Flash) :
    (WriteApplication hw (some img) buf fl).ok = true ↔
      (WriteApplication hw (some img) buf fl).resultCrcNvm =
        (WriteApplication hw (some img) buf fl).resultCrcSd := by
  simpa [WriteApplication] using loop_ok_iff hw hread img buf 0 0 0 fl

theorem getLast_mainExit (l : List Call) :
    (l ++ mainExit).getLast? = some Call.jumpToApplication := by
  simp [mainExit]

/-- When the first row erases and the second does not, `DeleteApplication`
stops after two `nvm_erase_row` calls and returns false. -/
theorem delete_second_row_fails (hw : Hardware) (fl : Flash)
    (h0 : hw.erase_status 0x12000 = true) (h1 : hw.erase_status 0x12100 = false)
    (hrows : 2 ≤ RowsToDelete hw.parameters) :
    (DeleteApplication hw fl).ok = false ∧
    eraseAddrs (DeleteApplication hw fl).trace = [0x12000, 0x12100] := by
  obtain ⟨m, hm⟩ : ∃ m, RowsToDelete hw.parameters = m + 2 := ⟨_, (Nat.sub_add_cancel hrows).symm⟩
  have a0 : u32 APP_START_ADDRESS = 0x12000 := by decide
  have a1 : u32 (APP_START_ADDRESS + ROW_SIZE) = 0x12100 := by decide
  simp [DeleteApplication, hm, DeleteApplication.loop, a0, a1, nvm_erase_row, h0, h1, eraseAddrs]

theorem writeCalls_fullRowCalls (b : List Nat) (c : Nat) :
    writeCalls (fullRowCalls b c) =
      [(pageAddress c 0, slice b 0 64),
        (u32 (APP_START_ADDRESS + c * ROW_SIZE + 64), slice b 64 64),
        (u32 (APP_START_ADDRESS + c * ROW_SIZE + 128), slice b 128 64),
        (u32 (APP_START_ADDRESS + c * ROW_SIZE + 192), slice b 192 64)] := rfl

/-- With every read succeeding, the first page of each row of the image, the
last (short, possibly empty) row included, is passed to `nvm_write_buffer`. -/
theorem writes_loop_row (hw : Hardware) (hread : ∀ k, hw.read_status k = true)
    (rest buf : List Nat) (c sd nvm : Nat) (fl : Flash) :
    ∀ k, k ≤ rest.length / 256 →
      ∃ d, (pageAddress (c + k) 0, d) ∈
        writeCalls (WriteApplication.loop hw rest buf c sd nvm fl).trace := by
  refine loop_ind hw (fun rest _ c _ _ _ r => ∀ k, k ≤ rest.length / 256 →
      ∃ d, (pageAddress (c + k) 0, d) ∈ writeCalls r.trace) ?_ ?_ ?_ rest buf c sd nvm fl
  · intro rest buf c sd nvm fl h
    rw [hread c] at h
    exact absurd h (by decide)
  · intro rest buf c sd nvm fl _ hlen k hk
    simp only [ROW_SIZE] at hlen
    have hk0 : k = 0 := by omega
    subst hk0
    have h64 : rest.length / 64 % 256 = rest.length / 64 := by omega
    simp only [writeCalls, writeCalls_lastRow, h64, List.mem_append, List.mem_map,
      List.mem_range', List.mem_singleton, Nat.add_zero]
    by_cases hz : rest.length / 64 = 0
    · refine ⟨slice (rest ++ List.drop rest.length buf) (64 * (rest.length / 64))
        (rest.length % 64 % 256), Or.inr ?_⟩
      rw [hz]
    · exact ⟨slice (rest ++ List.drop rest.length buf) (64 * 0) 64,
        Or.inl ⟨0, ⟨0, by omega, by simp⟩, rfl⟩⟩
  · intro rest buf c sd nvm fl _ hlen r ih k hk
    simp only [ROW_SIZE] at hlen
    rw [show ({ r with trace := fullRowCalls (List.take ROW_SIZE rest ++ List.drop ROW_SIZE buf) c
      ++ r.trace } : WriteResult).trace = fullRowCalls (List.take ROW_SIZE rest ++
        List.drop ROW_SIZE buf) c ++ r.trace from rfl, writeCalls_append, writeCalls_fullRowCalls]
    rcases Nat.eq_zero_or_pos k with hk0 | hkpos
    · subst hk0
      exact ⟨slice (List.take ROW_SIZE rest ++ List.drop ROW_SIZE buf) 0 64,
        List.mem_append_left _ (List.mem_cons_self _ _)⟩
    · obtain ⟨d, hd⟩ := ih (k - 1) (by
        rw [List.length_drop]
        simp only [ROW_SIZE]
        omega)
      have hc : c + 1 + (k - 1) = c + k := by omega
      rw [hc] at hd
      exact ⟨d, List.mem_append_right _ hd⟩

theorem delete_trace (hw : Hardware) (fl : Flash) :
    (DeleteApplication hw fl).ok = (DeleteApplication.loop hw (RowsToDelete hw.parameters) 0 fl).ok ∧
    (DeleteApplication hw fl).flash =
      (DeleteApplication.loop hw (RowsToDelete hw.parameters) 0 fl).flash ∧
    eraseAddrs (DeleteApplication hw fl).trace =
      eraseAddrs (DeleteApplication.loop hw (RowsToDelete hw.parameters) 0 fl).trace ∧
    flashOps (DeleteApplication hw fl).trace =
      flashOps (DeleteApplication.loop hw (RowsToDelete hw.parameters) 0 fl).trace := by
  simp [DeleteApplication, eraseAddrs, flashOps]

/-- With every erase succeeding, `DeleteApplication` erases the rows
`0 .. RowsToDelete - 1` of the application region, in order, and returns true. -/
theorem delete_all_ok (hw : Hardware) (herase : ∀ a, hw.erase_status a = true) (fl : Flash) :
    (DeleteApplication hw fl).ok = true ∧
    eraseAddrs (DeleteApplication hw fl).trace =
      (List.range (RowsToDelete hw.parameters)).map (fun i => 0x12000 + 256 * i) ∧
    flashOps (DeleteApplication hw fl).trace =
      (List.range (RowsToDelete hw.parameters)).map
        (fun i => Call.nvm_erase_row (0x12000 + 256 * i)) := by
  obtain ⟨h1, _, h3, h4⟩ := delete_trace hw fl
  obtain ⟨g1, g2, g3⟩ := delete_loop_all_ok hw herase (RowsToDelete hw.parameters) 0 fl
  have hR := RowsToDelete_lt hw.parameters
  rw [h1, h3, h4, g1, g2, g3, ← List.range_eq_range']
  refine ⟨rfl, ?_, ?_⟩
  · apply List.map_congr_left
    intro j hj
    exact u32_row j (lt_trans (List.mem_range.mp hj) hR)
  · apply List.map_congr_left
    intro j hj
    rw [u32_row j (lt_trans (List.mem_range.mp hj) hR)]

theorem RowsToDelete_samd21 : RowsToDelete samd21 = 224 := by decide

theorem write_trace (hw : Hardware) (img buf : List Nat) (fl : Flash) :
    writeCalls (WriteApplication hw (some img) buf fl).trace =
      writeCalls (WriteApplication.loop hw img buf 0 0 0 fl).trace ∧
    (WriteApplication hw (some img) buf fl).flash =
      (WriteApplication.loop hw img buf 0 0 0 fl).flash ∧
    (WriteApplication hw (some img) buf fl).resultCrcSd =
      (WriteApplication.loop hw img buf 0 0 0 fl).resultCrcSd ∧
    (WriteApplication hw (some img) buf fl).resultCrcNvm =
      (WriteApplication.loop hw img buf 0 0 0 fl).resultCrcNvm := by
  simp [WriteApplication, writeCalls]

/-- Every write of `WriteApplication` targets a page of one of the rows
`0 .. L / 256` of the image. -/
theorem write_inRow (hw : Hardware) (img buf : List Nat) (fl : Flash) :
    ∀ w ∈ writeCalls (WriteApplication hw (some img) buf fl).trace, InRow 0 img.length w := by
  rw [(write_trace hw img buf fl).1]
  exact writes_loop_inRow hw img buf 0 0 0 fl

theorem write_row (hw : Hardware) (hread : ∀ k, hw.read_status k = true)
    (img buf : List Nat) (fl : Flash) (k : Nat) (hk : k ≤ img.length / 256) :
    ∃ d, (pageAddress k 0, d) ∈ writeCalls (WriteApplication hw (some img) buf fl).trace := by
  rw [(write_trace hw img buf fl).1]
  simpa using writes_loop_row hw hread img buf 0 0 0 fl k hk

theorem image737rows_length : image737rows.length = 188672 :=
  List.length_replicate _ _

theorem delete_erase_inv (hw : Hardware) (fl : Flash) :
    ∀ a ∈ eraseAddrs (DeleteApplication hw fl).trace,
      ∃ j, j < RowsToDelete hw.parameters ∧ a = 0x12000 + 256 * j := by
  intro a ha
  rw [(delete_trace hw fl).2.2.1] at ha
  obtain ⟨j, _, h2, h3⟩ := delete_loop_erase_inv hw _ 0 fl a ha
  have hR := RowsToDelete_lt hw.parameters
  exact ⟨j, by omega, by rw [h3, u32_row j (by omega)]⟩

theorem slice_append_left (l r : List Nat) (off len : Nat) (h : off + len ≤ l.length) :
    slice (l ++ r) off len = slice l off len := by
  unfold slice
  rw [List.drop_append_of_le_length (by omega), List.take_append_of_le_length]
  rw [List.length_drop]
  omega

theorem flashOps_writes (t : List Call) (h : eraseAddrs t = []) :
    flashOps t = (writeCalls t).map (fun w => Call.nvm_write_buffer w.1 w.2) := by
  induction t with
  | nil => rfl
  | cons c t ih =>
    cases c <;> simp_all [flashOps, writeCalls, eraseAddrs]

/-- The writes of `WriteApplication` for an image of exactly one row. -/
theorem writeCalls_one_row (hw : Hardware) (img buf : List Nat) (fl : Flash)
    (h0 : hw.read_status 0 = true) (h1 : hw.read_status 1 = true) (hlen : img.length = 256) :
    writeCalls (WriteApplication hw (some img) buf fl).trace =
      [(0x12000, slice img 0 64), (0x12040, slice img 64 64), (0x12080, slice img 128 64),
        (0x120C0, slice img 192 64), (0x12100, [])] := by
  have hl : ROW_SIZE ≤ img.length := by simp [hlen, ROW_SIZE]
  have hl2 : (List.drop ROW_SIZE img).length < ROW_SIZE := by simp [hlen, ROW_SIZE]
  have hd : (List.drop ROW_SIZE img).length = 0 := by simp [hlen, ROW_SIZE]
  have ht : List.take ROW_SIZE img = img := List.take_of_length_le (by simp [hlen, ROW_SIZE])
  rw [(write_trace hw img buf fl).1, loop_full' hw img buf 0 0 0 fl h0 hl]
  simp only [writeCalls_append, writeCalls_fullRowCalls]
  rw [loop_last hw _ _ _ _ _ _ h1 hl2]
  simp only [writeCalls, writeCalls_lastRow, hd, ht]
  rw [slice_append_left img _ 0 64 (by omega), slice_append_left img _ 64 64 (by omega),
    slice_append_left img _ 128 64 (by omega), slice_append_left img _ 192 64 (by omega)]
  simp [pageAddress, u32, APP_START_ADDRESS, ROW_SIZE, slice]

theorem crcCalls_remainLoop (hw : Hardware) (buf : List Nat) (c n i : Nat) (fl : Flash) :
    crcCalls (WriteApplication.remainLoop hw buf c n i fl).2 = [] := by
  induction n generalizing i fl with
  | zero => simp [WriteApplication.remainLoop, crcCalls]
  | succ n ih => simp [WriteApplication.remainLoop, crcCalls, ih]

theorem crc_lastRow (hw : Hardware) (buf : List Nat) (n c sd nvm : Nat) (fl : Flash) :
    crcCalls (WriteApplication.lastRow hw buf n c sd nvm fl).trace =
      [Call.dsu_crc32_cal_nvm (u32 (APP_START_ADDRESS + c * ROW_SIZE + 1)) ROW_SIZE] ∧
    (WriteApplication.lastRow hw buf n c sd nvm fl).resultCrcSd = sd := by
  simp only [WriteApplication.lastRow, WriteApplication.finish]
  split <;> simp [crcCalls_append, crcCalls_remainLoop, crcCalls]

theorem image300_length : image300.length = 300 :=
  List.length_replicate _ _

theorem nvm_write_buffer_frame (hw : Hardware) (fl : Flash) (addr : Nat) (d : List Nat) (a : Nat)
    (h : ¬ Covers (addr, d) a) : (nvm_write_buffer hw fl addr d).2 a = fl a := by
  unfold nvm_write_buffer
  unfold Covers at h
  by_cases hs : hw.write_status addr = true
  · simp only [hs, if_true]
    exact if_neg h
  · simp [hs]

theorem remainLoop_frame (hw : Hardware) (buf : List Nat) (c : Nat) (a : Nat) (n i : Nat)
    (fl : Flash)
    (h : ∀ w ∈ writeCalls (WriteApplication.remainLoop hw buf c n i fl).2, ¬ Covers w a) :
    (WriteApplication.remainLoop hw buf c n i fl).1 a = fl a := by
  induction n generalizing i fl with
  | zero => rfl
  | succ n ih =>
    simp only [WriteApplication.remainLoop, writeCalls, List.mem_cons, forall_eq_or_imp] at h ⊢
    rw [ih _ _ h.2, nvm_write_buffer_frame hw fl _ _ a h.1]

theorem lastRow_flash (hw : Hardware) (buf : List Nat) (n c sd nvm : Nat) (fl : Flash) :
    (WriteApplication.lastRow hw buf n c sd nvm fl).flash =
      (nvm_write_buffer hw (WriteApplication.remainLoop hw buf c (n / 64 % 256) 0 fl).1
        (pageAddress c (n / 64 % 256)) (slice buf (64 * (n / 64 % 256)) (n % 64 % 256))).2 := by
  simp only [WriteApplication.lastRow, WriteApplication.finish]
  split <;> rfl

theorem lastRow_frame (hw : Hardware) (buf : List Nat) (n c sd nvm : Nat) (fl : Flash) (a : Nat)
    (h : ∀ w ∈ writeCalls (WriteApplication.lastRow hw buf n c sd nvm fl).trace, ¬ Covers w a) :
    (WriteApplication.lastRow hw buf n c sd nvm fl).flash a = fl a := by
  rw [writeCalls_lastRow, ← writeCalls_remainLoop hw buf c (n / 64 % 256) 0 fl] at h
  rw [lastRow_flash, nvm_write_buffer_frame _ _ _ _ a
    (h _ (List.mem_append_right _ (List.mem_singleton_self _)))]
  exact remainLoop_frame hw buf c a _ 0 fl (fun w hw' => h w (List.mem_append_left _ hw'))

theorem fullRowFlash_frame (hw : Hardware) (b : List Nat) (c : Nat) (fl : Flash) (a : Nat)
    (h : ∀ w ∈ writeCalls (fullRowCalls b c), ¬ Covers w a) :
    fullRowFlash hw b c fl a = fl a := by
  rw [writeCalls_fullRowCalls] at h
  simp only [List.mem_cons, List.mem_singleton, List.not_mem_nil, or_false, forall_eq_or_imp,
    forall_eq] at h
  obtain ⟨h0, h1, h2, h3⟩ := h
  simp only [fullRowFlash]
  rw [nvm_write_buffer_frame _ _ _ _ a h3, nvm_write_buffer_frame _ _ _ _ a h2,
    nvm_write_buffer_frame _ _ _ _ a h1, nvm_write_buffer_frame _ _ _ _ a h0]

/-- A byte of flash that no write of the copy loop covers keeps its value. -/
theorem loop_frame (hw : Hardware) (a : Nat) (rest buf : List Nat) (c sd nvm : Nat) (fl : Flash) :
    (∀ w ∈ writeCalls (WriteApplication.loop hw rest buf c sd nvm fl).trace, ¬ Covers w a) →
      (WriteApplication.loop hw rest buf c sd nvm fl).flash a = fl a := by
  refine loop_ind hw (fun _ _ _ _ _ fl r =>
    (∀ w ∈ writeCalls r.trace, ¬ Covers w a) → r.flash a = fl a) ?_ ?_ ?_ rest buf c sd nvm fl
  · intro rest buf c sd nvm fl _ _
    rfl
  · intro rest buf c sd nvm fl _ _ h
    exact lastRow_frame hw _ _ c sd nvm fl a (by simpa [writeCalls] using h)
  · intro rest buf c sd nvm fl _ _ r ih h
    have h' : ∀ w ∈ writeCalls (fullRowCalls (List.take ROW_SIZE rest ++ List.drop ROW_SIZE buf) c
        ++ r.trace), ¬ Covers w a := h
    rw [writeCalls_append] at h'
    have e1 := ih (fun w hw' => h' w (List.mem_append_right _ hw'))
    have e2 := fullRowFlash_frame hw _ c fl a (fun w hw' => h' w (List.mem_append_left _ hw'))
    show r.flash a = fl a
    rw [e1, e2]

theorem nvm_erase_row_sticky (hw : Hardware) (fl : Flash) (addr a : Nat) (h : fl a = 0xFF) :
    (nvm_erase_row hw fl addr).2 a = 0xFF := by
  unfold nvm_erase_row
  by_cases hs : hw.erase_status addr = true
  · simp only [hs, if_true]
    split
    · rfl
    · exact h
  · simp [hs, h]

theorem delete_loop_sticky (hw : Hardware) (a : Nat) (n i : Nat) (fl : Flash) (h : fl a = 0xFF) :
    (DeleteApplication.loop hw n i fl).flash a = 0xFF := by
  induction n generalizing i fl with
  | zero => exact h
  | succ n ih =>
    unfold DeleteApplication.loop
    by_cases hs : (nvm_erase_row hw fl (u32 (APP_START_ADDRESS + i * ROW_SIZE))).1 = true
    · simp only [hs, if_true]
      exact ih _ _ (nvm_erase_row_sticky hw fl _ a h)
    · simp only [hs]
      exact nvm_erase_row_sticky hw fl _ a h

/-- With every erase succeeding, the rows `i .. i + n - 1` read `0xFF` after
the erase loop. -/
theorem delete_loop_erased (hw : Hardware) (herase : ∀ a, hw.erase_status a = true) (a : Nat)
    (n i : Nat) (fl : Flash) (hin : i + n ≤ 256)
    (ha : 0x12000 + 256 * i ≤ a ∧ a < 0x12000 + 256 * (i + n)) :
    (DeleteApplication.loop hw n i fl).flash a = 0xFF := by
  induction n generalizing i fl with
  | zero => omega
  | succ n ih =>
    unfold DeleteApplication.loop
    have hs : (nvm_erase_row hw fl (u32 (APP_START_ADDRESS + i * ROW_SIZE))).1 = true := by
      simp [nvm_erase_row, herase]
    simp only [hs, if_true]
    by_cases hrow : a < 0x12000 + 256 * (i + 1)
    · apply delete_loop_sticky
      rw [u32_row i (by omega)]
      simp only [nvm_erase_row, herase, if_true, ROW_SIZE]
      rw [if_pos (by omega)]
    · exact ih (i + 1) _ (by omega) (by omega)

/-- A byte outside the rows `i .. i + n - 1` keeps its value in the erase loop. -/
theorem delete_loop_frame (hw : Hardware) (a : Nat) (n i : Nat) (fl : Flash) (hin : i + n ≤ 256)
    (ha : a < 0x12000 + 256 * i ∨ 0x12000 + 256 * (i + n) ≤ a) :
    (DeleteApplication.loop hw n i fl).flash a = fl a := by
  induction n generalizing i fl with
  | zero => rfl
  | succ n ih =>
    have hfr : (nvm_erase_row hw fl (u32 (APP_START_ADDRESS + i * ROW_SIZE))).2 a = fl a := by
      rw [u32_row i (by omega)]
      unfold nvm_erase_row
      by_cases hs : hw.erase_status (0x12000 + 256 * i) = true
      · simp only [hs, if_true, ROW_SIZE]
        rw [if_neg (by omega)]
      · simp [hs]
    unfold DeleteApplication.loop
    by_cases hs : (nvm_erase_row hw fl (u32 (APP_START_ADDRESS + i * ROW_SIZE))).1 = true
    · simp only [hs, if_true]
      rw [ih (i + 1) _ (by omega) (by omega), hfr]
    · simp only [hs]
      exact hfr

/-- With every read succeeding, the writes of the copy loop end with those of
the last row: `n / 64` full pages and one write of `n % 64` bytes, where `n`
is the number of bytes of the last read, all of them bytes of the file. -/
theorem writeCalls_loop_last (hw : Hardware) (hread : ∀ k, hw.read_status k = true)
    (rest buf : List Nat) (c sd nvm : Nat) (fl : Flash) :
    ∃ pre, pre.length = 4 * (rest.length / 256) ∧
      writeCalls (WriteApplication.loop hw rest buf c sd nvm fl).trace =
        pre ++ ((List.range (rest.length % 256 / 64)).map (fun j =>
            (pageAddress (c + rest.length / 256) j,
              slice (rest.drop (256 * (rest.length / 256))) (64 * j) 64)) ++
          [(pageAddress (c + rest.length / 256) (rest.length % 256 / 64),
            slice (rest.drop (256 * (rest.length / 256))) (64 * (rest.length % 256 / 64))
              (rest.length % 64))]) := by
  refine loop_ind hw (fun rest _ c _ _ _ r => ∃ pre, pre.length = 4 * (rest.length / 256) ∧
      writeCalls r.trace =
        pre ++ ((List.range (rest.length % 256 / 64)).map (fun j =>
            (pageAddress (c + rest.length / 256) j,
              slice (rest.drop (256 * (rest.length / 256))) (64 * j) 64)) ++
          [(pageAddress (c + rest.length / 256) (rest.length % 256 / 64),
            slice (rest.drop (256 * (rest.length / 256))) (64 * (rest.length % 256 / 64))
              (rest.length % 64))])) ?_ ?_ ?_ rest buf c sd nvm fl
  · intro rest buf c sd nvm fl h
    rw [hread c] at h
    exact absurd h (by decide)
  · intro rest buf c sd nvm fl _ hlen
    simp only [ROW_SIZE] at hlen
    have hq : rest.length / 256 = 0 := by omega
    have hn : rest.length % 256 = rest.length := by omega
    have h64 : rest.length / 64 % 256 = rest.length / 64 := by omega
    have hrem : rest.length % 64 % 256 = rest.length % 64 := by omega
    refine ⟨[], by simp [hq], ?_⟩
    simp only [writeCalls, writeCalls_lastRow, hq, hn, h64, hrem, Nat.mul_zero, List.drop_zero,
      Nat.add_zero, List.nil_append, ← List.range_eq_range']
    congr 1
    · apply List.map_congr_left
      intro j hj
      have := List.mem_range.mp hj
      rw [slice_append_left rest _ (64 * j) 64 (by omega)]
    · rw [slice_append_left rest _ _ _ (by omega)]
  · intro rest buf c sd nvm fl _ hlen r ih
    simp only [ROW_SIZE] at hlen
    obtain ⟨pre, hp, he⟩ := ih
    rw [List.length_drop] at hp he
    simp only [ROW_SIZE, List.drop_drop] at hp he
    have hq : (rest.length - 256) / 256 + 1 = rest.length / 256 := by omega
    have hn : (rest.length - 256) % 256 = rest.length % 256 := by omega
    have hn64 : (rest.length - 256) % 64 = rest.length % 64 := by omega
    have hc : c + 1 + (rest.length - 256) / 256 = c + rest.length / 256 := by omega
    have hd : 256 + 256 * ((rest.length - 256) / 256) = 256 * (rest.length / 256) := by omega
    rw [hn, hn64, hc] at he
    refine ⟨writeCalls (fullRowCalls (List.take ROW_SIZE rest ++ List.drop ROW_SIZE buf) c) ++ pre,
      ?_, ?_⟩
    · rw [List.length_append, writeCalls_fullRowCalls, hp]
      simp only [List.length_cons, List.length_nil]
      omega
    · show writeCalls (fullRowCalls (List.take ROW_SIZE rest ++ List.drop ROW_SIZE buf) c
        ++ r.trace) = _
      rw [writeCalls_append, he, List.append_assoc]
      rw [hd]

/-- A byte of the last row of the image beyond the `L % 256` bytes read is
covered by no write of `WriteApplication` (no address wraps around when the
image has fewer than 256 rows). -/
theorem last_row_not_covered (hw : Hardware) (img buf : List Nat) (fl : Flash) (o : Nat)
    (hrows : img.length / 256 < 256) (ho : img.length % 256 ≤ o) :
    ∀ w ∈ writeCalls (WriteApplication hw (some img) buf fl).trace,
      ¬ Covers w (0x12000 + 256 * (img.length / 256) + o) := by
  intro w hw'
  obtain ⟨k, off, _, h2, _, h8, h4, _, h6, h7⟩ := write_inRow hw img buf fl w hw'
  have ha : w.1 = 0x12000 + 256 * k + off := by
    rw [h4]
    unfold u32 APP_START_ADDRESS ROW_SIZE
    omega
  unfold Covers
  rw [ha]
  by_cases hk : k = 0 + img.length / 256
  · have := h7 hk
    omega
  · omega

/-- For every image whose last row `L / 256` is one of the `RowsToDelete` rows
that `DeleteApplication` erases, with every erase and every read succeeding:
after `DeleteApplication` and `WriteApplication` every byte of the last row at
offset `L % 256` or more holds `0xFF`; and for the last, short read of
`n = L % 256` bytes the calls of `nvm_write_buffer` are `n / 64` full pages and
one write of `n % 64` bytes, all of them bytes of the image at the offset they
are written to, none left over in `readBuffer`. -/
theorem last_row_padding_erased (hw : Hardware) (img buf : List Nat) (fl : Flash)
    (herase : ∀ a, hw.erase_status a = true) (hread : ∀ k, hw.read_status k = true)
    (hrow : img.length / 256 < RowsToDelete hw.parameters) :
    (∀ o, img.length % 256 ≤ o → o < 256 →
      (WriteApplication hw (some img) buf (DeleteApplication hw fl).flash).flash
        (0x12000 + 256 * (img.length / 256) + o) = 0xFF) ∧
    ∃ pre, pre.length = 4 * (img.length / 256) ∧
      writeCalls (WriteApplication hw (some img) buf (DeleteApplication hw fl).flash).trace =
        pre ++ ((List.range (img.length % 256 / 64)).map (fun j =>
            (0x12000 + 256 * (img.length / 256) + 64 * j,
              ((img.drop (256 * (img.length / 256) + 64 * j)).take 64))) ++
          [(0x12000 + 256 * (img.length / 256) + 64 * (img.length % 256 / 64),
            (img.drop (256 * (img.length / 256) + 64 * (img.length % 256 / 64))).take
              (img.length % 64))]) := by
  have hR := RowsToDelete_lt hw.parameters
  constructor
  · intro o ho1 ho2
    rw [(write_trace hw img buf _).2.1, loop_frame hw _ img buf 0 0 0 _ (by
      rw [← (write_trace hw img buf _).1]
      exact last_row_not_covered hw img buf _ o (by omega) ho1)]
    rw [(delete_trace hw fl).2.1]
    exact delete_loop_erased hw herase _ _ 0 fl (by omega) (by omega)
  · obtain ⟨pre, hp, he⟩ := writeCalls_loop_last hw hread img buf 0 0 0
      (DeleteApplication hw fl).flash
    refine ⟨pre, hp, ?_⟩
    rw [(write_trace hw img buf _).1, he]
    congr 2
    · apply List.map_congr_left
      intro j hj
      have := List.mem_range.mp hj
      simp only [pageAddress, u32, APP_START_ADDRESS, ROW_SIZE, slice, List.drop_drop,
        Nat.zero_add]
      congr 1
      omega
    · simp only [pageAddress, u32, APP_START_ADDRESS, ROW_SIZE, slice, List.drop_drop,
        Nat.zero_add]
      congr 2
      omega

/-- The run of `main` when the card test fails. -/
theorem main_trace_reset (b : Boot) (hsd : (StartFilesystemAndTest b.sd).1 = false) :
    (main b).trace = mainInit ++ (StartFilesystemAndTest b.sd).2 ++
      [Call.SerialConsoleWriteString
          "SD CARD failed! Check your connections. System will restart in 5 seconds...",
        Call.delay_cycles_ms 5000, Call.system_reset] ∧
    (main b).exit = Exit.reset ∧ (main b).flash = b.flash ∧ (main b).appFile = b.appFile := by
  simp [main, hsd]

theorem mainInit_others :
    eraseAddrs mainInit = [] ∧ writeCalls mainInit = [] ∧ unlinkCalls mainInit = [] ∧
    jumpCount mainInit = 0 ∧ flashOps mainInit = [] := by
  simp [mainInit, eraseAddrs, writeCalls, unlinkCalls, jumpCount, flashOps]

/-- When the card test fails, `main` ends in `system_reset` without a jump and
without touching flash or card. -/
theorem main_reset (b : Boot) (hsd : (StartFilesystemAndTest b.sd).1 = false) :
    (main b).exit = Exit.reset ∧ jumpCount (main b).trace = 0 ∧
    (main b).trace.getLast? = some Call.system_reset ∧
    eraseAddrs (main b).trace = [] ∧ writeCalls (main b).trace = [] ∧
    unlinkCalls (main b).trace = [] ∧ (main b).flash = b.flash ∧
    (main b).appFile = b.appFile := by
  obtain ⟨ht, he, hfl, hf⟩ := main_trace_reset b hsd
  have hs := sft_others b.sd
  have hi := mainInit_others
  rw [ht, he, hfl, hf]
  generalize StartFilesystemAndTest b.sd = S at hs
  generalize mainInit = I at hi
  simp [eraseAddrs_append, writeCalls_append, unlinkCalls_append, jumpCount_append, hs, hi,
    eraseAddrs, writeCalls, unlinkCalls, jumpCount]

theorem update_others (b : Boot) :
    jumpCount (update b).2.2 = 0 := by
  cases h : b.appFile with
  | none => simp [update, h, jumpCount]
  | some img =>
    have hd := delete_others b.hw b.flash
    have hw' := write_others b.hw (some img) b.readBuffer (DeleteApplication b.hw b.flash).flash
    rw [update_some b img h]
    generalize DeleteApplication b.hw b.flash = D at hd hw' ⊢
    generalize WriteApplication b.hw (some img) b.readBuffer D.flash = W at hw' ⊢
    simp [jumpCount_append, jumpCount, hd, hw']

/-- The trace of `main` on a path that jumps: everything before the shutdown,
then `DeinitializeSerialConsole`, `sd_mmc_deinit`, `jumpToApplication`. -/
theorem main_ends_with_shutdown (b : Boot) (hsd : (StartFilesystemAndTest b.sd).1 = true) :
    ∃ pre, (main b).trace = pre ++ [Call.DeinitializeSerialConsole, Call.sd_mmc_deinit,
      Call.jumpToApplication] ∧ jumpCount pre = 0 := by
  obtain ⟨ht, _⟩ := main_trace_ok b hsd
  refine ⟨mainInit ++ (StartFilesystemAndTest b.sd).2 ++
      [Call.SerialConsoleWriteString "SD CARD mount success! Filesystem also mounted. \r\n"]
      ++ (update b).2.2 ++ [Call.f_close Handle.file_object,
        Call.SerialConsoleWriteString "ESE5160 - EXIT BOOTLOADER", Call.delay_cycles_ms 100],
    ?_, ?_⟩
  · rw [ht]
    simp [mainExit]
  · have hs := sft_others b.sd
    have hi := mainInit_others
    have hu := update_others b
    generalize StartFilesystemAndTest b.sd = S at hs
    generalize mainInit = I at hi
    generalize (update b).2.2 = U at hu
    simp [jumpCount_append, jumpCount, hs, hi, hu]

theorem main_flashOps (b : Boot) (img : List Nat) (hsd : (StartFilesystemAndTest b.sd).1 = true)
    (himg : b.appFile = some img) :
    flashOps (main b).trace = flashOps (DeleteApplication b.hw b.flash).trace ++
      flashOps (WriteApplication b.hw (some img) b.readBuffer
        (DeleteApplication b.hw b.flash).flash).trace := by
  obtain ⟨ht, _⟩ := main_trace_ok b hsd
  have hs := sft_others b.sd
  have hi := mainInit_others
  rw [ht, update_some b img himg]
  generalize DeleteApplication b.hw b.flash = D
  generalize WriteApplication b.hw (some img) b.readBuffer D.flash = W
  generalize StartFilesystemAndTest b.sd = S at hs
  generalize mainInit = I at hi
  simp [flashOps_append, flashOps, hs, hi, mainExit]

theorem pageAddress_zero : pageAddress 0 0 = 0x12000 := by decide

theorem RowsToDelete_zero (p : nvm_parameters)
    (h : p.nvm_number_of_pages = 0 ∨ p.page_size = 0) : RowsToDelete p = 224 := by
  have hprod : (p.nvm_number_of_pages : Int) * (p.page_size : Int) = 0 := by
    rcases h with h | h <;> simp [h]
  unfold RowsToDelete
  rw [hprod]
  decide

theorem flashOps_erases (t : List Call) (h : writeCalls t = []) :
    flashOps t = (eraseAddrs t).map (fun a => Call.nvm_erase_row a) := by
  induction t with
  | nil => rfl
  | cons c t ih =>
    cases c <;> simp_all [flashOps, writeCalls, eraseAddrs]

/-- When the erase loop returns false, one of its `nvm_erase_row` calls
reported an error. -/
theorem delete_loop_fail (hw : Hardware) (n i : Nat) (fl : Flash)
    (h : (DeleteApplication.loop hw n i fl).ok = false) :
    ∃ a ∈ eraseAddrs (DeleteApplication.loop hw n i fl).trace, hw.erase_status a = false := by
  induction n generalizing i fl with
  | zero => simp [DeleteApplication.loop] at h
  | succ n ih =>
    unfold DeleteApplication.loop at h ⊢
    by_cases hs : hw.erase_status (u32 (APP_START_ADDRESS + i * ROW_SIZE)) = true
    · have h1 : (nvm_erase_row hw fl (u32 (APP_START_ADDRESS + i * ROW_SIZE))).1 = true := by
        simp [nvm_erase_row, hs]
      simp only [h1, if_true] at h ⊢
      obtain ⟨a, ha, hfa⟩ := ih _ _ h
      exact ⟨a, by simp [eraseAddrs, ha], hfa⟩
    · have h1 : (nvm_erase_row hw fl (u32 (APP_START_ADDRESS + i * ROW_SIZE))).1 = false := by
        simp [nvm_erase_row, hs]
      simp only [h1] at h ⊢
      exact ⟨u32 (APP_START_ADDRESS + i * ROW_SIZE), by simp [eraseAddrs], by simpa using hs⟩

theorem delete_fail (hw : Hardware) (fl : Flash) (h : (DeleteApplication hw fl).ok = false) :
    ∃ a ∈ eraseAddrs (DeleteApplication hw fl).trace, hw.erase_status a = false := by
  rw [(delete_trace hw fl).1] at h
  rw [(delete_trace hw fl).2.2.1]
  exact delete_loop_fail hw _ 0 fl h

/-- The pages that the copy loop passes to `nvm_write_buffer` depend on the
file, the buffer and the read statuses only: not on what the writes return,
not on the flash content, not on the checksums. -/
theorem writeCalls_loop_indep (hw hw' : Hardware) (hrd : hw'.read_status = hw.read_status)
    (rest buf : List Nat) (c sd nvm : Nat) (fl : Flash) :
    ∀ sd' nvm' fl', writeCalls (WriteApplication.loop hw rest buf c sd nvm fl).trace =
      writeCalls (WriteApplication.loop hw' rest buf c sd' nvm' fl').trace := by
  refine loop_ind hw (fun rest buf c _ _ _ r => ∀ sd' nvm' fl',
    writeCalls r.trace = writeCalls (WriteApplication.loop hw' rest buf c sd' nvm' fl').trace)
    ?_ ?_ ?_ rest buf c sd nvm fl
  · intro rest buf c sd nvm fl h sd' nvm' fl'
    rw [loop_read_error hw' rest buf c sd' nvm' fl' (by rw [hrd]; exact h)]
  · intro rest buf c sd nvm fl h hlen sd' nvm' fl'
    rw [loop_last hw' rest buf c sd' nvm' fl' (by rw [hrd]; exact h) hlen]
    simp only [writeCalls, writeCalls_lastRow]
  · intro rest buf c sd nvm fl h hlen r ih sd' nvm' fl'
    rw [loop_full' hw' rest buf c sd' nvm' fl' (by rw [hrd]; exact h) hlen]
    show writeCalls (fullRowCalls _ c ++ r.trace) = writeCalls (fullRowCalls _ c ++ _)
    rw [writeCalls_append, writeCalls_append, ih]

theorem writeCalls_indep (hw hw' : Hardware) (hrd : hw'.read_status = hw.read_status)
    (img buf : List Nat) (fl fl' : Flash) :
    writeCalls (WriteApplication hw (some img) buf fl).trace =
      writeCalls (WriteApplication hw' (some img) buf fl').trace := by
  rw [(write_trace hw img buf fl).1, (write_trace hw' img buf fl').1]
  exact writeCalls_loop_indep hw hw' hrd img buf 0 0 0 fl 0 0 fl'

/-- On the device whose page writes fail, with flash holding zeroes, the image
of one byte ends in two equal checksums. -/
theorem writeFault_returns_true :
    (WriteApplication hwWriteFaultAnyAddress (some [0xAB]) (List.replicate 256 0)
      (fun _ => 0)).ok = true := by
  have h0 : hwWriteFaultAnyAddress.read_status 0 = true := rfl
  have hl : ([0xAB] : List Nat).length < ROW_SIZE := by decide
  simp only [WriteApplication]
  rw [loop_last _ _ _ _ _ _ _ h0 hl]
  decide!

/-- The one write of `WriteApplication` for an image shorter than a page. -/
theorem writeCalls_short (hw : Hardware) (img buf : List Nat) (fl : Flash)
    (h0 : hw.read_status 0 = true) (hlen : img.length < 64) :
    writeCalls (WriteApplication hw (some img) buf fl).trace = [(0x12000, img)] := by
  have hl : img.length < ROW_SIZE := by simp only [ROW_SIZE]; omega
  have h64 : img.length / 64 % 256 = 0 := by omega
  have hrem : img.length % 64 % 256 = img.length := by omega
  rw [(write_trace hw img buf fl).1, loop_last hw _ _ _ _ _ _ h0 hl]
  simp only [writeCalls, writeCalls_lastRow, h64, hrem, List.range'_zero, List.map_nil,
    List.nil_append, Nat.mul_zero]
  rw [slice_append_left img _ 0 img.length (by omega), pageAddress_zero]
  simp [slice]

theorem readWord_lt (fl : Flash) (addr : Nat) : readWord fl addr < 2 ^ 32 := by
  unfold readWord
  omega

theorem openCalls_append (s t : List Call) : openCalls (s ++ t) = openCalls s ++ openCalls t := by
  induction s with
  | nil => rfl
  | cons c s ih => cases c <;> simp [openCalls, ih]

theorem mars_eraseFirstRow_calls (m : Mars.Boot) :
    eraseAddrs (Mars.eraseFirstRow m).2 = [0x12000] ∧ writeCalls (Mars.eraseFirstRow m).2 = [] ∧
    openCalls (Mars.eraseFirstRow m).2 = [] ∧ jumpCount (Mars.eraseFirstRow m).2 = 0 ∧
    flashOps (Mars.eraseFirstRow m).2 = [Call.nvm_erase_row 0x12000] := by
  have a0 : APP_START_ADDRESS = 0x12000 := rfl
  unfold Mars.eraseFirstRow
  dsimp only
  generalize (nvm_erase_row m.hw m.flash APP_START_ADDRESS) = e
  generalize ((readBack e.2 APP_START_ADDRESS 256).all fun x => x == 255) = c
  refine ⟨?_, ?_, ?_, ?_, ?_⟩ <;>
    cases e.1 <;> cases c <;>
      simp [eraseAddrs, writeCalls, openCalls, jumpCount, flashOps, a0]

theorem mars_selectImage_calls (m : Mars.Boot) :
    eraseAddrs (Mars.selectImage m).2 = [] ∧ writeCalls (Mars.selectImage m).2 = [] ∧
    openCalls (Mars.selectImage m).2 =
      [testA_file_name, if m.flagA then testA_bin_file else testB_bin_file] ∧
    jumpCount (Mars.selectImage m).2 = 0 ∧ flashOps (Mars.selectImage m).2 = [] ∧
    (Mars.selectImage m).1 = (if m.flagA then m.testA else m.testB) := by
  unfold Mars.selectImage
  dsimp only
  generalize (if m.flagA = true then m.testA else m.testB) = file
  refine ⟨?_, ?_, ?_, ?_, ?_, rfl⟩ <;>
    cases m.flagA <;> cases file <;>
      simp [eraseAddrs, writeCalls, openCalls, jumpCount, flashOps]

theorem mars_copyFirstRow_calls (m : Mars.Boot) (file : Option (List Nat)) (fl : Flash) :
    eraseAddrs (Mars.copyFirstRow m file fl).2 = [] ∧
    (writeCalls (Mars.copyFirstRow m file fl).2).map (fun w => w.1) =
      [0x12000, 0x12040, 0x12080, 0x120C0] ∧
    openCalls (Mars.copyFirstRow m file fl).2 = [] ∧
    jumpCount (Mars.copyFirstRow m file fl).2 = 0 ∧
    flashOps (Mars.copyFirstRow m file fl).2 =
      (writeCalls (Mars.copyFirstRow m file fl).2).map
        (fun w => Call.nvm_write_buffer w.1 w.2) := by
  have a1 : u32 (APP_START_ADDRESS + 64) = 0x12040 := by decide
  have a2 : u32 (APP_START_ADDRESS + 128) = 0x12080 := by decide
  have a3 : u32 (APP_START_ADDRESS + 192) = 0x120C0 := by decide
  have a0 : APP_START_ADDRESS = 0x12000 := rfl
  unfold Mars.copyFirstRow
  dsimp only
  generalize (Mars.readRow m file ++ List.drop (Mars.readRow m file).length m.readBuffer) = buf
  simp only [a1, a2, a3, a0]
  generalize (slice buf 0 64) = s0
  generalize (slice buf 64 64) = s1
  generalize (slice buf 128 64) = s2
  generalize (slice buf 192 64) = s3
  generalize (slice buf 0 256) = s4
  refine ⟨?_, ?_, ?_, ?_, ?_⟩ <;>
    (simp [eraseAddrs, writeCalls, openCalls, jumpCount, flashOps]; try decide)

/-- The flash operations and the `f_open` calls of the `TEST_AB` part. -/
theorem mars_testAB_calls (m : Mars.Boot) :
    eraseAddrs (Mars.testAB m).2 = [0x12000] ∧
    (writeCalls (Mars.testAB m).2).map (fun w => w.1) = [0x12000, 0x12040, 0x12080, 0x120C0] ∧
    openCalls (Mars.testAB m).2 =
      [testA_file_name, if m.flagA then testA_bin_file else testB_bin_file] ∧
    jumpCount (Mars.testAB m).2 = 0 ∧
    flashOps (Mars.testAB m).2 =
      Call.nvm_erase_row 0x12000 ::
        (writeCalls (Mars.testAB m).2).map (fun w => Call.nvm_write_buffer w.1 w.2) := by
  have he := mars_eraseFirstRow_calls m
  have hs := mars_selectImage_calls m
  have hc := mars_copyFirstRow_calls m (Mars.selectImage m).1 (Mars.eraseFirstRow m).1
  have ht : (Mars.testAB m).2 = (Mars.eraseFirstRow m).2 ++ (Mars.selectImage m).2 ++
      (Mars.copyFirstRow m (Mars.selectImage m).1 (Mars.eraseFirstRow m).1).2 := rfl
  rw [ht]
  generalize (Mars.copyFirstRow m (Mars.selectImage m).1 (Mars.eraseFirstRow m).1).2 = C at hc ⊢
  generalize (Mars.eraseFirstRow m).2 = E at he ⊢
  generalize (Mars.selectImage m).2 = S at hs ⊢
  obtain ⟨e1, e2, e3, e4, e5⟩ := he
  obtain ⟨s1, s2, s3, s4, s5, -⟩ := hs
  obtain ⟨c1, c2, c3, c4, c5⟩ := hc
  simp only [eraseAddrs_append, writeCalls_append, openCalls_append, jumpCount_append,
    flashOps_append, e1, e2, e3, e4, e5, s1, s2, s3, s4, s5, c1, c3, c4, c5]
  simp [c2]

theorem sft_openCalls (sd : SdCard) (h : (StartFilesystemAndTest sd).1 = true) :
    openCalls (StartFilesystemAndTest sd).2 = [test_file_name, test_bin_file] := by
  rcases sd with ⟨a, b, c, d, e, f⟩
  revert h
  cases a <;> cases b <;> cases c <;> cases d <;> cases e <;> cases f <;>
    first
      | (intro h; exact absurd h (by decide))
      | (intro _; rfl)

/-- When the card test passes, `main` of `BootMain_Mars.c` runs the `TEST_AB`
part and jumps. -/
theorem mars_main_trace (m : Mars.Boot) (hsd : (StartFilesystemAndTest m.sd).1 = true) :
    (Mars.main m).1 = Exit.jumped ∧ (Mars.main m).2.1 = (Mars.testAB m).1 ∧
    (Mars.main m).2.2 = mainInit ++ (StartFilesystemAndTest m.sd).2 ++
      [Call.SerialConsoleWriteString "SD CARD mount success! Filesystem also mounted. \r\n"]
      ++ (Mars.testAB m).2 ++ Mars.mainExit := by
  unfold Mars.main
  simp only [hsd]
  exact ⟨rfl, rfl, rfl⟩

theorem mars_main_calls (m : Mars.Boot) (hsd : (StartFilesystemAndTest m.sd).1 = true) :
    (Mars.main m).1 = Exit.jumped ∧
    eraseAddrs (Mars.main m).2.2 = [0x12000] ∧
    (writeCalls (Mars.main m).2.2).map (fun w => w.1) = [0x12000, 0x12040, 0x12080, 0x120C0] ∧
    openCalls (Mars.main m).2.2 =
      [test_file_name, test_bin_file, testA_file_name,
        if m.flagA then testA_bin_file else testB_bin_file] ∧
    ∃ pre, (Mars.main m).2.2 = pre ++ [Call.jumpToApplication] ∧ jumpCount pre = 0 ∧
      flashOps pre = Call.nvm_erase_row 0x12000 ::
        (writeCalls (Mars.main m).2.2).map (fun w => Call.nvm_write_buffer w.1 w.2) := by
  obtain ⟨h1, -, h3⟩ := mars_main_trace m hsd
  obtain ⟨t1, t2, t3, t4, t5⟩ := mars_testAB_calls m
  obtain ⟨i1, i2, -, i4, i5⟩ := mainInit_others
  obtain ⟨f1, f2, -, f4, f5⟩ := sft_others m.sd
  have f3 := sft_openCalls m.sd hsd
  have i3 : openCalls mainInit = [] := rfl
  rw [h3]
  generalize (Mars.testAB m).2 = T at t1 t2 t3 t4 t5 ⊢
  generalize (StartFilesystemAndTest m.sd).2 = S at f1 f2 f3 f4 f5 ⊢
  refine ⟨h1, ?_, ?_, ?_, ?_⟩
  · simp [eraseAddrs_append, i1, f1, t1, eraseAddrs, Mars.mainExit]
  · simp [writeCalls_append, i2, f2, t2, writeCalls, Mars.mainExit]
  · simp [openCalls_append, i3, f3, t3, openCalls, Mars.mainExit]
  · refine ⟨mainInit ++ S ++
      [Call.SerialConsoleWriteString "SD CARD mount success! Filesystem also mounted. \r\n"]
      ++ T ++ [Call.SerialConsoleWriteString "ESE5160 - EXIT BOOTLOADER",
        Call.delay_cycles_ms 100, Call.DeinitializeSerialConsole, Call.sd_mmc_deinit], ?_, ?_, ?_⟩
    · simp [Mars.mainExit]
    · simp [jumpCount_append, i4, f4, t4, jumpCount]
    · simp [flashOps_append, writeCalls_append, i5, f5, t5, i2, f2, flashOps, writeCalls,
        Mars.mainExit]

theorem u32_row_off (c k : Nat) (hk : k < 256) :
    u32 (APP_START_ADDRESS + c * ROW_SIZE + k) = pageAddress c 0 + k := by
  simp only [pageAddress, u32, APP_START_ADDRESS, ROW_SIZE]
  omega

theorem pageAddress_aligned (c : Nat) : pageAddress c 0 % 4 = 0 := by
  simp only [pageAddress, u32, APP_START_ADDRESS, ROW_SIZE]
  omega

theorem crcAddress_unaligned (c : Nat) : u32 (APP_START_ADDRESS + c * ROW_SIZE + 1) % 4 = 1 := by
  simp only [u32, APP_START_ADDRESS, ROW_SIZE]
  omega

theorem nvm_write_buffer_hit (hw : Hardware) (fl : Flash) (addr : Nat) (d : List Nat) (a : Nat)
    (hs : hw.write_status addr = true) (h : Covers (addr, d) a) :
    (nvm_write_buffer hw fl addr d).2 a = d.getD (a - addr) 0 := by
  unfold nvm_write_buffer
  unfold Covers at h
  simp only [hs, if_true]
  exact if_pos h

theorem slice_getD (b : List Nat) (off len k : Nat) (hk : k < len) :
    (slice b off len).getD k 0 = b.getD (off + k) 0 := by
  unfold slice
  rw [List.getD_eq_getElem?_getD, List.getD_eq_getElem?_getD, List.getElem?_take_of_lt hk,
    List.getElem?_drop]

theorem slice_length (b : List Nat) (off len : Nat) (h : off + len ≤ b.length) :
    (slice b off len).length = len := by
  unfold slice
  rw [List.length_take, List.length_drop]
  omega

/-- After the four page writes of a full row, all reported as done, the row
holds the first 256 bytes of the buffer. -/
theorem fullRowFlash_hit (hw : Hardware) (hwrite : ∀ a, hw.write_status a = true)
    (b : List Nat) (hb : 256 ≤ b.length) (c : Nat) (fl : Flash) (i : Nat) (hi : i < 256) :
    fullRowFlash hw b c fl (pageAddress c 0 + i) = b.getD i 0 := by
  have e1 := u32_row_off c 64 (by omega)
  have e2 := u32_row_off c 128 (by omega)
  have e3 := u32_row_off c 192 (by omega)
  have l0 := slice_length b 0 64 (by omega)
  have l1 := slice_length b 64 64 (by omega)
  have l2 := slice_length b 128 64 (by omega)
  have l3 := slice_length b 192 64 (by omega)
  simp only [fullRowFlash, e1, e2, e3]
  generalize pageAddress c 0 = a0
  by_cases h3 : 192 ≤ i
  · rw [nvm_write_buffer_hit _ _ _ _ _ (hwrite _) (by unfold Covers; simp only [l3]; omega),
      slice_getD _ _ _ _ (by omega)]
    have e : 192 + (a0 + i - (a0 + 192)) = i := by omega
    rw [e]
  rw [nvm_write_buffer_frame _ _ _ _ _ (by unfold Covers; simp only [l3]; omega)]
  by_cases h2 : 128 ≤ i
  · rw [nvm_write_buffer_hit _ _ _ _ _ (hwrite _) (by unfold Covers; simp only [l2]; omega),
      slice_getD _ _ _ _ (by omega)]
    have e : 128 + (a0 + i - (a0 + 128)) = i := by omega
    rw [e]
  rw [nvm_write_buffer_frame _ _ _ _ _ (by unfold Covers; simp only [l2]; omega)]
  by_cases h1 : 64 ≤ i
  · rw [nvm_write_buffer_hit _ _ _ _ _ (hwrite _) (by unfold Covers; simp only [l1]; omega),
      slice_getD _ _ _ _ (by omega)]
    have e : 64 + (a0 + i - (a0 + 64)) = i := by omega
    rw [e]
  rw [nvm_write_buffer_frame _ _ _ _ _ (by unfold Covers; simp only [l1]; omega)]
  rw [nvm_write_buffer_hit _ _ _ _ _ (hwrite _) (by unfold Covers; simp only [l0]; omega),
    slice_getD _ _ _ _ (by omega)]
  have e : 0 + (a0 + i - a0) = i := by omega
  rw [e]

/-- Reading a full row back gives what was handed to the four page writes. -/
theorem fullRowFlash_readBack (hw : Hardware) (hwrite : ∀ a, hw.write_status a = true)
    (b : List Nat) (hb : 256 ≤ b.length) (c : Nat) (fl : Flash) :
    readBack (fullRowFlash hw b c fl) (pageAddress c 0) ROW_SIZE = slice b 0 ROW_SIZE := by
  apply List.ext_getElem
  · rw [slice_length b 0 ROW_SIZE (by simpa [ROW_SIZE] using hb)]
    simp [readBack]
  · intro i h1 h2
    have hi : i < 256 := by simpa [readBack, ROW_SIZE] using h1
    simp only [readBack, List.getElem_map, List.getElem_range]
    rw [fullRowFlash_hit hw hwrite b hb c fl i hi]
    have := slice_getD b 0 ROW_SIZE i (by simpa [ROW_SIZE] using hi)
    rw [List.getD_eq_getElem?_getD, List.getElem?_eq_getElem h2] at this
    simpa using this.symm

theorem lastRow_crcNvm (hw : Hardware) (buf : List Nat) (n c sd nvm : Nat) (fl : Flash) :
    (WriteApplication.lastRow hw buf n c sd nvm fl).resultCrcNvm =
      dsu_crc32_cal_nvm hw (WriteApplication.lastRow hw buf n c sd nvm fl).flash
        (u32 (APP_START_ADDRESS + c * ROW_SIZE + 1)) ROW_SIZE nvm ∧
    ((WriteApplication.lastRow hw buf n c sd nvm fl).ok = true ↔
      (WriteApplication.lastRow hw buf n c sd nvm fl).resultCrcNvm = sd) := by
  simp only [WriteApplication.lastRow, WriteApplication.finish]
  split <;> simp_all

/-- With a DSU driver that takes word-aligned start addresses only, and flash
that stores every page as written, the two accumulators stay equal along the
copy loop: the call of the last row, at an odd address, leaves `resultCrcNvm`
as it was. -/
theorem loop_crc_aligned (hw : Hardware) (hread : ∀ k, hw.read_status k = true)
    (hwrite : ∀ a, hw.write_status a = true)
    (hacc : ∀ a, hw.dsu_accepts a = (a % 4 == 0))
    (rest buf : List Nat) (c sd nvm : Nat) (fl : Flash) :
    nvm = sd →
      (WriteApplication.loop hw rest buf c sd nvm fl).resultCrcNvm =
        (WriteApplication.loop hw rest buf c sd nvm fl).resultCrcSd ∧
      (WriteApplication.loop hw rest buf c sd nvm fl).ok = true := by
  refine loop_ind hw
    (fun _ _ _ sd nvm _ r => nvm = sd → r.resultCrcNvm = r.resultCrcSd ∧ r.ok = true)
    ?_ ?_ ?_ rest buf c sd nvm fl
  · intro rest buf c sd nvm fl h
    rw [hread c] at h
    exact absurd h (by decide)
  · intro rest buf c sd nvm fl _ _ he
    have h := lastRow_crcNvm hw (rest ++ buf.drop rest.length) rest.length c sd nvm fl
    have hs := (crc_lastRow hw (rest ++ buf.drop rest.length) rest.length c sd nvm fl).2
    have hn : (WriteApplication.lastRow hw (rest ++ buf.drop rest.length) rest.length c sd nvm
        fl).resultCrcNvm = sd := by
      rw [h.1]
      unfold dsu_crc32_cal_nvm
      rw [hacc, crcAddress_unaligned]
      simpa using he
    exact ⟨by rw [hn, hs], h.2.mpr hn⟩
  · intro rest buf c sd nvm fl _ hlen r ih he
    apply ih
    have hb : 256 ≤ (List.take ROW_SIZE rest ++ List.drop ROW_SIZE buf).length := by
      rw [List.length_append, List.length_take]
      simp only [ROW_SIZE] at hlen ⊢
      omega
    unfold dsu_crc32_cal_nvm dsu_crc32_cal_ram
    rw [hacc, pageAddress_aligned, fullRowFlash_readBack hw hwrite _ hb, he]
    rfl

/-- With a DSU driver that takes word-aligned start addresses only, every image
that is read without error and stored as written makes `WriteApplication`
return true. -/
theorem write_ok_aligned (hw : Hardware) (hread : ∀ k, hw.read_status k = true)
    (hwrite : ∀ a, hw.write_status a = true)
    (hacc : ∀ a, hw.dsu_accepts a = (a % 4 == 0))
    (img buf : List Nat) (fl : Flash) :
    (WriteApplication hw (some img) buf fl).resultCrcNvm =
      (WriteApplication hw (some img) buf fl).resultCrcSd ∧
    (WriteApplication hw (some img) buf fl).ok = true := by
  have h := loop_crc_aligned hw hread hwrite hacc img buf 0 0 0 fl rfl
  simpa [WriteApplication] using h

theorem readBack_congr (fl fl' : Flash) (a len : Nat) (h : ∀ i, i < len → fl (a + i) = fl' (a + i)) :
    readBack fl a len = readBack fl' a len := by
  unfold readBack
  apply List.map_congr_left
  intro i hi
  exact h i (List.mem_range.mp hi)

/-- The last-row branch of an empty read writes nothing. -/
theorem lastRow_empty_flash (hw : Hardware) (buf : List Nat) (c sd nvm : Nat) (fl : Flash)
    (a : Nat) : (WriteApplication.lastRow hw buf 0 c sd nvm fl).flash a = fl a := by
  apply lastRow_frame
  intro w hw'
  rw [writeCalls_lastRow] at hw'
  simp only [Nat.zero_div, Nat.zero_mod, List.range'_zero, List.map_nil, List.nil_append,
    List.mem_singleton] at hw'
  rw [hw']
  unfold Covers
  simp [slice]

/-- The one-row image, the reads and the page writes succeeding: flash holds
the image afterwards and `resultCrcSd` is its checksum, whatever the DSU driver
does with the call of the last-row branch. -/
theorem one_row_source (hw : Hardware) (h0 : hw.read_status 0 = true)
    (h1 : hw.read_status 1 = true) (hwrite : ∀ a, hw.write_status a = true)
    (img buf : List Nat) (fl : Flash) (hlen : img.length = 256) :
    readBack (WriteApplication hw (some img) buf fl).flash 0x12000 256 = img ∧
    (WriteApplication hw (some img) buf fl).resultCrcSd = hw.crc32 0 img := by
  have hl : ROW_SIZE ≤ img.length := by simp [hlen, ROW_SIZE]
  have hl2 : (List.drop ROW_SIZE img).length < ROW_SIZE := by simp [hlen, ROW_SIZE]
  have hd : (List.drop ROW_SIZE img).length = 0 := by simp [hlen, ROW_SIZE]
  have ht : List.take ROW_SIZE img = img := List.take_of_length_le (by simp [hlen, ROW_SIZE])
  have hb : 256 ≤ (img ++ List.drop ROW_SIZE buf).length := by
    rw [List.length_append]; omega
  have hs : slice (img ++ List.drop ROW_SIZE buf) 0 ROW_SIZE = img := by
    rw [slice_append_left img _ 0 ROW_SIZE (by simp [hlen, ROW_SIZE])]
    unfold slice
    rw [List.drop_zero, List.take_of_length_le (by simp [hlen, ROW_SIZE])]
  have ha0 : pageAddress 0 0 = 0x12000 := by decide
  have hrow := fullRowFlash_readBack hw hwrite (img ++ List.drop ROW_SIZE buf) hb 0 fl
  rw [hs, ha0] at hrow
  obtain ⟨-, e2, e3, -⟩ := write_trace hw img buf fl
  rw [e2, e3, loop_full' hw img buf 0 0 0 fl h0 hl, loop_last hw _ _ _ _ _ _ h1 hl2]
  simp only [hd, ht, hs, ha0]
  refine ⟨?_, ?_⟩
  · refine Eq.trans ?_ hrow
    exact readBack_congr _ _ _ _ (fun i _ => lastRow_empty_flash hw _ _ _ _ _ _)
  · rw [(crc_lastRow _ _ _ _ _ _ _).2]
    rfl

theorem hwGood_crc32 : hwGood.crc32 = crc32_update := rfl

/-- The one-row image, the DSU computing at every start address: what flash and
the two accumulators hold at the comparison. -/
theorem one_row_crc (hw : Hardware) (h0 : hw.read_status 0 = true)
    (h1 : hw.read_status 1 = true) (hwrite : ∀ a, hw.write_status a = true)
    (hacc : ∀ a, hw.dsu_accepts a = true)
    (img buf : List Nat) (fl : Flash) (hlen : img.length = 256) :
    readBack (WriteApplication hw (some img) buf fl).flash 0x12000 256 = img ∧
    (WriteApplication hw (some img) buf fl).resultCrcSd = hw.crc32 0 img ∧
    (WriteApplication hw (some img) buf fl).resultCrcNvm =
      hw.crc32 (hw.crc32 0 img) (readBack fl 0x12101 256) := by
  have hl : ROW_SIZE ≤ img.length := by simp [hlen, ROW_SIZE]
  have hl2 : (List.drop ROW_SIZE img).length < ROW_SIZE := by simp [hlen, ROW_SIZE]
  have hd : (List.drop ROW_SIZE img).length = 0 := by simp [hlen, ROW_SIZE]
  have ht : List.take ROW_SIZE img = img := List.take_of_length_le (by simp [hlen, ROW_SIZE])
  have hb : 256 ≤ (img ++ List.drop ROW_SIZE buf).length := by
    rw [List.length_append]; omega
  have hs : slice (img ++ List.drop ROW_SIZE buf) 0 ROW_SIZE = img := by
    rw [slice_append_left img _ 0 ROW_SIZE (by simp [hlen, ROW_SIZE])]
    unfold slice
    rw [List.drop_zero, List.take_of_length_le (by simp [hlen, ROW_SIZE])]
  have ha0 : pageAddress 0 0 = 0x12000 := by decide
  have ha1 : u32 (APP_START_ADDRESS + (0 + 1) * ROW_SIZE + 1) = 0x12101 := by decide
  have hrow := fullRowFlash_readBack hw hwrite (img ++ List.drop ROW_SIZE buf) hb 0 fl
  rw [hs, ha0] at hrow
  obtain ⟨-, e2, e3, e4⟩ := write_trace hw img buf fl
  rw [e2, e3, e4, loop_full' hw img buf 0 0 0 fl h0 hl, loop_last hw _ _ _ _ _ _ h1 hl2]
  simp only [hd, ht, hs, ha0]
  refine ⟨?_, ?_, ?_⟩
  · refine Eq.trans ?_ hrow
    exact readBack_congr _ _ _ _ (fun i _ => lastRow_empty_flash hw _ _ _ _ _ _)
  · rw [(crc_lastRow _ _ _ _ _ _ _).2]
    rfl
  · rw [(lastRow_crcNvm _ _ _ _ _ _ _).1, ha1]
    unfold dsu_crc32_cal_nvm
    rw [hacc, hacc, hrow]
    simp only [if_true, ROW_SIZE]
    congr 1
    apply readBack_congr
    intro i hi
    rw [lastRow_empty_flash]
    apply fullRowFlash_frame
    intro w hw'
    rw [writeCalls_fullRowCalls] at hw'
    have l0 : (slice (img ++ List.drop 256 buf) 0 64).length ≤ 64 := slice_length_le _ _ _
    have l1 : (slice (img ++ List.drop 256 buf) 64 64).length ≤ 64 := slice_length_le _ _ _
    have l2 : (slice (img ++ List.drop 256 buf) 128 64).length ≤ 64 := slice_length_le _ _ _
    have l3 : (slice (img ++ List.drop 256 buf) 192 64).length ≤ 64 := slice_length_le _ _ _
    have a1 : u32 (APP_START_ADDRESS + 0 * ROW_SIZE + 64) = 0x12040 := by decide
    have a2 : u32 (APP_START_ADDRESS + 0 * ROW_SIZE + 128) = 0x12080 := by decide
    have a3 : u32 (APP_START_ADDRESS + 0 * ROW_SIZE + 192) = 0x120C0 := by decide
    rw [ha0, a1, a2, a3] at hw'
    simp only [List.mem_cons, List.mem_singleton, List.not_mem_nil, or_false] at hw'
    unfold Covers
    rcases hw' with h | h | h | h <;> subst h <;> simp only
    all_goals omega

theorem crc_rowImage : crc32_update 0 rowImage = 613615915 := by
  decide!

theorem crc32_update_append (crc : Nat) (a b : List Nat) :
    crc32_update crc (a ++ b) = crc32_update (crc32_update crc a) b := by
  simp [crc32_update, List.foldl_append]

/-- Feeding chunks one after another with the running accumulator is one call
over their concatenation. -/
theorem crc32_update_join (chunks : List (List Nat)) (crc : Nat) :
    chunks.foldl crc32_update crc = crc32_update crc chunks.flatten := by
  induction chunks generalizing crc with
  | nil => rfl
  | cons c t ih => rw [List.foldl_cons, ih, List.flatten_cons, crc32_update_append]

theorem crc32_bit_lt (crc : Nat) (h : crc < 2 ^ 32) : crc32_bit crc < 2 ^ 32 := by
  unfold crc32_bit
  split
  · exact Nat.xor_lt_two_pow (by omega) (by decide)
  · omega

theorem crc32_byte_lt (crc b : Nat) (h : crc < 2 ^ 32) (hb : b < 256) :
    crc32_byte crc b < 2 ^ 32 := by
  unfold crc32_byte
  have hx : crc ^^^ b < 2 ^ 32 := Nat.xor_lt_two_pow h (by omega)
  exact crc32_bit_lt _ (crc32_bit_lt _ (crc32_bit_lt _ (crc32_bit_lt _ (crc32_bit_lt _
    (crc32_bit_lt _ (crc32_bit_lt _ (crc32_bit_lt _ hx)))))))

theorem crc32_update_lt (bytes : List Nat) (crc : Nat) (h : crc < 2 ^ 32)
    (hb : ∀ b ∈ bytes, b < 256) : crc32_update crc bytes < 2 ^ 32 := by
  induction bytes generalizing crc with
  | nil => exact h
  | cons x t ih =>
    exact ih _ (crc32_byte_lt crc x h (hb x (List.mem_cons_self _ _)))
      (fun b hb' => hb b (List.mem_cons_of_mem _ hb'))

theorem readBack_add (fl : Flash) (a n m : Nat) :
    readBack fl a (n + m) = readBack fl a n ++ readBack fl (a + n) m := by
  unfold readBack
  rw [List.range_add, List.map_append, List.map_map]
  congr 1
  apply List.map_congr_left
  intro i _
  simp [Nat.add_assoc]

/-- Row by row over flash, with the running accumulator, is one call over all
the rows. -/
theorem crc_rows (fl : Flash) (k : Nat) (crc : Nat) :
    (List.range k).foldl (fun acc i => crc32_update acc (readBack fl (0x12000 + 256 * i) 256)) crc =
      crc32_update crc (readBack fl 0x12000 (256 * k)) := by
  induction k with
  | zero => simp [readBack, crc32_update]
  | succ k ih =>
    rw [List.range_succ, List.foldl_append, ih, Nat.mul_succ, readBack_add, crc32_update_append,
      List.foldl_cons, List.foldl_nil]

/-- The source accumulator of the copy loop is the checksum of the full rows
read, as one stream. -/
theorem loop_crcSd (hw : Hardware) (hread : ∀ k, hw.read_status k = true)
    (hcrc : hw.crc32 = crc32_update)
    (rest buf : List Nat) (c sd nvm : Nat) (fl : Flash) :
    (WriteApplication.loop hw rest buf c sd nvm fl).resultCrcSd =
      crc32_update sd (rest.take (256 * (rest.length / 256))) := by
  refine loop_ind hw
    (fun rest _ _ sd _ _ r => r.resultCrcSd = crc32_update sd (rest.take (256 * (rest.length / 256))))
    ?_ ?_ ?_ rest buf c sd nvm fl
  · intro rest buf c sd nvm fl h
    rw [hread c] at h
    exact absurd h (by decide)
  · intro rest buf c sd nvm fl _ hlen
    have h0 : rest.length / 256 = 0 := by
      simp only [ROW_SIZE] at hlen
      omega
    rw [h0]
    simp only [(crc_lastRow _ _ _ _ _ _ _).2]
    rfl
  · intro rest buf c sd nvm fl _ hlen r ih
    simp only [ROW_SIZE] at hlen
    have hs : slice (List.take ROW_SIZE rest ++ List.drop ROW_SIZE buf) 0 ROW_SIZE =
        List.take 256 rest := by
      rw [slice_append_left _ _ 0 ROW_SIZE (by simp [ROW_SIZE]; omega)]
      simp [slice, ROW_SIZE]
    have hq : 256 * (rest.length / 256) = 256 + 256 * ((List.drop ROW_SIZE rest).length / 256) := by
      rw [List.length_drop]
      simp only [ROW_SIZE]
      omega
    show r.resultCrcSd = _
    rw [ih, hs, hq, List.take_add, crc32_update_append]
    unfold dsu_crc32_cal_ram
    rw [hcrc]
    rfl

theorem dsu_nvm_row (fl : Flash) (i len acc : Nat) :
    dsu_crc32_cal_nvm hwGood fl (0x12000 + 256 * i) len acc =
      crc32_update acc (readBack fl (0x12000 + 256 * i) len) := by
  have h : hwGood.dsu_accepts (0x12000 + 256 * i) = true := by
    show ((0x12000 + 256 * i) % 4 == 0) = true
    have : (0x12000 + 256 * i) % 4 = 0 := by omega
    rw [this]
    rfl
  unfold dsu_crc32_cal_nvm
  rw [h]
  rfl

theorem dsu_nvm_rows (fl : Flash) (k : Nat) :
    (List.range k).foldl (fun acc i => dsu_crc32_cal_nvm hwGood fl (0x12000 + 256 * i) 256 acc) 0 =
      dsu_crc32_cal_nvm hwGood fl 0x12000 (256 * k) 0 := by
  have h := dsu_nvm_row fl 0 (256 * k) 0
  rw [Nat.mul_zero, Nat.add_zero] at h
  rw [h, ← crc_rows fl k 0]
  congr 1
  funext acc i
  exact dsu_nvm_row fl i 256 acc

/-- When the card test passes, `main` calls `jumpToApplication` once, as its
last call. -/
theorem main_jumps_once (b : Boot) (hsd : (StartFilesystemAndTest b.sd).1 = true) :
    (main b).exit = Exit.jumped ∧ jumpCount (main b).trace = 1 ∧
    (main b).trace.getLast? = some Call.jumpToApplication := by
  obtain ⟨pre, hp, hj⟩ := main_ends_with_shutdown b hsd
  refine ⟨(main_trace_ok b hsd).2.1, ?_, ?_⟩
  · rw [hp, jumpCount_append, hj]
    rfl
  · rw [hp]
    simp

theorem wrap_succ (t m : Nat) (ht : t < m) (hm : m < 2 ^ 32) :
    size_t (t + 1) % m = if t + 1 = m then 0 else t + 1 := by
  have h1 : size_t (t + 1) = t + 1 := by
    unfold size_t
    exact Nat.mod_eq_of_lt (by omega)
  rw [h1]
  split_ifs with h
  · rw [h, Nat.mod_self]
  · exact Nat.mod_eq_of_lt (by omega)

theorem wrap_add (t i m : Nat) (ht : t < m) (hi : i ≤ m) :
    (t + i) % m = if t + i < m then t + i else t + i - m := by
  split_ifs with h
  · exact Nat.mod_eq_of_lt h
  · rw [Nat.mod_eq_sub_mod (by omega), Nat.mod_eq_of_lt (by omega)]

/-- The size in plain arithmetic. -/
theorem size_eq (c : circular_buf_t) (h : WellFormed c) :
    circular_buf_size c =
      if c.full then c.max
      else if c.tail ≤ c.head then c.head - c.tail else c.max + c.head - c.tail := by
  obtain ⟨h0, h1, h2, h3, h4⟩ := h
  unfold circular_buf_size size_t_sub size_t
  cases hf : c.full
  · simp only [Bool.not_false, Bool.false_eq_true, if_true, if_false, ge_iff_le]
    split_ifs with hle
    · rfl
    · omega
  · simp

theorem size_le (c : circular_buf_t) (h : WellFormed c) :
    circular_buf_size c ≤ c.max ∧ (circular_buf_size c = c.max ↔ circular_buf_full c = true) ∧
    (circular_buf_size c = 0 ↔ circular_buf_empty c = true) := by
  rw [size_eq c h]
  obtain ⟨h0, h1, h2, h3, h4⟩ := h
  unfold circular_buf_full circular_buf_empty
  cases hf : c.full
  · simp only [Bool.false_eq_true, if_false, Bool.not_false, Bool.true_and, beq_iff_eq]
    split_ifs with hle
    · refine ⟨by omega, ⟨fun h => by omega, fun h => by cases h⟩, by omega⟩
    · refine ⟨by omega, ⟨fun h => by omega, fun h => by cases h⟩, by omega⟩
  · simp only [if_true, Bool.not_true, Bool.false_and, Bool.false_eq_true, iff_false]
    exact ⟨le_refl _, by simp, by omega⟩

/-- The head is where the byte after the newest one goes. -/
theorem head_eq (c : circular_buf_t) (h : WellFormed c) :
    c.head = (c.tail + circular_buf_size c) % c.max := by
  rw [size_eq c h]
  obtain ⟨h0, h1, h2, h3, h4⟩ := h
  cases hf : c.full
  · simp only [Bool.false_eq_true, if_false]
    split_ifs with hle
    · rw [Nat.add_sub_cancel' hle, Nat.mod_eq_of_lt h2]
    · have e : c.tail + (c.max + c.head - c.tail) = c.head + c.max := by omega
      rw [e, Nat.add_mod_right, Nat.mod_eq_of_lt h2]
  · simp only [if_true]
    rw [Nat.add_mod_right, Nat.mod_eq_of_lt h3]
    exact h4 hf

theorem wellFormed_reset (c : circular_buf_t) (h0 : 0 < c.max) (h1 : c.max < 2 ^ 32) :
    WellFormed (circular_buf_reset c) :=
  ⟨h0, h1, h0, h0, fun h => by cases h⟩

theorem wellFormed_advance (c : circular_buf_t) (h : WellFormed c) :
    WellFormed (advance_pointer c) := by
  obtain ⟨h0, h1, h2, h3, h4⟩ := h
  unfold advance_pointer
  refine ⟨h0, h1, Nat.mod_lt _ h0, ?_, ?_⟩
  · show (if c.full = true then size_t (c.tail + 1) % c.max else c.tail) < c.max
    split_ifs
    · exact Nat.mod_lt _ h0
    · exact h3
  · intro hf
    simpa using hf

theorem wellFormed_put (c : circular_buf_t) (d : Nat) (h : WellFormed c) :
    WellFormed (circular_buf_put c d) :=
  wellFormed_advance _ h

theorem wellFormed_put2 (c : circular_buf_t) (d : Nat) (h : WellFormed c) :
    WellFormed (circular_buf_put2 c d).2 := by
  unfold circular_buf_put2
  split_ifs
  · exact wellFormed_advance _ h
  · exact h

theorem wellFormed_get (c : circular_buf_t) (d : Nat) (h : WellFormed c) :
    WellFormed (circular_buf_get c d).2.1 := by
  unfold circular_buf_get
  split_ifs
  · obtain ⟨h0, h1, h2, h3, h4⟩ := h
    exact ⟨h0, h1, h2, Nat.mod_lt _ h0, fun hf => by cases hf⟩
  · exact h

theorem wellFormed_runOps (c : circular_buf_t) (ops : List CbufOp) (h : WellFormed c) :
    WellFormed (runOps c ops) := by
  unfold runOps
  induction ops generalizing c with
  | nil => exact h
  | cons op t ih =>
    rw [List.foldl_cons]
    apply ih
    cases op with
    | put d => exact wellFormed_put c d h
    | put2 d => exact wellFormed_put2 c d h
    | get => exact wellFormed_get c 0 h

theorem size_t_succ (t m : Nat) (ht : t < m) (hm : m < 2 ^ 32) : size_t (t + 1) = t + 1 := by
  unfold size_t
  exact Nat.mod_eq_of_lt (by omega)

/-- A put into a buffer that is not full appends the byte. -/
theorem put_notfull (c : circular_buf_t) (d : Nat) (h : WellFormed c) (hf : c.full = false) :
    circular_buf_size (circular_buf_put c d) = circular_buf_size c + 1 ∧
    contents (circular_buf_put c d) = contents c ++ [d] := by
  have hw := wellFormed_put c d h
  have hs' := size_eq _ hw
  have hs := size_eq c h
  have hhead := head_eq c h
  have hlt : circular_buf_size c < c.max := by
    have := size_le c h
    unfold circular_buf_full at this
    rcases Nat.lt_or_ge (circular_buf_size c) c.max with h1 | h1
    · exact h1
    · have := this.2.1.mp (by omega)
      rw [hf] at this
      cases this
  obtain ⟨h0, h1, h2, h3, h4⟩ := h
  have e1 : (circular_buf_put c d).tail = c.tail := by
    simp [circular_buf_put, advance_pointer, hf]
  have e2 : (circular_buf_put c d).head = if c.head + 1 = c.max then 0 else c.head + 1 := by
    simp only [circular_buf_put, advance_pointer]
    exact wrap_succ c.head c.max h2 h1
  have e3 : (circular_buf_put c d).full = ((circular_buf_put c d).head == c.tail) := by
    simp [circular_buf_put, advance_pointer, hf]
  have e4 : (circular_buf_put c d).max = c.max := rfl
  have e5 : (circular_buf_put c d).buffer = Function.update c.buffer c.head d := rfl
  have hsize : circular_buf_size (circular_buf_put c d) = circular_buf_size c + 1 := by
    rw [hs', hs, e3, e1, e2, e4, hf]
    simp only [Bool.false_eq_true, if_false, beq_iff_eq]
    split_ifs <;> omega
  refine ⟨hsize, ?_⟩
  unfold contents
  rw [hsize, List.range_succ, List.map_append, e1, e4, e5]
  congr 1
  · apply List.map_congr_left
    intro i hi
    have hi' := List.mem_range.mp hi
    rw [Function.update_noteq]
    rw [hhead, wrap_add _ _ _ h3 (by omega), wrap_add _ _ _ h3 (le_of_lt hlt)]
    split_ifs <;> omega
  · simp only [List.map_cons, List.map_nil]
    rw [← hhead, Function.update_same]

/-- A put into a full buffer drops the oldest byte and appends the new one. -/
theorem put_full (c : circular_buf_t) (d : Nat) (h : WellFormed c) (hf : c.full = true) :
    (circular_buf_put c d).full = true ∧
    circular_buf_size (circular_buf_put c d) = c.max ∧
    contents (circular_buf_put c d) = (contents c).tail ++ [d] := by
  obtain ⟨h0, h1, h2, h3, h4⟩ := h
  have hht := h4 hf
  have e1 : (circular_buf_put c d).tail = (c.tail + 1) % c.max := by
    simp [circular_buf_put, advance_pointer, hf, size_t_succ c.tail c.max h3 h1]
  have e3 : (circular_buf_put c d).full = true := by
    simp [circular_buf_put, advance_pointer, hf, hht]
  have e4 : (circular_buf_put c d).max = c.max := rfl
  have e5 : (circular_buf_put c d).buffer = Function.update c.buffer c.tail d := by
    simp [circular_buf_put, advance_pointer, hht]
  have hsize : circular_buf_size (circular_buf_put c d) = c.max := by
    simp [circular_buf_size, e3, e4]
  have hsize0 : circular_buf_size c = c.max := by
    simp [circular_buf_size, hf]
  refine ⟨e3, hsize, ?_⟩
  unfold contents
  rw [hsize, hsize0, e1, e4, e5]
  obtain ⟨n, hn⟩ : ∃ n, c.max = n + 1 := ⟨c.max - 1, by omega⟩
  rw [hn]
  conv_rhs => rw [List.range_succ_eq_map, List.map_cons, List.tail_cons, List.map_map]
  rw [List.range_succ, List.map_append]
  congr 1
  · apply List.map_congr_left
    intro i hi
    have hi' := List.mem_range.mp hi
    simp only [Function.comp]
    rw [Nat.mod_add_mod, Function.update_noteq]
    · rw [Nat.add_assoc, Nat.add_comm 1 i]
    · rw [← hn, Nat.add_assoc, wrap_add _ _ _ h3 (by omega)]
      split_ifs <;> omega
  · simp only [List.map_cons, List.map_nil]
    rw [Nat.mod_add_mod]
    have e : c.tail + 1 + n = c.tail + (n + 1) := by omega
    rw [e, Nat.add_mod_right, Nat.mod_eq_of_lt (by omega), Function.update_same]

/-- A get from a buffer that is not empty takes the oldest byte. -/
theorem get_nonempty (c : circular_buf_t) (data : Nat) (h : WellFormed c)
    (hne : circular_buf_empty c = false) :
    circular_buf_get c data = (0, retreat_pointer c, c.buffer c.tail) ∧
    circular_buf_size (retreat_pointer c) + 1 = circular_buf_size c ∧
    contents c = c.buffer c.tail :: contents (retreat_pointer c) := by
  have hw : WellFormed (retreat_pointer c) := by
    have := wellFormed_get c data h
    simpa [circular_buf_get, hne] using this
  have hs' := size_eq _ hw
  have hs := size_eq c h
  obtain ⟨h0, h1, h2, h3, h4⟩ := h
  have e1 : (retreat_pointer c).tail = if c.tail + 1 = c.max then 0 else c.tail + 1 :=
    wrap_succ c.tail c.max h3 h1
  have e1' : (retreat_pointer c).tail = (c.tail + 1) % c.max := by
    simp [retreat_pointer, size_t_succ c.tail c.max h3 h1]
  have e2 : (retreat_pointer c).head = c.head := rfl
  have e3 : (retreat_pointer c).full = false := rfl
  have e4 : (retreat_pointer c).max = c.max := rfl
  have e5 : (retreat_pointer c).buffer = c.buffer := rfl
  have hsize : circular_buf_size (retreat_pointer c) + 1 = circular_buf_size c := by
    rw [hs', hs, e1, e2, e3, e4]
    unfold circular_buf_empty at hne
    cases hf : c.full
    · rw [hf] at hne
      simp only [Bool.not_false, Bool.true_and, beq_eq_false_iff_ne, ne_eq] at hne
      simp only [Bool.false_eq_true, if_false]
      split_ifs <;> omega
    · have := h4 hf
      simp only [Bool.false_eq_true, if_false, if_true]
      split_ifs <;> omega
  refine ⟨by simp [circular_buf_get, hne], hsize, ?_⟩
  unfold contents
  rw [← hsize, List.range_succ_eq_map, List.map_cons, List.map_map, e1', e4, e5]
  congr 1
  · rw [Nat.add_zero, Nat.mod_eq_of_lt h3]
  · apply List.map_congr_left
    intro i _
    simp only [Function.comp]
    rw [Nat.mod_add_mod, Nat.add_assoc, Nat.add_comm 1 i]

/-- A get from an empty buffer changes nothing. -/
theorem get_empty (c : circular_buf_t) (data : Nat) (he : circular_buf_empty c = true) :
    circular_buf_get c data = (-1, c, data) := by
  simp [circular_buf_get, he]

theorem contents_length (c : circular_buf_t) : (contents c).length = circular_buf_size c := by
  simp [contents]

theorem contents_reset (c : circular_buf_t) : contents (circular_buf_reset c) = [] := by
  simp [contents, circular_buf_reset, circular_buf_size]

theorem notfull_of_room (c : circular_buf_t) (h : WellFormed c)
    (hroom : circular_buf_size c < c.max) : c.full = false := by
  have := (size_le c h).2.1
  unfold circular_buf_full at this
  cases hf : c.full
  · rfl
  · have := this.mpr hf
    omega

/-- Putting a string that fits appends it to what the buffer holds. -/
theorem putString_contents (c : circular_buf_t) (bytes : List Nat) (h : WellFormed c)
    (hroom : circular_buf_size c + bytes.length ≤ c.max) :
    WellFormed (putString c bytes) ∧ contents (putString c bytes) = contents c ++ bytes := by
  unfold putString
  induction bytes generalizing c with
  | nil => exact ⟨h, by simp⟩
  | cons b t ih =>
    rw [List.length_cons] at hroom
    have hf := notfull_of_room c h (by omega)
    obtain ⟨p1, p2⟩ := put_notfull c b h hf
    have hmax : (circular_buf_put c b).max = c.max := rfl
    obtain ⟨i1, i2⟩ := ih (circular_buf_put c b) (wellFormed_put c b h) (by rw [p1, hmax]; omega)
    rw [List.foldl_cons]
    exact ⟨i1, by rw [i2, p2, List.append_assoc]; rfl⟩

/-- Getting as many bytes as the buffer holds delivers them oldest first and
leaves the buffer empty. -/
theorem getMany_contents (n : Nat) (c : circular_buf_t) (data : Nat) (h : WellFormed c)
    (hn : circular_buf_size c = n) :
    (getMany n c data).1 = (contents c).map (fun b => ((0 : Int), b)) ∧
    circular_buf_empty (getMany n c data).2 = true := by
  induction n generalizing c data with
  | zero =>
    have hl : contents c = [] := List.eq_nil_of_length_eq_zero (by rw [contents_length, hn])
    rw [hl]
    exact ⟨rfl, (size_le c h).2.2.mp hn⟩
  | succ n ih =>
    have hne : circular_buf_empty c = false := by
      cases he : circular_buf_empty c
      · rfl
      · have := (size_le c h).2.2.mpr he
        omega
    obtain ⟨g1, g2, g3⟩ := get_nonempty c data h hne
    have hw : WellFormed (retreat_pointer c) := by
      have := wellFormed_get c data h
      rw [g1] at this
      exact this
    obtain ⟨i1, i2⟩ := ih (retreat_pointer c) (c.buffer c.tail) hw (by omega)
    simp only [getMany, g1]
    rw [g3, List.map_cons, i1]
    exact ⟨rfl, i2⟩

theorem drawPixel_index (s : SSD1306_t) (buf : Nat → Nat) (x y color : Nat) :
    (SSD1306_DrawPixel s buf x y color).2 =
      if x ≥ 128 ∨ y ≥ 64 then none else some (x + y / 8 * 128 + 1) := by
  unfold SSD1306_DrawPixel
  simp only [SSD1306_WIDTH, SSD1306_HEIGHT]
  split_ifs <;> rfl

theorem readCount_append (s t : List Call) : readCount (s ++ t) = readCount s + readCount t := by
  induction s with
  | nil => simp [readCount]
  | cons c s ih =>
    cases c <;> simp [readCount, ih]
    case f_read h len =>
      cases h <;> simp [readCount, ih]
      omega

theorem readCount_remainLoop (hw : Hardware) (buf : List Nat) (c n i : Nat) (fl : Flash) :
    readCount (WriteApplication.remainLoop hw buf c n i fl).2 = 0 := by
  induction n generalizing i fl with
  | zero => simp [WriteApplication.remainLoop, readCount]
  | succ n ih => simp [WriteApplication.remainLoop, readCount, ih]

theorem readCount_lastRow (hw : Hardware) (buf : List Nat) (n c sd nvm : Nat) (fl : Flash) :
    readCount (WriteApplication.lastRow hw buf n c sd nvm fl).trace = 0 := by
  simp only [WriteApplication.lastRow, WriteApplication.finish]
  split <;> simp [readCount_append, readCount_remainLoop, readCount]

/-- With every read succeeding, the copy loop makes one `f_read` call for each
full row left and one more. -/
theorem loop_readCount (hw : Hardware) (hread : ∀ k, hw.read_status k = true)
    (rest buf : List Nat) (c sd nvm : Nat) (fl : Flash) :
    readCount (WriteApplication.loop hw rest buf c sd nvm fl).trace = rest.length / 256 + 1 := by
  refine loop_ind hw (fun rest _ _ _ _ _ r => readCount r.trace = rest.length / 256 + 1)
    ?_ ?_ ?_ rest buf c sd nvm fl
  · intro rest buf c sd nvm fl h
    rw [hread c] at h
    exact absurd h (by decide)
  · intro rest buf c sd nvm fl _ hlen
    simp only [ROW_SIZE] at hlen
    have h0 : rest.length / 256 = 0 := by omega
    simp only [readCount, readCount_lastRow, h0]
  · intro rest buf c sd nvm fl _ hlen r ih
    simp only [ROW_SIZE] at hlen
    show readCount (fullRowCalls _ c ++ r.trace) = _
    rw [readCount_append, ih, List.length_drop]
    simp only [fullRowCalls, readCount, ROW_SIZE]
    omega

/-- With every read succeeding, the copy loop is left through the comparison
of the two checksums: the last call is one of its two messages' ends. -/
theorem loop_reaches_comparison (hw : Hardware) (hread : ∀ k, hw.read_status k = true)
    (rest buf : List Nat) (c sd nvm : Nat) (fl : Flash) :
    (WriteApplication.loop hw rest buf c sd nvm fl).trace.getLast? =
        some (Call.SerialConsoleWriteString "CRC IS CORRECT!!!\r\n") ∨
      (WriteApplication.loop hw rest buf c sd nvm fl).trace.getLast? =
        some (Call.f_close Handle.file_object_bin) := by
  refine loop_ind hw (fun _ _ _ _ _ _ r =>
      r.trace.getLast? = some (Call.SerialConsoleWriteString "CRC IS CORRECT!!!\r\n") ∨
      r.trace.getLast? = some (Call.f_close Handle.file_object_bin))
    ?_ ?_ ?_ rest buf c sd nvm fl
  · intro rest buf c sd nvm fl h
    rw [hread c] at h
    exact absurd h (by decide)
  · intro rest buf c sd nvm fl _ _
    simp only [WriteApplication.lastRow, WriteApplication.finish]
    split
    · right
      show (Call.f_read Handle.file_object_bin ROW_SIZE :: (_ ++ _)).getLast? = _
      rw [← List.cons_append, List.getLast?_append]
      rfl
    · left
      show (Call.f_read Handle.file_object_bin ROW_SIZE :: (_ ++ _)).getLast? = _
      rw [← List.cons_append, List.getLast?_append]
      rfl
  · intro rest buf c sd nvm fl _ _ r ih
    show (fullRowCalls _ c ++ r.trace).getLast? = _ ∨ (fullRowCalls _ c ++ r.trace).getLast? = _
    rw [List.getLast?_append]
    rcases ih with h | h <;> rw [h] <;> simp

/-- Within a row, adding an offset to a page address does not wrap around. -/
theorem u32_in_row (k off j : Nat) (hoff : off + j < 256) :
    u32 (APP_START_ADDRESS + k * ROW_SIZE + off) + j =
      u32 (APP_START_ADDRESS + k * ROW_SIZE + (off + j)) := by
  simp only [u32, APP_START_ADDRESS, ROW_SIZE]
  omega

/-- The copy loop writes only to the addresses of the bytes it has left to
read. -/
theorem loop_frame_outside (hw : Hardware) (rest buf : List Nat) (c sd nvm : Nat) (fl : Flash)
    (a : Nat) (h : ∀ k, k < rest.length → a ≠ u32 (APP_START_ADDRESS + c * ROW_SIZE + k)) :
    (WriteApplication.loop hw rest buf c sd nvm fl).flash a = fl a := by
  apply loop_frame
  intro w hw' hcov
  obtain ⟨k', off, h1, h2, h3, h8, h4, h5, h6, h7⟩ := writes_loop_inRow hw rest buf c sd nvm fl w hw'
  unfold Covers at hcov
  obtain ⟨j, hj⟩ : ∃ j, a = w.1 + j := ⟨a - w.1, by omega⟩
  have hjlt : j < w.2.length := by omega
  have ha : a = u32 (APP_START_ADDRESS + c * ROW_SIZE + ((k' - c) * 256 + off + j)) := by
    have e : APP_START_ADDRESS + k' * ROW_SIZE + (off + j) =
        APP_START_ADDRESS + c * ROW_SIZE + ((k' - c) * 256 + off + j) := by
      simp only [APP_START_ADDRESS, ROW_SIZE]
      omega
    rw [hj, h4, u32_in_row k' off j (by omega), e]
  refine h ((k' - c) * 256 + off + j) ?_ ha
  by_cases hk : k' = c + rest.length / 256
  · have := h7 hk
    omega
  · omega

theorem pageAddress_off (c j : Nat) (hj : j < 4) : pageAddress c j = pageAddress c 0 + 64 * j := by
  simp only [pageAddress, u32, APP_START_ADDRESS, ROW_SIZE]
  omega

/-- The full pages of the last row hold the bytes of the buffer. -/
theorem remainLoop_hit (hw : Hardware) (hwrite : ∀ a, hw.write_status a = true)
    (buf : List Nat) (c : Nat) (n i : Nat) (fl : Flash) (k : Nat)
    (hin : i + n ≤ 4) (hbuf : 64 * (i + n) ≤ buf.length)
    (hk1 : 64 * i ≤ k) (hk2 : k < 64 * (i + n)) :
    (WriteApplication.remainLoop hw buf c n i fl).1 (pageAddress c 0 + k) = buf.getD k 0 := by
  induction n generalizing i fl with
  | zero => omega
  | succ n ih =>
    simp only [WriteApplication.remainLoop]
    by_cases hk : k < 64 * (i + 1)
    · rw [remainLoop_frame hw buf c _ n (i + 1) _ (by
        intro w hw'
        rw [writeCalls_remainLoop] at hw'
        simp only [List.mem_map, List.mem_range'] at hw'
        obtain ⟨j, ⟨t, ht, hj⟩, rfl⟩ := hw'
        have hl := slice_length_le buf (64 * j) 64
        unfold Covers
        simp only
        rw [pageAddress_off c j (by omega)]
        omega)]
      have hl := slice_length buf (64 * i) 64 (by omega)
      rw [nvm_write_buffer_hit hw fl _ _ _ (hwrite _) (by
          unfold Covers
          simp only [hl]
          rw [pageAddress_off c i (by omega)]
          omega),
        slice_getD _ _ _ _ (by rw [pageAddress_off c i (by omega)]; omega),
        pageAddress_off c i (by omega)]
      congr 1
      omega
    · exact ih (i + 1) _ (by omega) (by rw [← Nat.add_assoc] at hbuf; exact (by
        have : i + 1 + n = i + (n + 1) := by omega
        rw [this]; exact hbuf)) (by omega) (by
        have : i + 1 + n = i + (n + 1) := by omega
        rw [this]; exact hk2)

/-- After the last-row branch, all writes reported as done, the row holds the
bytes of the short read. -/
theorem lastRow_hit (hw : Hardware) (hwrite : ∀ a, hw.write_status a = true)
    (buf : List Nat) (n c sd nvm : Nat) (fl : Flash) (hn : n < 256) (hbuf : n ≤ buf.length)
    (k : Nat) (hk : k < n) :
    (WriteApplication.lastRow hw buf n c sd nvm fl).flash (pageAddress c 0 + k) =
      buf.getD k 0 := by
  have h64 : n / 64 % 256 = n / 64 := by omega
  have hrem : n % 64 % 256 = n % 64 := by omega
  rw [lastRow_flash, h64, hrem]
  have hl := slice_length buf (64 * (n / 64)) (n % 64) (by omega)
  by_cases hlast : 64 * (n / 64) ≤ k
  · rw [nvm_write_buffer_hit hw _ _ _ _ (hwrite _) (by
        unfold Covers
        simp only [hl]
        rw [pageAddress_off c (n / 64) (by omega)]
        omega),
      slice_getD _ _ _ _ (by rw [pageAddress_off c (n / 64) (by omega)]; omega),
      pageAddress_off c (n / 64) (by omega)]
    congr 1
    omega
  · rw [nvm_write_buffer_frame hw _ _ _ _ (by
        unfold Covers
        simp only [hl]
        rw [pageAddress_off c (n / 64) (by omega)]
        omega)]
    exact remainLoop_hit hw hwrite buf c (n / 64) 0 fl k (by omega) (by omega) (by omega)
      (by omega)

/-- With every read and every page write succeeding, after the copy loop the
flash holds every byte that was left to read at its address. -/
theorem loop_copy (hw : Hardware) (hread : ∀ k, hw.read_status k = true)
    (hwrite : ∀ a, hw.write_status a = true) (n : Nat) :
    ∀ (rest buf : List Nat) (c sd nvm : Nat) (fl : Flash), rest.length = n →
      rest.length < 2 ^ 32 → ∀ k, k < rest.length →
        (WriteApplication.loop hw rest buf c sd nvm fl).flash
          (u32 (APP_START_ADDRESS + c * ROW_SIZE + k)) = rest.getD k 0 := by
  induction n using Nat.strong_induction_on with
  | _ n ih =>
    intro rest buf c sd nvm fl hn hlt k hk
    by_cases hshort : rest.length < ROW_SIZE
    · rw [loop_last hw rest buf c sd nvm fl (hread c) hshort]
      simp only [ROW_SIZE] at hshort
      show (WriteApplication.lastRow hw _ rest.length c sd nvm fl).flash _ = _
      rw [u32_row_off c k (by omega),
        lastRow_hit hw hwrite _ rest.length c sd nvm fl hshort
          (by rw [List.length_append]; omega) k hk,
        List.getD_append _ _ _ _ hk]
    · have hlen : ROW_SIZE ≤ rest.length := by omega
      rw [loop_full' hw rest buf c sd nvm fl (hread c) hlen]
      simp only [ROW_SIZE] at hlen
      show (WriteApplication.loop hw (List.drop ROW_SIZE rest) _ (c + 1) _ _ _).flash _ = _
      have hdl : (List.drop ROW_SIZE rest).length = rest.length - 256 := List.length_drop _ _
      by_cases hrow : k < 256
      · rw [loop_frame_outside hw _ _ (c + 1) _ _ _ _ (by
          intro k' hk'
          rw [hdl] at hk'
          simp only [u32, APP_START_ADDRESS, ROW_SIZE]
          omega)]
        have hb : 256 ≤ (List.take ROW_SIZE rest ++ List.drop ROW_SIZE buf).length := by
          rw [List.length_append, List.length_take]
          simp only [ROW_SIZE]
          omega
        rw [u32_row_off c k hrow, fullRowFlash_hit hw hwrite _ hb c fl k hrow,
          List.getD_append _ _ _ _ (by rw [List.length_take]; simp only [ROW_SIZE]; omega),
          List.getD_eq_getElem?_getD, List.getD_eq_getElem?_getD,
          List.getElem?_take_of_lt (by simp only [ROW_SIZE]; omega)]
      · have e : APP_START_ADDRESS + c * ROW_SIZE + k =
            APP_START_ADDRESS + (c + 1) * ROW_SIZE + (k - 256) := by
          simp only [APP_START_ADDRESS, ROW_SIZE]
          omega
        rw [e, ih (rest.length - 256) (by omega) (List.drop ROW_SIZE rest) _ (c + 1) _ _ _ hdl
          (by omega) (k - 256) (by omega),
          List.getD_eq_getElem?_getD, List.getD_eq_getElem?_getD, List.getElem?_drop]
        have e3 : ROW_SIZE + (k - 256) = k := by
          simp only [ROW_SIZE]
          omega
        rw [e3]

/-- With every read succeeding, the four pages of each full row of the image
are passed to `nvm_write_buffer`. -/
theorem loop_full_pages (hw : Hardware) (hread : ∀ k, hw.read_status k = true)
    (rest buf : List Nat) (c sd nvm : Nat) (fl : Flash) :
    ∀ i j, i < rest.length / 256 → j < 4 →
      (u32 (APP_START_ADDRESS + (c + i) * ROW_SIZE + 64 * j),
          (rest.drop (256 * i + 64 * j)).take 64) ∈
        writeCalls (WriteApplication.loop hw rest buf c sd nvm fl).trace := by
  refine loop_ind hw (fun rest _ c _ _ _ r => ∀ i j, i < rest.length / 256 → j < 4 →
      (u32 (APP_START_ADDRESS + (c + i) * ROW_SIZE + 64 * j),
          (rest.drop (256 * i + 64 * j)).take 64) ∈ writeCalls r.trace)
    ?_ ?_ ?_ rest buf c sd nvm fl
  · intro rest buf c sd nvm fl h
    rw [hread c] at h
    exact absurd h (by decide)
  · intro rest buf c sd nvm fl _ hlen i j hi _
    simp only [ROW_SIZE] at hlen
    omega
  · intro rest buf c sd nvm fl _ hlen r ih i j hi hj
    simp only [ROW_SIZE] at hlen
    show _ ∈ writeCalls (fullRowCalls _ c ++ r.trace)
    rw [writeCalls_append, writeCalls_fullRowCalls]
    rcases Nat.eq_zero_or_pos i with hi0 | hipos
    · subst hi0
      apply List.mem_append_left
      have hs : ∀ off, off + 64 ≤ 256 →
          slice (List.take ROW_SIZE rest ++ List.drop ROW_SIZE buf) off 64 =
            (rest.drop off).take 64 := by
        intro off hoff
        rw [slice_append_left _ _ off 64 (by rw [List.length_take]; simp only [ROW_SIZE]; omega)]
        unfold slice
        rw [List.drop_take, List.take_take]
        congr 1
        simp only [ROW_SIZE]
        omega
      have hj' : j = 0 ∨ j = 1 ∨ j = 2 ∨ j = 3 := by omega
      rcases hj' with rfl | rfl | rfl | rfl
      · rw [hs 0 (by omega)]
        simp [pageAddress]
      · rw [hs 64 (by omega)]
        simp
      · rw [hs 128 (by omega)]
        simp
      · rw [hs 192 (by omega)]
        simp
    · apply List.mem_append_right
      have h := ih (i - 1) j (by rw [List.length_drop]; simp only [ROW_SIZE]; omega) hj
      rw [List.drop_drop] at h
      have e1 : c + 1 + (i - 1) = c + i := by omega
      have e2 : ROW_SIZE + (256 * (i - 1) + 64 * j) = 256 * i + 64 * j := by
        simp only [ROW_SIZE]; omega
      have e2' : 256 * (i - 1) + 64 * j + ROW_SIZE = 256 * i + 64 * j := by
        simp only [ROW_SIZE]; omega
      simpa only [e1, e2, e2'] using h

/-! ## The claims -/

/-- C1 (amended). When the checksum comparison at the end of `WriteApplication`
finds the two checksums different, `WriteApplication` returns false, and `main`
deletes `0:Application.bin` all the same: `f_unlink` is called once and the
image is no longer on the card. -/
theorem C1_image_deleted_despite_crc_mismatch (b : Boot) (img : List Nat)
    (hsd : (StartFilesystemAndTest b.sd).1 = true) (himg : b.appFile = some img)
    (hread : ∀ k, b.hw.read_status k = true)
    (hcrc : (WriteApplication b.hw (some img) b.readBuffer
        (DeleteApplication b.hw b.flash).flash).resultCrcNvm ≠
      (WriteApplication b.hw (some img) b.readBuffer
        (DeleteApplication b.hw b.flash).flash).resultCrcSd) :
    (WriteApplication b.hw (some img) b.readBuffer (DeleteApplication b.hw b.flash).flash).ok
      = false ∧
    unlinkCalls (main b).trace = [app_file_name] ∧ (main b).appFile = none := by
  have hm := main_some b img hsd himg
  refine ⟨?_, hm.1, hm.2.1⟩
  have hiff := write_ok_iff b.hw hread img b.readBuffer (DeleteApplication b.hw b.flash).flash
  cases hok : (WriteApplication b.hw (some img) b.readBuffer
      (DeleteApplication b.hw b.flash).flash).ok with
  | false => rfl
  | true => exact absurd (hiff.mp hok) hcrc

/-- Witness for C1 (amended): the one-row image on a device whose page writes
fail. -/
theorem C1_image_deleted_despite_crc_mismatch_witness :
    (WriteApplication hwWriteFault (some rowImage) (List.replicate 256 0)
      (DeleteApplication hwWriteFault (fun _ => 0)).flash).ok = false ∧
    unlinkCalls (main (bootWith hwWriteFault rowImage)).trace = [app_file_name] ∧
    (main (bootWith hwWriteFault rowImage)).appFile = none :=
  C1_image_deleted_despite_crc_mismatch (bootWith hwWriteFault rowImage) rowImage rfl rfl
    (fun _ => rfl) writeFault_crc_mismatch

/-- C1 as stated fails: on a device whose page writes fail, the checksum
comparison of the one-row image finds a mismatch and `WriteApplication` returns
false, yet `main` calls `f_unlink` and the image is gone from the card. -/
theorem C1_counterexample :
    (WriteApplication hwWriteFault (some rowImage) (List.replicate 256 0)
      (DeleteApplication hwWriteFault (fun _ => 0)).flash).resultCrcNvm ≠
    (WriteApplication hwWriteFault (some rowImage) (List.replicate 256 0)
      (DeleteApplication hwWriteFault (fun _ => 0)).flash).resultCrcSd ∧
    (WriteApplication hwWriteFault (some rowImage) (List.replicate 256 0)
      (DeleteApplication hwWriteFault (fun _ => 0)).flash).ok = false ∧
    unlinkCalls (main (bootWith hwWriteFault rowImage)).trace = [app_file_name] ∧
    (main (bootWith hwWriteFault rowImage)).appFile = none := by
  have hm := main_some (bootWith hwWriteFault rowImage) rowImage rfl rfl
  refine ⟨writeFault_crc_mismatch, ?_, hm.1, hm.2.1⟩
  have hiff := write_ok_iff hwWriteFault (fun _ => rfl) rowImage (List.replicate 256 0)
    (DeleteApplication hwWriteFault (fun _ => 0)).flash
  cases hok : (WriteApplication hwWriteFault (some rowImage) (List.replicate 256 0)
      (DeleteApplication hwWriteFault (fun _ => 0)).flash).ok with
  | false => rfl
  | true => exact absurd (hiff.mp hok) writeFault_crc_mismatch

/-- C2 (amended). When `nvm_erase_row` reports an error on the second row,
`DeleteApplication` returns false after its second call, and `main` goes on to
`WriteApplication` and `f_unlink` all the same: `f_unlink` is called once and
`0:Application.bin` is no longer on the card. -/
theorem C2_image_deleted_despite_erase_failure (b : Boot) (img : List Nat)
    (hsd : (StartFilesystemAndTest b.sd).1 = true) (himg : b.appFile = some img)
    (h0 : b.hw.erase_status 0x12000 = true) (h1 : b.hw.erase_status 0x12100 = false)
    (hrows : 2 ≤ RowsToDelete b.hw.parameters) :
    (DeleteApplication b.hw b.flash).ok = false ∧
    eraseAddrs (main b).trace = [0x12000, 0x12100] ∧
    unlinkCalls (main b).trace = [app_file_name] ∧ (main b).appFile = none ∧
    (main b).exit = Exit.jumped := by
  have hm := main_some b img hsd himg
  have hd := delete_second_row_fails b.hw b.flash h0 h1 hrows
  exact ⟨hd.1, by rw [hm.2.2.2.1, hd.2], hm.1, hm.2.1, hm.2.2.1⟩

/-- Witness for C2 (amended): the SAMD21 whose row `0x12100` cannot be erased. -/
theorem C2_image_deleted_despite_erase_failure_witness :
    (DeleteApplication hwEraseFault (fun _ => 0)).ok = false ∧
    eraseAddrs (main (bootWith hwEraseFault rowImage)).trace = [0x12000, 0x12100] ∧
    unlinkCalls (main (bootWith hwEraseFault rowImage)).trace = [app_file_name] ∧
    (main (bootWith hwEraseFault rowImage)).appFile = none ∧
    (main (bootWith hwEraseFault rowImage)).exit = Exit.jumped :=
  C2_image_deleted_despite_erase_failure (bootWith hwEraseFault rowImage) rowImage rfl rfl rfl rfl
    (by decide)

/-- C2 as stated fails: on the SAMD21 whose second application row cannot be
erased, `DeleteApplication` returns false, yet `f_unlink` is called and the
image is gone from the card. -/
theorem C2_counterexample :
    hwEraseFault.erase_status 0x12100 = false ∧
    (DeleteApplication hwEraseFault (fun _ => 0)).ok = false ∧
    unlinkCalls (main (bootWith hwEraseFault rowImage)).trace = [app_file_name] ∧
    (main (bootWith hwEraseFault rowImage)).appFile = none := by
  have hm := main_some (bootWith hwEraseFault rowImage) rowImage rfl rfl
  have hd := delete_second_row_fails hwEraseFault (fun _ => 0) rfl rfl (by decide)
  exact ⟨rfl, hd.1, hm.1, hm.2.1⟩

/-- C3. If `0:Application.bin` cannot be opened at boot, `main` calls neither
`nvm_erase_row` nor `nvm_write_buffer` nor `f_unlink`, flash and card are left
as they were, and (the card test having passed, so that the `f_open` is
reached) `main` ends with the one call of `jumpToApplication`. -/
theorem C3_no_image_no_flash_access (b : Boot) (hfile : b.appFile = none) :
    eraseAddrs (main b).trace = [] ∧ writeCalls (main b).trace = [] ∧
    unlinkCalls (main b).trace = [] ∧ (main b).flash = b.flash ∧ (main b).appFile = none ∧
    ((StartFilesystemAndTest b.sd).1 = true →
      (main b).exit = Exit.jumped ∧ jumpCount (main b).trace = 1 ∧
      (main b).trace.getLast? = some Call.jumpToApplication) := by
  have hs := sft_others b.sd
  have hu : update b = (b.flash, none, [Call.f_open Handle.file_object app_file_name]) := by
    simp [update, hfile]
  by_cases hsd : (StartFilesystemAndTest b.sd).1 = true
  · obtain ⟨ht, he, hfl, hf⟩ := main_trace_ok b hsd
    rw [ht, hfl, hf, hu, getLast_mainExit]
    generalize StartFilesystemAndTest b.sd = S at hs hsd ⊢
    simp [eraseAddrs_append, writeCalls_append, unlinkCalls_append, jumpCount_append, hs, he,
      mainInit, mainExit, eraseAddrs, writeCalls, unlinkCalls, jumpCount]
  · have hsd' : (StartFilesystemAndTest b.sd).1 = false := by simpa using hsd
    have ht : (main b).trace = mainInit ++ (StartFilesystemAndTest b.sd).2 ++
        [Call.SerialConsoleWriteString
            "SD CARD failed! Check your connections. System will restart in 5 seconds...",
          Call.delay_cycles_ms 5000, Call.system_reset] := by
      simp [main, hsd']
    have hfl : (main b).flash = b.flash ∧ (main b).appFile = b.appFile := by
      simp [main, hsd']
    rw [ht, hfl.1, hfl.2, hfile]
    generalize StartFilesystemAndTest b.sd = S at hs hsd hsd' ⊢
    simp [eraseAddrs_append, writeCalls_append, unlinkCalls_append, hs, hsd',
      mainInit, eraseAddrs, writeCalls, unlinkCalls]

/-- Witness for C3: the boot without an image on the card. -/
theorem C3_no_image_no_flash_access_witness :
    eraseAddrs (main bootNoImage).trace = [] ∧ writeCalls (main bootNoImage).trace = [] ∧
    unlinkCalls (main bootNoImage).trace = [] ∧ (main bootNoImage).exit = Exit.jumped ∧
    (main bootNoImage).trace.getLast? = some Call.jumpToApplication :=
  have h := C3_no_image_no_flash_access bootNoImage rfl
  ⟨h.1, h.2.1, h.2.2.1, (h.2.2.2.2.2 rfl).1, (h.2.2.2.2.2 rfl).2.2⟩

/-- C4 (amended). For every flash geometry and every image shorter than
`256 * RowsToDelete` bytes, when every `nvm_erase_row` call succeeds, every
address passed to `nvm_write_buffer` lies in a 256-byte row erased by a
`nvm_erase_row` call of `DeleteApplication`, which runs before
`WriteApplication` and issues no write, while `WriteApplication` issues no
erase. -/
theorem C4_writes_in_erased_rows (hw : Hardware) (img buf : List Nat) (fl : Flash)
    (herase : ∀ a, hw.erase_status a = true)
    (hlen : img.length < 256 * RowsToDelete hw.parameters) :
    (∀ w ∈ writeCalls (WriteApplication hw (some img) buf (DeleteApplication hw fl).flash).trace,
      ∃ r ∈ eraseAddrs (DeleteApplication hw fl).trace, r ≤ w.1 ∧ w.1 < r + 256) ∧
    writeCalls (DeleteApplication hw fl).trace = [] ∧
    eraseAddrs (WriteApplication hw (some img) buf (DeleteApplication hw fl).flash).trace = [] := by
  refine ⟨?_, (delete_others hw fl).1, (write_others hw _ buf _).1⟩
  intro w hw'
  obtain ⟨k, off, _, h2, _, h8, h4, _, _, _⟩ := write_inRow hw img buf _ w hw'
  have hR := RowsToDelete_lt hw.parameters
  have hk : k < RowsToDelete hw.parameters := by omega
  have ha : w.1 = 0x12000 + 256 * k + off := by
    rw [h4]
    unfold u32 APP_START_ADDRESS ROW_SIZE
    omega
  refine ⟨0x12000 + 256 * k, ?_, by omega, by omega⟩
  rw [(delete_all_ok hw herase fl).2.1, List.mem_map]
  exact ⟨k, List.mem_range.mpr hk, rfl⟩

/-- Witness for C4 (amended): the one-row image on the SAMD21; its second page,
written to `0x12040`, lies in an erased row. -/
theorem C4_writes_in_erased_rows_witness :
    (0x12040, slice rowImage 64 64) ∈ writeCalls (WriteApplication hwGood (some rowImage)
      (List.replicate 256 0) (DeleteApplication hwGood (fun _ => 0)).flash).trace ∧
    ∃ r ∈ eraseAddrs (DeleteApplication hwGood (fun _ => 0)).trace,
      r ≤ 0x12040 ∧ 0x12040 < r + 256 :=
  have hmem : (0x12040, slice rowImage 64 64) ∈ writeCalls (WriteApplication hwGood
      (some rowImage) (List.replicate 256 0) (DeleteApplication hwGood (fun _ => 0)).flash).trace := by
    rw [writeCalls_one_row hwGood rowImage _ _ rfl rfl rowImage_length]
    simp
  ⟨hmem, (C4_writes_in_erased_rows hwGood rowImage (List.replicate 256 0) (fun _ => 0)
    (fun _ => rfl)
    (by rw [rowImage_length, show RowsToDelete hwGood.parameters = 224 from RowsToDelete_samd21]
        decide)).1 _ hmem⟩

/-- C4 as stated fails: on the SAMD21 (flash `0 .. 0x3FFFF`), with every erase
succeeding, the image of 737 rows makes `WriteApplication` pass the address
`0x40000` to `nvm_write_buffer`, and no row erased by `DeleteApplication`
contains it. -/
theorem C4_counterexample :
    (∃ d, (0x40000, d) ∈ writeCalls (WriteApplication hwGood (some image737rows)
        (List.replicate 256 0) (DeleteApplication hwGood (fun _ => 0)).flash).trace) ∧
    ∀ r ∈ eraseAddrs (DeleteApplication hwGood (fun _ => 0)).trace,
      ¬ (r ≤ 0x40000 ∧ 0x40000 < r + 256) := by
  constructor
  · have h := write_row hwGood (fun _ => rfl) image737rows (List.replicate 256 0)
      (DeleteApplication hwGood (fun _ => 0)).flash 736
      (by rw [image737rows_length]; decide)
    have ha : pageAddress 736 0 = 0x40000 := by decide
    rw [ha] at h
    exact h
  · intro r hr
    rw [(delete_all_ok hwGood (fun _ => rfl) _).2.1,
      show RowsToDelete hwGood.parameters = 224 from RowsToDelete_samd21, List.mem_map] at hr
    obtain ⟨i, hi, rfl⟩ := hr
    have := List.mem_range.mp hi
    omega

/-- C5 at the SAMD21 geometry (4096 pages of 64 bytes, application region of
736 rows): with every erase succeeding `DeleteApplication` returns true after
erasing the 224 rows `0x12000 .. 0x1FF00` only; row 224 (`0x20000`) and the
rows after it are not erased. -/
theorem C5_samd21_erases_224_of_736_rows (fl : Flash) :
    (samd21.nvm_number_of_pages * samd21.page_size - 0x12000) / 256 = 736 ∧
    (DeleteApplication hwGood fl).ok = true ∧
    eraseAddrs (DeleteApplication hwGood fl).trace =
      (List.range 224).map (fun i => 0x12000 + 256 * i) ∧
    0x12000 + 256 * 224 ∉ eraseAddrs (DeleteApplication hwGood fl).trace := by
  obtain ⟨h1, h2, _⟩ := delete_all_ok hwGood (fun _ => rfl) fl
  have hR : RowsToDelete hwGood.parameters = 224 := RowsToDelete_samd21
  rw [hR] at h2
  refine ⟨by decide, h1, h2, ?_⟩
  rw [h2, List.mem_map]
  rintro ⟨i, hi, he⟩
  have := List.mem_range.mp hi
  omega

/-- C6 (amended). `WriteApplication` has no cap on the rows it writes: for
every geometry whose application region ends on a row boundary and every image
longer than the region (read without error), the end address of the region
itself, `nvm_number_of_pages * page_size`, is passed to `nvm_write_buffer`; and
the value returned is true exactly when the two checksums agree. -/
theorem C6_writes_past_region_end (hw : Hardware) (img buf : List Nat) (fl : Flash)
    (hread : ∀ k, hw.read_status k = true)
    (hbase : 0x12000 ≤ hw.parameters.nvm_number_of_pages * hw.parameters.page_size)
    (hrow : (hw.parameters.nvm_number_of_pages * hw.parameters.page_size - 0x12000) % 256 = 0)
    (h32 : hw.parameters.nvm_number_of_pages * hw.parameters.page_size < 2 ^ 32)
    (hlen : hw.parameters.nvm_number_of_pages * hw.parameters.page_size - 0x12000 < img.length) :
    (∃ d, (hw.parameters.nvm_number_of_pages * hw.parameters.page_size, d) ∈
      writeCalls (WriteApplication hw (some img) buf fl).trace) ∧
    ((WriteApplication hw (some img) buf fl).ok = true ↔
      (WriteApplication hw (some img) buf fl).resultCrcNvm =
        (WriteApplication hw (some img) buf fl).resultCrcSd) := by
  refine ⟨?_, write_ok_iff hw hread img buf fl⟩
  have h := write_row hw hread img buf fl
    ((hw.parameters.nvm_number_of_pages * hw.parameters.page_size - 0x12000) / 256) (by omega)
  have ha : pageAddress
      ((hw.parameters.nvm_number_of_pages * hw.parameters.page_size - 0x12000) / 256) 0 =
      hw.parameters.nvm_number_of_pages * hw.parameters.page_size := by
    unfold pageAddress u32 APP_START_ADDRESS ROW_SIZE
    omega
  rw [ha] at h
  exact h

/-- Witness for C6 (amended): the image of 737 rows on the SAMD21, whose flash
ends at `0x40000`. -/
theorem C6_writes_past_region_end_witness :
    ∃ d, (hwGood.parameters.nvm_number_of_pages * hwGood.parameters.page_size, d) ∈
      writeCalls (WriteApplication hwGood (some image737rows) (List.replicate 256 0)
        (fun _ => 0)).trace :=
  (C6_writes_past_region_end hwGood image737rows (List.replicate 256 0) (fun _ => 0)
    (fun _ => rfl) (by decide) (by decide) (by decide)
    (by rw [image737rows_length]; decide)).1

/-- C6 as stated fails: the SAMD21's application region is `0x12000 .. 0x3FFFF`
(188416 bytes); for the image of 188672 bytes `WriteApplication` passes the
address `0x40000`, the end of the region, to `nvm_write_buffer`. -/
theorem C6_counterexample :
    samd21.nvm_number_of_pages * samd21.page_size = 0x40000 ∧
    samd21.nvm_number_of_pages * samd21.page_size - 0x12000 < image737rows.length ∧
    ∃ d, (0x40000, d) ∈
      writeCalls (WriteApplication hwGood (some image737rows) (List.replicate 256 0)
        (DeleteApplication hwGood (fun _ => 0)).flash).trace := by
  refine ⟨by decide, by rw [image737rows_length]; decide, ?_⟩
  have h := write_row hwGood (fun _ => rfl) image737rows (List.replicate 256 0)
    (DeleteApplication hwGood (fun _ => 0)).flash 736
    (by rw [image737rows_length]; decide)
  have ha : pageAddress 736 0 = 0x40000 := by decide
  rw [ha] at h
  exact h

/-- C7. For every flash geometry, every address passed to `nvm_erase_row` by
`DeleteApplication` is at least `0x12000` and a multiple of 256. For every
image shorter than `2^31` bytes, the range in which the address arithmetic of
`WriteApplication` is defined, every address passed to `nvm_write_buffer` is at
least `0x12000` and a multiple of 64, and the bytes written end at or below
`0x12000` plus the length of the image: the range `[0, 0x12000)` of the
bootloader is neither erased nor written. -/
theorem C7_addresses_outside_bootloader (hw : Hardware) (img buf : List Nat) (fl : Flash)
    (hlen : img.length < 2 ^ 31) :
    (∀ a ∈ eraseAddrs (DeleteApplication hw fl).trace, 0x12000 ≤ a ∧ a % 256 = 0) ∧
    (∀ w ∈ writeCalls (WriteApplication hw (some img) buf (DeleteApplication hw fl).flash).trace,
      0x12000 ≤ w.1 ∧ w.1 % 64 = 0 ∧ w.1 + w.2.length ≤ 0x12000 + img.length) := by
  refine ⟨?_, ?_⟩
  · intro a ha
    obtain ⟨j, _, rfl⟩ := delete_erase_inv hw fl a ha
    omega
  · intro w hw'
    obtain ⟨k, off, _, h2, h3, h8, h4, h5, h6, h7⟩ := write_inRow hw img buf _ w hw'
    have ha : w.1 = 0x12000 + k * 256 + off := by
      rw [h4]
      unfold u32 APP_START_ADDRESS ROW_SIZE
      omega
    rw [ha]
    refine ⟨by omega, by omega, ?_⟩
    by_cases hk : k = 0 + img.length / 256
    · have := h7 hk
      omega
    · omega

/-- Witness for C7: the one-row image on the SAMD21; the second page goes to
`0x12040`. -/
theorem C7_addresses_outside_bootloader_witness :
    (0x12040, slice rowImage 64 64) ∈ writeCalls (WriteApplication hwGood (some rowImage)
      (List.replicate 256 0) (DeleteApplication hwGood (fun _ => 0)).flash).trace ∧
    0x12000 ≤ 0x12040 ∧ 0x12040 % 64 = 0 :=
  have hmem : (0x12040, slice rowImage 64 64) ∈ writeCalls (WriteApplication hwGood
      (some rowImage) (List.replicate 256 0) (DeleteApplication hwGood (fun _ => 0)).flash).trace := by
    rw [writeCalls_one_row hwGood rowImage _ _ rfl rfl rowImage_length]
    simp
  have h := (C7_addresses_outside_bootloader hwGood rowImage (List.replicate 256 0) (fun _ => 0)
    (by rw [rowImage_length]; decide)).2 _ hmem
  ⟨hmem, h.1, h.2.1⟩

/-- C8 at an image of 300 bytes. `WriteApplication` makes three
`dsu_crc32_cal` calls: over the first 256 bytes in `readBuffer`, over the 256
bytes of flash at `0x12000`, and over 256 bytes of flash starting at `0x12101`.
The source checksum `resultCrcSd` that enters the comparison is the checksum of
the first 256 bytes of the image; the 44 bytes of the final row are not part
of it. -/
theorem C8_checksum_calls_of_300_bytes (hw : Hardware) (img buf : List Nat) (fl : Flash)
    (hread : ∀ k, hw.read_status k = true) (hlen : img.length = 300) :
    crcCalls (WriteApplication hw (some img) buf fl).trace =
      [Call.dsu_crc32_cal_ram (img.take 256), Call.dsu_crc32_cal_nvm 0x12000 256,
        Call.dsu_crc32_cal_nvm 0x12101 256] ∧
    (WriteApplication hw (some img) buf fl).resultCrcSd = hw.crc32 0 (img.take 256) := by
  have hl : ROW_SIZE ≤ img.length := by simp [hlen, ROW_SIZE]
  have hl2 : (List.drop ROW_SIZE img).length < ROW_SIZE := by simp [hlen, ROW_SIZE]
  have hs : slice (List.take ROW_SIZE img ++ List.drop ROW_SIZE buf) 0 ROW_SIZE =
      List.take 256 img := by
    rw [slice_append_left _ _ 0 ROW_SIZE (by simp [hlen, ROW_SIZE])]
    simp [slice, ROW_SIZE]
  simp only [WriteApplication]
  rw [loop_full' hw img buf 0 0 0 fl (hread 0) hl, loop_last hw _ _ _ _ _ _ (hread 1) hl2]
  constructor
  · simp only [crcCalls, crcCalls_append, fullRowCalls, hs, (crc_lastRow _ _ _ _ _ _ _).1]
    simp [pageAddress, u32, APP_START_ADDRESS, ROW_SIZE]
  · simp only [(crc_lastRow _ _ _ _ _ _ _).2, hs, dsu_crc32_cal_ram]

/-- Witness for C8: the image of 300 bytes on the SAMD21. -/
theorem C8_checksum_calls_of_300_bytes_witness :
    crcCalls (WriteApplication hwGood (some image300) (List.replicate 256 0) (fun _ => 0)).trace =
      [Call.dsu_crc32_cal_ram (image300.take 256), Call.dsu_crc32_cal_nvm 0x12000 256,
        Call.dsu_crc32_cal_nvm 0x12101 256] ∧
    (WriteApplication hwGood (some image300) (List.replicate 256 0) (fun _ => 0)).resultCrcSd =
      hwGood.crc32 0 (image300.take 256) :=
  C8_checksum_calls_of_300_bytes hwGood image300 (List.replicate 256 0) (fun _ => 0)
    (fun _ => rfl) image300_length

/-- C9 on the SAMD21 with flash holding zeroes, every erase, read and write
succeeding, and an image of 57345 bytes, whose final row, row 224 at `0x20000`,
is one byte long: after `DeleteApplication` and `WriteApplication` the byte at
offset 1 of the final row is 0, not `0xFF`. Row 224 is not among the 224 rows
that `DeleteApplication` erases. -/
theorem C9_samd21_final_row_not_erased :
    image57345.length % 256 = 1 ∧ 0x12000 + 256 * (image57345.length / 256) = 0x20000 ∧
    (WriteApplication hwGood (some image57345) (List.replicate 256 0)
      (DeleteApplication hwGood (fun _ => 0)).flash).flash (0x20000 + 1) = 0 := by
  refine ⟨by rw [image57345_length], by rw [image57345_length], ?_⟩
  have hq : image57345.length / 256 = 224 := by rw [image57345_length]
  have hn : image57345.length % 256 = 1 := by rw [image57345_length]
  have hcov := last_row_not_covered hwGood image57345 (List.replicate 256 0)
    (DeleteApplication hwGood (fun _ => 0)).flash 1 (by rw [hq]; decide) (by rw [hn])
  rw [hq] at hcov
  rw [(write_trace hwGood image57345 _ _).2.1, loop_frame hwGood _ image57345 _ 0 0 0 _ (by
    rw [← (write_trace hwGood image57345 _ _).1]
    exact hcov)]
  rw [(delete_trace hwGood _).2.1,
    show RowsToDelete hwGood.parameters = 224 from RowsToDelete_samd21]
  exact delete_loop_frame hwGood _ 224 0 _ (by decide) (Or.inr (by decide))

/-- C10 (amended). For an image exactly one row long, with every erase and
every read succeeding, the flash operations of one update attempt
(`DeleteApplication` followed by `WriteApplication`) are: one `nvm_erase_row`
call for each of the `RowsToDelete` rows from `0x12000` on, then four
`nvm_write_buffer` calls of 64 bytes each at `0x12000`, `0x12040`, `0x12080`
and `0x120C0` carrying the image, then a fifth `nvm_write_buffer` call, of zero
bytes, at `0x12100`. -/
theorem C10_one_row_flash_operations (hw : Hardware) (img buf : List Nat) (fl : Flash)
    (herase : ∀ a, hw.erase_status a = true) (hread : ∀ k, hw.read_status k = true)
    (hlen : img.length = 256) :
    flashOps ((DeleteApplication hw fl).trace ++
        (WriteApplication hw (some img) buf (DeleteApplication hw fl).flash).trace) =
      (List.range (RowsToDelete hw.parameters)).map
          (fun i => Call.nvm_erase_row (0x12000 + 256 * i)) ++
        [Call.nvm_write_buffer 0x12000 (img.take 64),
          Call.nvm_write_buffer 0x12040 ((img.drop 64).take 64),
          Call.nvm_write_buffer 0x12080 ((img.drop 128).take 64),
          Call.nvm_write_buffer 0x120C0 ((img.drop 192).take 64),
          Call.nvm_write_buffer 0x12100 []] ∧
    (img.take 64).length = 64 ∧ ((img.drop 64).take 64).length = 64 ∧
    ((img.drop 128).take 64).length = 64 ∧ ((img.drop 192).take 64).length = 64 := by
  refine ⟨?_, by simp [hlen], by simp [hlen], by simp [hlen], by simp [hlen]⟩
  rw [flashOps_append, (delete_all_ok hw herase fl).2.2,
    flashOps_writes _ (write_others hw _ buf _).1,
    writeCalls_one_row hw img buf _ (hread 0) (hread 1) hlen]
  simp [slice]

/-- Witness for C10 (amended): the image `0x00..0xFF` on the SAMD21. -/
theorem C10_one_row_flash_operations_witness :
    flashOps ((DeleteApplication hwGood (fun _ => 0)).trace ++
        (WriteApplication hwGood (some rowImage) (List.replicate 256 0)
          (DeleteApplication hwGood (fun _ => 0)).flash).trace) =
      (List.range (RowsToDelete hwGood.parameters)).map
          (fun i => Call.nvm_erase_row (0x12000 + 256 * i)) ++
        [Call.nvm_write_buffer 0x12000 (rowImage.take 64),
          Call.nvm_write_buffer 0x12040 ((rowImage.drop 64).take 64),
          Call.nvm_write_buffer 0x12080 ((rowImage.drop 128).take 64),
          Call.nvm_write_buffer 0x120C0 ((rowImage.drop 192).take 64),
          Call.nvm_write_buffer 0x12100 []] :=
  (C10_one_row_flash_operations hwGood rowImage (List.replicate 256 0) (fun _ => 0)
    (fun _ => rfl) (fun _ => rfl) rowImage_length).1

/-- C10 as stated fails: for the image `0x00..0xFF` on the SAMD21 the update
attempt issues 224 `nvm_erase_row` calls, not one, and five `nvm_write_buffer`
calls, not four: the fifth has no bytes and goes to `0x12100`. -/
theorem C10_counterexample :
    (eraseAddrs (DeleteApplication hwGood (fun _ => 0)).trace).length = 224 ∧
    (writeCalls (WriteApplication hwGood (some rowImage) (List.replicate 256 0)
      (DeleteApplication hwGood (fun _ => 0)).flash).trace).length = 5 ∧
    (writeCalls (WriteApplication hwGood (some rowImage) (List.replicate 256 0)
      (DeleteApplication hwGood (fun _ => 0)).flash).trace).getLast? = some (0x12100, []) := by
  rw [(delete_all_ok hwGood (fun _ => rfl) _).2.1,
    writeCalls_one_row hwGood rowImage _ _ rfl rfl rowImage_length,
    show RowsToDelete hwGood.parameters = 224 from RowsToDelete_samd21]
  simp

/-- C11. With a DSU driver that carries out the computation for word-aligned
start addresses and declines the others, leaving the accumulator as it was:
for every image that is read without error and whose pages `nvm_write_buffer`
stores as written, `resultCrcNvm` equals `resultCrcSd` at the comparison and
`WriteApplication` returns true. For an image of one row, flash then holds the
image from `0x12000` on and `resultCrcSd` is the checksum of the image. -/
theorem C11_checksums_match (hw : Hardware) (img buf : List Nat) (fl : Flash)
    (hread : ∀ k, hw.read_status k = true) (hwrite : ∀ a, hw.write_status a = true)
    (hacc : ∀ a, hw.dsu_accepts a = (a % 4 == 0)) :
    (WriteApplication hw (some img) buf fl).resultCrcNvm =
      (WriteApplication hw (some img) buf fl).resultCrcSd ∧
    (WriteApplication hw (some img) buf fl).ok = true ∧
    (img.length = 256 →
      readBack (WriteApplication hw (some img) buf fl).flash 0x12000 256 = img ∧
      (WriteApplication hw (some img) buf fl).resultCrcSd = hw.crc32 0 img) := by
  obtain ⟨h1, h2⟩ := write_ok_aligned hw hread hwrite hacc img buf fl
  exact ⟨h1, h2, fun hlen => one_row_source hw (hread 0) (hread 1) hwrite img buf fl hlen⟩

/-- Witness for C11: the image `0x00..0xFF` over erased flash, on the SAMD21
with CRC-32. Flash holds the image, both checksums are 613615915, and
`WriteApplication` returns true. -/
theorem C11_checksums_match_witness :
    readBack (WriteApplication hwGood (some rowImage) (List.replicate 256 0)
      flashErased).flash 0x12000 256 = rowImage ∧
    (WriteApplication hwGood (some rowImage) (List.replicate 256 0)
      flashErased).resultCrcSd = 613615915 ∧
    (WriteApplication hwGood (some rowImage) (List.replicate 256 0)
      flashErased).resultCrcNvm = 613615915 ∧
    (WriteApplication hwGood (some rowImage) (List.replicate 256 0)
      flashErased).ok = true := by
  have h := C11_checksums_match hwGood rowImage (List.replicate 256 0) flashErased
    (fun _ => rfl) (fun _ => rfl) (fun _ => rfl)
  obtain ⟨h1, h2, h3⟩ := h
  obtain ⟨r, e⟩ := h3 rowImage_length
  rw [hwGood_crc32, crc_rowImage] at e
  exact ⟨r, e, h1.trans e, h2⟩

/-- C12. The checksum of `dsu_crc32_cal`, a 32-bit CRC register that is loaded
with the accumulator passed in and stepped once per byte, is chunking-invariant:
for every byte stream and every split of it into consecutive chunks, the calls
chained through one accumulator that starts at 0 give the 32-bit value of one
call over the whole stream. The same holds row by row over flash, and
`resultCrcSd` of `WriteApplication` is the value of one call over the full
rows of the image. -/
theorem C12_chunking_invariance (chunks : List (List Nat))
    (hbytes : ∀ b ∈ chunks.flatten, b < 256) :
    chunks.foldl (fun acc chunk => dsu_crc32_cal_ram hwGood chunk acc) 0 =
      dsu_crc32_cal_ram hwGood chunks.flatten 0 ∧
    dsu_crc32_cal_ram hwGood chunks.flatten 0 < 2 ^ 32 ∧
    (∀ (fl : Flash) (k : Nat),
      (List.range k).foldl
          (fun acc i => dsu_crc32_cal_nvm hwGood fl (0x12000 + 256 * i) 256 acc) 0 =
        dsu_crc32_cal_nvm hwGood fl 0x12000 (256 * k) 0) ∧
    (∀ (buf : List Nat) (fl : Flash),
      (WriteApplication hwGood (some chunks.flatten) buf fl).resultCrcSd =
        dsu_crc32_cal_ram hwGood
          (chunks.flatten.take (256 * (chunks.flatten.length / 256))) 0) := by
  refine ⟨?_, ?_, dsu_nvm_rows, ?_⟩
  · exact crc32_update_join chunks 0
  · exact crc32_update_lt chunks.flatten 0 (by decide) hbytes
  · intro buf fl
    rw [(write_trace hwGood _ buf fl).2.2.1]
    exact loop_crcSd hwGood (fun _ => rfl) rfl _ buf 0 0 0 fl

/-- Witness for C12: six bytes in four chunks, one of them empty. -/
theorem C12_chunking_invariance_witness :
    [[1, 2], [3], [], [4, 5, 6]].foldl (fun acc chunk => dsu_crc32_cal_ram hwGood chunk acc) 0 =
      dsu_crc32_cal_ram hwGood [1, 2, 3, 4, 5, 6] 0 ∧
    dsu_crc32_cal_ram hwGood [1, 2, 3, 4, 5, 6] 0 < 2 ^ 32 :=
  have h := C12_chunking_invariance [[1, 2], [3], [], [4, 5, 6]] (by decide)
  ⟨h.1, h.2.1⟩

/-- C13 (amended). If `StartFilesystemAndTest` returns false, `main` does not
get to `jumpToApplication`: it reports the failure, waits five seconds and calls
`system_reset`, which restarts the controller; no flash row is erased or
written and no file is deleted. -/
theorem C13_storage_failure_resets (b : Boot) (hsd : (StartFilesystemAndTest b.sd).1 = false) :
    (main b).exit = Exit.reset ∧ jumpCount (main b).trace = 0 ∧
    (main b).trace.getLast? = some Call.system_reset ∧
    eraseAddrs (main b).trace = [] ∧ writeCalls (main b).trace = [] ∧
    unlinkCalls (main b).trace = [] ∧ (main b).flash = b.flash :=
  have h := main_reset b hsd
  ⟨h.1, h.2.1, h.2.2.1, h.2.2.2.1, h.2.2.2.2.1, h.2.2.2.2.2.1, h.2.2.2.2.2.2.1⟩

/-- Witness for C13 (amended): a boot without a card. -/
theorem C13_storage_failure_resets_witness :
    (main bootNoCard).exit = Exit.reset ∧
    jumpCount (main bootNoCard).trace = 0 ∧
    (main bootNoCard).trace.getLast? = some Call.system_reset ∧
    eraseAddrs (main bootNoCard).trace = [] ∧
    writeCalls (main bootNoCard).trace = [] ∧
    unlinkCalls (main bootNoCard).trace = [] ∧
    (main bootNoCard).flash = bootNoCard.flash :=
  C13_storage_failure_resets bootNoCard rfl

/-- C13 as stated fails: without a card `StartFilesystemAndTest` returns false
and `main` ends in `system_reset`; `jumpToApplication` is not called. -/
theorem C13_counterexample :
    (StartFilesystemAndTest sdAbsent).1 = false ∧
    (main bootNoCard).exit = Exit.reset ∧
    jumpCount (main bootNoCard).trace = 0 := by
  have h := main_reset bootNoCard rfl
  exact ⟨rfl, h.1, h.2.1⟩

/-- C14 (amended). The geometry that `nvm_get_parameters` reports is not
checked: whatever it is, `DeleteApplication` issues one `nvm_erase_row` call
for each of the `RowsToDelete` rows it counts (every erase succeeding), and the
update attempt goes on with `WriteApplication`, which passes `0x12000` to
`nvm_write_buffer` once the file is read without error. -/
theorem C14_geometry_not_checked (hw : Hardware) (img buf : List Nat) (fl : Flash)
    (herase : ∀ a, hw.erase_status a = true) (hread : ∀ k, hw.read_status k = true) :
    eraseAddrs (DeleteApplication hw fl).trace =
      (List.range (RowsToDelete hw.parameters)).map (fun i => 0x12000 + 256 * i) ∧
    ∃ d, (0x12000, d) ∈
      writeCalls (WriteApplication hw (some img) buf (DeleteApplication hw fl).flash).trace := by
  refine ⟨(delete_all_ok hw herase fl).2.1, ?_⟩
  have h := write_row hw hread img buf (DeleteApplication hw fl).flash 0 (Nat.zero_le _)
  rw [pageAddress_zero] at h
  exact h

/-- Witness for C14 (amended): the controller that reports a zero geometry. -/
theorem C14_geometry_not_checked_witness :
    eraseAddrs (DeleteApplication hwZeroGeometry (fun _ => 0)).trace =
      (List.range (RowsToDelete hwZeroGeometry.parameters)).map (fun i => 0x12000 + 256 * i) ∧
    ∃ d, (0x12000, d) ∈
      writeCalls (WriteApplication hwZeroGeometry (some rowImage) (List.replicate 256 0)
        (DeleteApplication hwZeroGeometry (fun _ => 0)).flash).trace :=
  C14_geometry_not_checked hwZeroGeometry rowImage (List.replicate 256 0) (fun _ => 0)
    (fun _ => rfl) (fun _ => rfl)

/-- C14 as stated fails: with the geometry 0 pages of 0 bytes
`DeleteApplication` calls `nvm_erase_row` 224 times, starting at `0x12000`, and
`WriteApplication` then writes the one-row image to `0x12000`. -/
theorem C14_counterexample :
    hwZeroGeometry.parameters.nvm_number_of_pages = 0 ∧
    hwZeroGeometry.parameters.page_size = 0 ∧
    eraseAddrs (DeleteApplication hwZeroGeometry (fun _ => 0)).trace =
      (List.range 224).map (fun i => 0x12000 + 256 * i) ∧
    (0x12000, slice rowImage 0 64) ∈
      writeCalls (WriteApplication hwZeroGeometry (some rowImage) (List.replicate 256 0)
        (DeleteApplication hwZeroGeometry (fun _ => 0)).flash).trace := by
  refine ⟨rfl, rfl, ?_, ?_⟩
  · rw [(delete_all_ok hwZeroGeometry (fun _ => rfl) _).2.1,
      RowsToDelete_zero hwZeroGeometry.parameters (Or.inl rfl)]
  · rw [writeCalls_one_row hwZeroGeometry rowImage _ _ rfl rfl rowImage_length]
    simp

/-- C15 (amended). When `DeleteApplication` returns false because an
`nvm_erase_row` call reported an error, `main` runs `WriteApplication` all the
same: with the file read without error, `nvm_write_buffer` is called, first at
`0x12000`, after the erase calls. -/
theorem C15_writes_despite_erase_failure (b : Boot) (img : List Nat)
    (hsd : (StartFilesystemAndTest b.sd).1 = true) (himg : b.appFile = some img)
    (hfail : (DeleteApplication b.hw b.flash).ok = false)
    (hread : ∀ k, b.hw.read_status k = true) :
    (∃ a ∈ eraseAddrs (main b).trace, b.hw.erase_status a = false) ∧
    (∃ d, (0x12000, d) ∈ writeCalls (main b).trace) ∧
    flashOps (main b).trace =
      (eraseAddrs (DeleteApplication b.hw b.flash).trace).map (fun a => Call.nvm_erase_row a) ++
      (writeCalls (WriteApplication b.hw (some img) b.readBuffer
        (DeleteApplication b.hw b.flash).flash).trace).map
          (fun w => Call.nvm_write_buffer w.1 w.2) := by
  refine ⟨?_, ?_, ?_⟩
  · rw [(main_some b img hsd himg).2.2.2.1]
    exact delete_fail b.hw b.flash hfail
  · rw [(main_some b img hsd himg).2.2.2.2]
    have h := write_row b.hw hread img b.readBuffer (DeleteApplication b.hw b.flash).flash 0
      (Nat.zero_le _)
    rw [pageAddress_zero] at h
    exact h
  · rw [main_flashOps b img hsd himg, flashOps_writes _ (write_others b.hw _ b.readBuffer _).1,
      flashOps_erases _ (delete_others b.hw b.flash).1]

/-- Witness for C15 (amended): the SAMD21 whose row `0x12100` cannot be erased. -/
theorem C15_writes_despite_erase_failure_witness :
    ∃ d, (0x12000, d) ∈ writeCalls (main (bootWith hwEraseFault rowImage)).trace :=
  (C15_writes_despite_erase_failure (bootWith hwEraseFault rowImage) rowImage rfl rfl
    (delete_second_row_fails hwEraseFault (fun _ => 0) rfl rfl (by decide)).1
    (fun _ => rfl)).2.1

/-- C15 as stated fails: on the SAMD21 whose second application row cannot be
erased, `DeleteApplication` returns false, and the five `nvm_write_buffer` calls
for the one-row image are made nevertheless. -/
theorem C15_counterexample :
    (DeleteApplication hwEraseFault (fun _ => 0)).ok = false ∧
    writeCalls (main (bootWith hwEraseFault rowImage)).trace =
      [(0x12000, slice rowImage 0 64), (0x12040, slice rowImage 64 64),
        (0x12080, slice rowImage 128 64), (0x120C0, slice rowImage 192 64), (0x12100, [])] := by
  refine ⟨(delete_second_row_fails hwEraseFault (fun _ => 0) rfl rfl (by decide)).1, ?_⟩
  rw [(main_some (bootWith hwEraseFault rowImage) rowImage rfl rfl).2.2.2.2]
  exact writeCalls_one_row hwEraseFault rowImage _ _ rfl rfl rowImage_length

/-- C16 (amended). `WriteApplication` does not look at the status that
`nvm_write_buffer` returns. With the file read without error, it passes the
same pages to `nvm_write_buffer` whether the writes succeed or fail, and it
returns true exactly when the two checksums agree: a page-write failure makes
it return false only through the checksum comparison. -/
theorem C16_write_status_ignored (hw : Hardware) (img buf : List Nat) (fl : Flash)
    (hread : ∀ k, hw.read_status k = true) :
    writeCalls (WriteApplication hw (some img) buf fl).trace =
      writeCalls (WriteApplication { hw with write_status := fun _ => true } (some img) buf
        fl).trace ∧
    ((WriteApplication hw (some img) buf fl).ok = true ↔
      (WriteApplication hw (some img) buf fl).resultCrcNvm =
        (WriteApplication hw (some img) buf fl).resultCrcSd) :=
  ⟨writeCalls_indep hw { hw with write_status := fun _ => true } rfl img buf fl fl,
    write_ok_iff hw hread img buf fl⟩

/-- Witness for C16 (amended): the one-row image on the SAMD21 whose page
writes fail. -/
theorem C16_write_status_ignored_witness :
    writeCalls (WriteApplication hwWriteFault (some rowImage) (List.replicate 256 0)
        (fun _ => 0)).trace =
      writeCalls (WriteApplication { hwWriteFault with write_status := fun _ => true }
        (some rowImage) (List.replicate 256 0) (fun _ => 0)).trace :=
  (C16_write_status_ignored hwWriteFault rowImage (List.replicate 256 0) (fun _ => 0)
    (fun _ => rfl)).1

/-- C16 as stated fails: on a device whose `nvm_write_buffer` calls all report
an error, with flash holding zeroes, the one write for the image of one byte
fails and `WriteApplication` returns true. -/
theorem C16_counterexample :
    hwWriteFaultAnyAddress.write_status 0x12000 = false ∧
    (0x12000, [0xAB]) ∈ writeCalls (WriteApplication hwWriteFaultAnyAddress (some [0xAB])
      (List.replicate 256 0) (fun _ => 0)).trace ∧
    (WriteApplication hwWriteFaultAnyAddress (some [0xAB]) (List.replicate 256 0)
      (fun _ => 0)).ok = true := by
  refine ⟨rfl, ?_, writeFault_returns_true⟩
  rw [writeCalls_short hwWriteFaultAnyAddress [0xAB] _ _ rfl (by decide)]
  exact List.mem_singleton_self _

/-- C17. In `main` of `BootMain_Mars.c`, once the card test has passed, the
files opened are the two test files, `0:FlagA.txt` and then one image:
`0:TestA.bin` if and only if `0:FlagA.txt` could be opened, `0:TestB.bin`
otherwise. `0:FlagB.txt` is never opened, so the choice does not depend on it;
with both markers present the image of slot A is the one read. -/
theorem C17_slot_selection (m : Mars.Boot) (hsd : (StartFilesystemAndTest m.sd).1 = true) :
    openCalls (Mars.main m).2.2 =
      [test_file_name, test_bin_file, testA_file_name,
        if m.flagA then testA_bin_file else testB_bin_file] ∧
    (testA_bin_file ∈ openCalls (Mars.main m).2.2 ↔ m.flagA = true) ∧
    (testB_bin_file ∈ openCalls (Mars.main m).2.2 ↔ m.flagA = false) ∧
    testB_file_name ∉ openCalls (Mars.main m).2.2 ∧
    (Mars.selectImage m).1 = (if m.flagA then m.testA else m.testB) := by
  have h := (mars_main_calls m hsd).2.2.2.1
  refine ⟨h, ?_, ?_, ?_, (mars_selectImage_calls m).2.2.2.2.2⟩
  · rw [h]; cases m.flagA <;> decide
  · rw [h]; cases m.flagA <;> decide
  · rw [h]; cases m.flagA <;> decide

/-- Witness for C17: a card with both markers and both images; slot A is
read. -/
theorem C17_slot_selection_witness :
    marsBothMarkers.flagA = true ∧ marsBothMarkers.flagB = true ∧
    (StartFilesystemAndTest marsBothMarkers.sd).1 = true ∧
    testA_bin_file ∈ openCalls (Mars.main marsBothMarkers).2.2 ∧
    testB_bin_file ∉ openCalls (Mars.main marsBothMarkers).2.2 ∧
    (Mars.selectImage marsBothMarkers).1 = some rowImage :=
  have h := C17_slot_selection marsBothMarkers rfl
  ⟨rfl, rfl, rfl, h.2.1.mpr rfl, fun hb => absurd (h.2.2.1.mp hb) (by decide), h.2.2.2.2⟩

/-- C18 (amended). In `main` of `BootMain_Mars.c` the flash operations do not
depend on the markers: once the card test has passed, whatever files are on the
card, the row at `0x12000` is erased and four `nvm_write_buffer` calls follow,
at `0x12000`, `0x12040`, `0x12080` and `0x120C0`, before the one
`jumpToApplication` that ends `main`. -/
theorem C18_flash_touched_whatever_markers (m : Mars.Boot)
    (hsd : (StartFilesystemAndTest m.sd).1 = true) :
    (Mars.main m).1 = Exit.jumped ∧
    eraseAddrs (Mars.main m).2.2 = [0x12000] ∧
    (writeCalls (Mars.main m).2.2).map (fun w => w.1) = [0x12000, 0x12040, 0x12080, 0x120C0] ∧
    ∃ pre, (Mars.main m).2.2 = pre ++ [Call.jumpToApplication] ∧ jumpCount pre = 0 ∧
      flashOps pre = Call.nvm_erase_row 0x12000 ::
        (writeCalls (Mars.main m).2.2).map (fun w => Call.nvm_write_buffer w.1 w.2) :=
  have h := mars_main_calls m hsd
  ⟨h.1, h.2.1, h.2.2.1, h.2.2.2.2⟩

/-- Witness for C18 (amended): a card with both markers and both images. -/
theorem C18_flash_touched_whatever_markers_witness :
    (StartFilesystemAndTest marsBothMarkers.sd).1 = true ∧
    (Mars.main marsBothMarkers).1 = Exit.jumped ∧
    eraseAddrs (Mars.main marsBothMarkers).2.2 = [0x12000] ∧
    (writeCalls (Mars.main marsBothMarkers).2.2).map (fun w => w.1) =
      [0x12000, 0x12040, 0x12080, 0x120C0] :=
  have h := C18_flash_touched_whatever_markers marsBothMarkers rfl
  ⟨rfl, h.1, h.2.1, h.2.2.1⟩

/-- C18 as stated fails: on a card with neither `0:FlagA.txt` nor
`0:FlagB.txt` (and no image), `main` still erases the row at `0x12000` and
issues the four `nvm_write_buffer` calls, with what `readBuffer` holds, before it
jumps. -/
theorem C18_counterexample :
    marsNoMarkers.flagA = false ∧ marsNoMarkers.flagB = false ∧
    (Mars.main marsNoMarkers).1 = Exit.jumped ∧
    eraseAddrs (Mars.main marsNoMarkers).2.2 = [0x12000] ∧
    (writeCalls (Mars.main marsNoMarkers).2.2).map (fun w => w.1) =
      [0x12000, 0x12040, 0x12080, 0x120C0] := by
  have h := mars_main_calls marsNoMarkers rfl
  exact ⟨rfl, rfl, h.1, h.2.1, h.2.2.1⟩

/-- C19. For every flash content, and every mask `SCB_VTOR_TBLOFF_Msk` that
keeps the bits of `0x12000`, `jumpToApplication` does three things in this
order: it sets the main stack pointer to the 32-bit word stored at `0x12000`,
sets `SCB->VTOR` to `0x12000`, and calls the function whose address is the
32-bit word stored at `0x12004`. -/
theorem C19_jumpToApplication (mask : Nat) (fl : Flash)
    (hmask : APP_START_ADDRESS &&& mask = APP_START_ADDRESS) :
    jumpToApplication mask fl =
      [CpuOp.set_MSP (readWord fl 0x12000), CpuOp.set_VTOR 0x12000,
        CpuOp.call (readWord fl 0x12004)] ∧
    readWord fl 0x12000 =
      fl 0x12000 % 256 + 256 * (fl 0x12001 % 256) + 65536 * (fl 0x12002 % 256)
        + 16777216 * (fl 0x12003 % 256) ∧
    readWord fl 0x12004 =
      fl 0x12004 % 256 + 256 * (fl 0x12005 % 256) + 65536 * (fl 0x12006 % 256)
        + 16777216 * (fl 0x12007 % 256) := by
  refine ⟨?_, rfl, rfl⟩
  unfold jumpToApplication
  rw [hmask]
  rfl

/-- Witness for C19: the TBLOFF mask `0xFFFFFF80` of the Cortex-M0+ and a flash
whose application starts with the words `0x20008000` and `0x000121A5`. -/
theorem C19_jumpToApplication_witness :
    jumpToApplication 0xFFFFFF80 flashWithVectors =
      [CpuOp.set_MSP 0x20008000, CpuOp.set_VTOR 0x12000, CpuOp.call 0x000121A5] :=
  (C19_jumpToApplication 0xFFFFFF80 flashWithVectors (by decide)).1

/-- C20. On every run of `main` that calls `jumpToApplication`, the trace ends
with `DeinitializeSerialConsole`, `sd_mmc_deinit`, `jumpToApplication`, one
directly after the other, and there is no other jump before them: both
peripherals are shut down before the jump and nothing happens in between. -/
theorem C20_shutdown_before_jump (b : Boot) (hjump : jumpCount (main b).trace ≠ 0) :
    ∃ pre, (main b).trace = pre ++ [Call.DeinitializeSerialConsole, Call.sd_mmc_deinit,
      Call.jumpToApplication] ∧ jumpCount pre = 0 := by
  cases hsd : (StartFilesystemAndTest b.sd).1 with
  | true => exact main_ends_with_shutdown b hsd
  | false => exact absurd (main_reset b hsd).2.1 hjump

/-- Witness for C20: the boot without an image on the card. -/
theorem C20_shutdown_before_jump_witness :
    ∃ pre, (main bootNoImage).trace = pre ++ [Call.DeinitializeSerialConsole,
      Call.sd_mmc_deinit, Call.jumpToApplication] ∧ jumpCount pre = 0 :=
  C20_shutdown_before_jump bootNoImage (by decide)

/-- C21 (amended). The hand-off of `main` is not guarded by the outcome of the
update: when the card test has passed and `0:Application.bin` is on the card,
whatever `DeleteApplication` and `WriteApplication` return, `main` ends with
its one `jumpToApplication` call, after the `nvm_erase_row` calls that
`DeleteApplication` made. -/
theorem C21_jump_not_guarded (b : Boot) (img : List Nat)
    (hsd : (StartFilesystemAndTest b.sd).1 = true) (himg : b.appFile = some img) :
    (main b).exit = Exit.jumped ∧
    ∃ pre, (main b).trace = pre ++ [Call.jumpToApplication] ∧
      eraseAddrs pre = eraseAddrs (DeleteApplication b.hw b.flash).trace ∧
      writeCalls pre = writeCalls (WriteApplication b.hw (some img) b.readBuffer
        (DeleteApplication b.hw b.flash).flash).trace ∧
      jumpCount pre = 0 := by
  obtain ⟨pre, hp, hj⟩ := main_ends_with_shutdown b hsd
  have he := (main_some b img hsd himg).2.2.2.1
  have hw' := (main_some b img hsd himg).2.2.2.2
  refine ⟨(main_trace_ok b hsd).2.1, pre ++ [Call.DeinitializeSerialConsole,
    Call.sd_mmc_deinit], ?_, ?_, ?_, ?_⟩
  · rw [hp]; simp
  · rw [← he, hp]
    simp [eraseAddrs_append, eraseAddrs]
  · rw [← hw', hp]
    simp [writeCalls_append, writeCalls]
  · rw [jumpCount_append, hj]
    rfl

/-- Witness for C21 (amended): the one-row image on the SAMD21 whose page
writes fail. -/
theorem C21_jump_not_guarded_witness :
    (main (bootWith hwWriteFault rowImage)).exit = Exit.jumped ∧
    ∃ pre, (main (bootWith hwWriteFault rowImage)).trace = pre ++ [Call.jumpToApplication] ∧
      eraseAddrs pre = eraseAddrs (DeleteApplication hwWriteFault (fun _ => 0)).trace ∧
      writeCalls pre = writeCalls (WriteApplication hwWriteFault (some rowImage)
        (List.replicate 256 0) (DeleteApplication hwWriteFault (fun _ => 0)).flash).trace ∧
      jumpCount pre = 0 :=
  C21_jump_not_guarded (bootWith hwWriteFault rowImage) rowImage rfl rfl

/-- C21 as stated fails: on the SAMD21 whose second application row cannot be
erased, `DeleteApplication` erases the row at `0x12000`, fails at `0x12100` and
returns false; `main` jumps all the same. -/
theorem C21_counterexample :
    (DeleteApplication hwEraseFault (fun _ => 0)).ok = false ∧
    hwEraseFault.erase_status 0x12000 = true ∧
    eraseAddrs (main (bootWith hwEraseFault rowImage)).trace = [0x12000, 0x12100] ∧
    (main (bootWith hwEraseFault rowImage)).exit = Exit.jumped ∧
    jumpCount (main (bootWith hwEraseFault rowImage)).trace = 1 := by
  have hd := delete_second_row_fails hwEraseFault (fun _ => 0) rfl rfl (by decide)
  have hm := main_some (bootWith hwEraseFault rowImage) rowImage rfl rfl
  have hj := main_jumps_once (bootWith hwEraseFault rowImage) rfl
  exact ⟨hd.1, rfl, hm.2.2.2.1.trans hd.2, hj.1, hj.2.1⟩

/-- C22. Once `StartFilesystemAndTest` has returned true, `main` goes on to
`jumpToApplication` on every path: without an image on the card, and with one
whatever `DeleteApplication` and `WriteApplication` return. The jump is the
last call of `main` and the only one. -/
theorem C22_handoff_always_attempted (b : Boot)
    (hsd : (StartFilesystemAndTest b.sd).1 = true) :
    (main b).exit = Exit.jumped ∧ jumpCount (main b).trace = 1 ∧
    (main b).trace.getLast? = some Call.jumpToApplication :=
  main_jumps_once b hsd

/-- Witness for C22: no image on the card. -/
theorem C22_handoff_always_attempted_witness :
    bootNoImage.appFile = none ∧
    (main bootNoImage).exit = Exit.jumped ∧ jumpCount (main bootNoImage).trace = 1 ∧
    (main bootNoImage).trace.getLast? = some Call.jumpToApplication :=
  ⟨rfl, C22_handoff_always_attempted bootNoImage rfl⟩

/-- C23. Once `I2cReadDataWait` holds the bus mutex, the value it returns is
the value of `I2cFreeMutex`, whatever happened to the transaction: it returns
0 whenever the mutex is given back, also when `I2cWriteData` or `I2cReadData`
failed, a wait on the semaphore timed out or the bus error flag was set. -/
theorem C23_I2cReadDataWait_returns_mutex_status (e : I2cBus) (data : Option I2C_Data)
    (hmutex : e.mutexTake = true) :
    I2cReadDataWait e data = I2cFreeMutex e ∧
    (e.mutexGive = true → I2cReadDataWait e data = 0) := by
  have h : I2cReadDataWait e data = I2cFreeMutex e := by
    unfold I2cReadDataWait I2cReadDataWait.exitError0
    simp only [I2cGetMutex, hmutex, if_true, ne_eq, not_true_eq_false, if_false]
    split_ifs <;> rfl
  refine ⟨h, fun hg => ?_⟩
  rw [h]
  simp [I2cFreeMutex, hg, ERROR_NONE]

/-- Witness for C23: the driver refuses the write job, `I2cWriteData` returns
`ERROR_IO`, the transaction does not complete, and `I2cReadDataWait` returns 0. -/
theorem C23_I2cReadDataWait_returns_mutex_status_witness :
    I2cWriteData busWriteRefused (some sensorRequest) = ERROR_IO ∧
    busWriteRefused.completes (some sensorRequest) = false ∧
    I2cReadDataWait busWriteRefused (some sensorRequest) = 0 :=
  ⟨by decide, by decide,
    (C23_I2cReadDataWait_returns_mutex_status busWriteRefused (some sensorRequest) rfl).2 rfl⟩

/-- C24. On a well-formed buffer, `SerialConsoleReadCharacter` returns -1 if
and only if the buffer is empty, and then leaves the buffer and `*rxChar` as
they were; otherwise it returns 0, stores the byte at the tail in `*rxChar`,
and the size of the buffer goes down by exactly one. -/
theorem C24_read_character (cbufRx : circular_buf_t) (rxChar : Nat) (h : WellFormed cbufRx) :
    ((SerialConsoleReadCharacter cbufRx rxChar).1 = -1 ↔ circular_buf_empty cbufRx = true) ∧
    (circular_buf_empty cbufRx = true →
      SerialConsoleReadCharacter cbufRx rxChar = (-1, cbufRx, rxChar)) ∧
    (circular_buf_empty cbufRx = false →
      (SerialConsoleReadCharacter cbufRx rxChar).1 = 0 ∧
      (SerialConsoleReadCharacter cbufRx rxChar).2.2 = cbufRx.buffer cbufRx.tail ∧
      circular_buf_size (SerialConsoleReadCharacter cbufRx rxChar).2.1 + 1 =
        circular_buf_size cbufRx) := by
  unfold SerialConsoleReadCharacter
  refine ⟨?_, fun he => get_empty cbufRx rxChar he, fun hne => ?_⟩
  · cases he : circular_buf_empty cbufRx
    · rw [(get_nonempty cbufRx rxChar h he).1]
      simp
    · rw [get_empty cbufRx rxChar he]
      simp
  · obtain ⟨g1, g2, _⟩ := get_nonempty cbufRx rxChar h hne
    rw [g1]
    exact ⟨rfl, rfl, g2⟩

/-- Witness for C24: a buffer of capacity 4 that holds `0x41`, `0x42`. -/
theorem C24_read_character_witness :
    (SerialConsoleReadCharacter cbufTwo 0).1 = 0 ∧
    (SerialConsoleReadCharacter cbufTwo 0).2.2 = 0x41 ∧
    circular_buf_size (SerialConsoleReadCharacter cbufTwo 0).2.1 + 1 = 2 :=
  (C24_read_character cbufTwo 0
    ⟨by decide, by decide, by decide, by decide, by decide⟩).2.2 rfl

/-- C25. For every capacity `max > 0` and every string of at most `max` bytes
put into a freshly reset buffer, as many `circular_buf_get` calls as there are
bytes all return 0 and deliver the bytes in the order in which they were put,
and the buffer is empty afterwards. -/
theorem C25_fifo (cbuf : circular_buf_t) (bytes : List Nat) (data : Nat)
    (hmax : 0 < cbuf.max) (hsize : cbuf.max < 2 ^ 32) (hn : bytes.length ≤ cbuf.max) :
    (getMany bytes.length (putString (circular_buf_reset cbuf) bytes) data).1 =
      bytes.map (fun b => ((0 : Int), b)) ∧
    circular_buf_empty
      (getMany bytes.length (putString (circular_buf_reset cbuf) bytes) data).2 = true := by
  have hr := wellFormed_reset cbuf hmax hsize
  have hs0 : circular_buf_size (circular_buf_reset cbuf) = 0 := by
    rw [← contents_length, contents_reset]
    rfl
  obtain ⟨p1, p2⟩ := putString_contents (circular_buf_reset cbuf) bytes hr (by
    rw [hs0]
    show 0 + bytes.length ≤ cbuf.max
    omega)
  rw [contents_reset, List.nil_append] at p2
  have hlen : circular_buf_size (putString (circular_buf_reset cbuf) bytes) = bytes.length := by
    rw [← contents_length, p2]
  have h := getMany_contents bytes.length _ data p1 hlen
  rw [p2] at h
  exact h

/-- Witness for C25: four bytes through a buffer of capacity 4. -/
theorem C25_fifo_witness :
    (getMany 4 (putString (circular_buf_reset cbufSmall) [1, 2, 3, 4]) 0).1 =
      [(0, 1), (0, 2), (0, 3), (0, 4)] ∧
    circular_buf_empty
      (getMany 4 (putString (circular_buf_reset cbufSmall) [1, 2, 3, 4]) 0).2 = true :=
  C25_fifo cbufSmall [1, 2, 3, 4] 0 (by decide) (by decide) (by decide)

/-- C26. For every image of fewer than `2^32` bytes that is read without
error, with every `nvm_write_buffer` storing its bytes at its address: after
`WriteApplication` the flash byte at the 32-bit address `0x12000 + k` is byte
`k` of the image, for every `k` below the length (without the reduction to 32
bits when the image ends at or below `2^32`); and page `j` of each full row
`i`, the 64 bytes of the image from `256 * i + 64 * j` on, is passed to
`nvm_write_buffer` with the address `0x12000 + 256 * i + 64 * j`. -/
theorem C26_copy_faithful (hw : Hardware) (img buf : List Nat) (fl : Flash)
    (hread : ∀ k, hw.read_status k = true) (hwrite : ∀ a, hw.write_status a = true)
    (hlen : img.length < 2 ^ 32) :
    (∀ k, k < img.length →
      (WriteApplication hw (some img) buf fl).flash (u32 (0x12000 + k)) = img.getD k 0) ∧
    (0x12000 + img.length ≤ 2 ^ 32 → ∀ k, k < img.length →
      (WriteApplication hw (some img) buf fl).flash (0x12000 + k) = img.getD k 0) ∧
    (∀ i j, i < img.length / 256 → j < 4 →
      (u32 (0x12000 + 256 * i + 64 * j), (img.drop (256 * i + 64 * j)).take 64) ∈
        writeCalls (WriteApplication hw (some img) buf fl).trace) := by
  have hcopy : ∀ k, k < img.length →
      (WriteApplication hw (some img) buf fl).flash (u32 (0x12000 + k)) = img.getD k 0 := by
    intro k hk
    have h := loop_copy hw hread hwrite img.length img buf 0 0 0 fl rfl hlen k hk
    rw [(write_trace hw img buf fl).2.1]
    have e : APP_START_ADDRESS + 0 * ROW_SIZE + k = 0x12000 + k := by
      unfold APP_START_ADDRESS ROW_SIZE
      omega
    rw [e] at h
    exact h
  refine ⟨hcopy, ?_, ?_⟩
  · intro hend k hk
    have h := hcopy k hk
    have e : u32 (0x12000 + k) = 0x12000 + k := by
      unfold u32
      exact Nat.mod_eq_of_lt (by omega)
    rw [e] at h
    exact h
  · intro i j hi hj
    have h := loop_full_pages hw hread img buf 0 0 0 fl i j hi hj
    rw [(write_trace hw img buf fl).1]
    have e : APP_START_ADDRESS + (0 + i) * ROW_SIZE + 64 * j = 0x12000 + 256 * i + 64 * j := by
      unfold APP_START_ADDRESS ROW_SIZE
      omega
    rw [e] at h
    exact h

/-- Witness for C26: the image of 300 bytes `0xA5` over erased flash; byte 299,
in the short last row, and the last page of the first row. -/
theorem C26_copy_faithful_witness :
    (WriteApplication hwGood (some image300) (List.replicate 256 0) flashErased).flash
      (0x12000 + 299) = 0xA5 ∧
    (0x120C0, List.replicate 64 0xA5) ∈
      writeCalls (WriteApplication hwGood (some image300) (List.replicate 256 0)
        flashErased).trace := by
  have h := C26_copy_faithful hwGood image300 (List.replicate 256 0) flashErased
    (fun _ => rfl) (fun _ => rfl) (by rw [image300_length]; decide)
  have h1 := h.2.1 (by rw [image300_length]; decide) 299 (by rw [image300_length]; decide)
  have h2 := h.2.2 0 3 (by rw [image300_length]; decide) (by decide)
  have e1 : image300.getD 299 0 = 0xA5 := by
    rw [image300, List.getD_eq_getElem?_getD, List.getElem?_replicate]
    rfl
  have e2 : (image300.drop (256 * 0 + 64 * 3)).take 64 = List.replicate 64 0xA5 := by
    rw [image300, List.drop_replicate, List.take_replicate]
    have e : min 64 (300 - (256 * 0 + 64 * 3)) = 64 := by decide
    rw [e]
  have e3 : u32 (0x12000 + 256 * 0 + 64 * 3) = 0x120C0 := by decide
  rw [e1] at h1
  rw [e2, e3] at h2
  exact ⟨h1, h2⟩

/-- C27. For an image of `L` bytes read without error, `WriteApplication`
makes exactly `L / 256 + 1` `f_read` calls and then reaches the comparison of
the checksums that follows the loop. The last read is the short one: its
`L % 256` bytes go to row `L / 256` in `L % 256 / 64` full pages and one write
of `L % 64` bytes; when `L` is a multiple of 256 it delivers no byte and the
last `nvm_write_buffer` call is one of zero bytes at the start of row
`L / 256`. -/
theorem C27_read_calls (hw : Hardware) (img buf : List Nat) (fl : Flash)
    (hread : ∀ k, hw.read_status k = true) :
    readCount (WriteApplication hw (some img) buf fl).trace = img.length / 256 + 1 ∧
    ((WriteApplication hw (some img) buf fl).trace.getLast? =
        some (Call.SerialConsoleWriteString "CRC IS CORRECT!!!\r\n") ∨
      (WriteApplication hw (some img) buf fl).trace.getLast? =
        some (Call.f_close Handle.file_object_bin)) ∧
    (∃ pre, pre.length = 4 * (img.length / 256) ∧
      writeCalls (WriteApplication hw (some img) buf fl).trace =
        pre ++ ((List.range (img.length % 256 / 64)).map (fun j =>
            (pageAddress (img.length / 256) j,
              slice (img.drop (256 * (img.length / 256))) (64 * j) 64)) ++
          [(pageAddress (img.length / 256) (img.length % 256 / 64),
            slice (img.drop (256 * (img.length / 256))) (64 * (img.length % 256 / 64))
              (img.length % 64))])) ∧
    (img.length % 256 = 0 →
      (writeCalls (WriteApplication hw (some img) buf fl).trace).getLast? =
        some (pageAddress (img.length / 256) 0, [])) := by
  have ht : (WriteApplication hw (some img) buf fl).trace =
      Call.f_open Handle.file_object_bin app_file_name ::
        (WriteApplication.loop hw img buf 0 0 0 fl).trace := rfl
  obtain ⟨pre, hp, he⟩ := writeCalls_loop_last hw hread img buf 0 0 0 fl
  rw [Nat.zero_add] at he
  have hw' := (write_trace hw img buf fl).1
  refine ⟨?_, ?_, ⟨pre, hp, by rw [hw', he]⟩, ?_⟩
  · rw [ht]
    simp only [readCount]
    exact loop_readCount hw hread img buf 0 0 0 fl
  · rw [ht]
    have h := loop_reaches_comparison hw hread img buf 0 0 0 fl
    rcases h with h | h
    · left
      rw [List.getLast?_cons, h]
      rfl
    · right
      rw [List.getLast?_cons, h]
      rfl
  · intro hm
    have h64 : img.length % 64 = 0 := by omega
    rw [hw', he, hm, h64]
    simp [slice]

/-- Witness for C27: the one-row image, two `f_read` calls, the second of no
bytes. -/
theorem C27_read_calls_witness :
    readCount (WriteApplication hwGood (some rowImage) (List.replicate 256 0)
      flashErased).trace = 2 ∧
    (writeCalls (WriteApplication hwGood (some rowImage) (List.replicate 256 0)
      flashErased).trace).getLast? = some (0x12100, []) := by
  have h := C27_read_calls hwGood rowImage (List.replicate 256 0) flashErased (fun _ => rfl)
  have h1 := h.1
  have h2 := h.2.2.2 (by rw [rowImage_length])
  rw [rowImage_length] at h1 h2
  exact ⟨h1, h2⟩

/-- C28. For a capacity `max > 0`, after `circular_buf_reset` and any sequence
of `circular_buf_put`, `circular_buf_put2` and `circular_buf_get` calls: `head`
and `tail` are below `max`, `full` implies `head == tail`, `circular_buf_size`
is at most `max`, and it is `max` exactly when `circular_buf_full` is true. -/
theorem C28_invariant (cbuf : circular_buf_t) (ops : List CbufOp)
    (hmax : 0 < cbuf.max) (hsize : cbuf.max < 2 ^ 32) :
    (runOps (circular_buf_reset cbuf) ops).head < (runOps (circular_buf_reset cbuf) ops).max ∧
    (runOps (circular_buf_reset cbuf) ops).tail < (runOps (circular_buf_reset cbuf) ops).max ∧
    ((runOps (circular_buf_reset cbuf) ops).full = true →
      (runOps (circular_buf_reset cbuf) ops).head = (runOps (circular_buf_reset cbuf) ops).tail) ∧
    circular_buf_size (runOps (circular_buf_reset cbuf) ops) ≤
      (runOps (circular_buf_reset cbuf) ops).max ∧
    (circular_buf_size (runOps (circular_buf_reset cbuf) ops) =
        (runOps (circular_buf_reset cbuf) ops).max ↔
      circular_buf_full (runOps (circular_buf_reset cbuf) ops) = true) := by
  have h := wellFormed_runOps _ ops (wellFormed_reset cbuf hmax hsize)
  have hs := size_le _ h
  exact ⟨h.2.2.1, h.2.2.2.1, h.2.2.2.2, hs.1, hs.2.1⟩

/-- Witness for C28: nine calls on a buffer of capacity 4, among them a put on
the full buffer and a refused `circular_buf_put2`. -/
theorem C28_invariant_witness :
    (runOps (circular_buf_reset cbufSmall) [CbufOp.put 1, CbufOp.put 2, CbufOp.put2 3,
      CbufOp.get, CbufOp.put 4, CbufOp.put 5, CbufOp.put 6, CbufOp.put2 7, CbufOp.get]).head < 4 ∧
    circular_buf_size (runOps (circular_buf_reset cbufSmall) [CbufOp.put 1, CbufOp.put 2,
      CbufOp.put2 3, CbufOp.get, CbufOp.put 4, CbufOp.put 5, CbufOp.put 6, CbufOp.put2 7,
      CbufOp.get]) ≤ 4 :=
  have h := C28_invariant cbufSmall [CbufOp.put 1, CbufOp.put 2, CbufOp.put2 3,
      CbufOp.get, CbufOp.put 4, CbufOp.put 5, CbufOp.put 6, CbufOp.put2 7, CbufOp.get]
    (by decide) (by decide)
  ⟨h.1, h.2.2.2.1⟩

/-- C29. On a well-formed full buffer, `circular_buf_put` keeps the buffer full
with size `max`, drops the oldest byte and makes the new byte the newest, so
that the next `circular_buf_get` returns 0 and delivers what was the
second-oldest byte (the new byte itself when `max` is 1); `circular_buf_put2`
returns -1 and leaves the buffer as it was. -/
theorem C29_put_on_full (cbuf : circular_buf_t) (d data : Nat) (h : WellFormed cbuf)
    (hfull : circular_buf_full cbuf = true) :
    circular_buf_full (circular_buf_put cbuf d) = true ∧
    circular_buf_size (circular_buf_put cbuf d) = cbuf.max ∧
    contents (circular_buf_put cbuf d) = (contents cbuf).tail ++ [d] ∧
    (circular_buf_get (circular_buf_put cbuf d) data).1 = 0 ∧
    (circular_buf_get (circular_buf_put cbuf d) data).2.2 =
      (if cbuf.max = 1 then d else cbuf.buffer ((cbuf.tail + 1) % cbuf.max)) ∧
    (2 ≤ cbuf.max → (contents cbuf)[1]? = some (cbuf.buffer ((cbuf.tail + 1) % cbuf.max))) ∧
    circular_buf_put2 cbuf d = (-1, cbuf) := by
  have hf : cbuf.full = true := hfull
  obtain ⟨p1, p2, p3⟩ := put_full cbuf d h hf
  have hw := wellFormed_put cbuf d h
  have hne : circular_buf_empty (circular_buf_put cbuf d) = false := by
    simp [circular_buf_empty, p1]
  obtain ⟨g1, _, g3⟩ := get_nonempty (circular_buf_put cbuf d) data hw hne
  have hsz : circular_buf_size cbuf = cbuf.max := by simp [circular_buf_size, hf]
  obtain ⟨h0, h1, h2, h3, h4⟩ := h
  refine ⟨p1, p2, p3, by rw [g1], ?_, ?_, by simp [circular_buf_put2, hfull]⟩
  · rw [g1]
    show (circular_buf_put cbuf d).buffer (circular_buf_put cbuf d).tail = _
    have e1 : (circular_buf_put cbuf d).tail = (cbuf.tail + 1) % cbuf.max := by
      simp [circular_buf_put, advance_pointer, hf, size_t_succ cbuf.tail cbuf.max h3 h1]
    have e5 : (circular_buf_put cbuf d).buffer = Function.update cbuf.buffer cbuf.tail d := by
      simp [circular_buf_put, advance_pointer, h4 hf]
    rw [e1, e5]
    split_ifs with hm
    · have ht : cbuf.tail = 0 := by omega
      rw [hm, Nat.mod_one, ht, Function.update_same]
    · rw [Function.update_noteq]
      rw [wrap_add _ _ _ h3 (by omega)]
      split_ifs <;> omega
  · intro h2'
    unfold contents
    rw [hsz, List.getElem?_map, List.getElem?_range (by omega)]
    rfl

/-- Witness for C29: the buffer of capacity 4 holding 1, 2, 3, 4 and the
byte 5: after the put the next get delivers 2; `circular_buf_put2` is refused. -/
theorem C29_put_on_full_witness :
    circular_buf_full (circular_buf_put cbufFull 5) = true ∧
    circular_buf_size (circular_buf_put cbufFull 5) = 4 ∧
    (circular_buf_get (circular_buf_put cbufFull 5) 0).1 = 0 ∧
    (circular_buf_get (circular_buf_put cbufFull 5) 0).2.2 = 2 ∧
    (circular_buf_put2 cbufFull 5).1 = -1 :=
  have h := C29_put_on_full cbufFull 5 0
    ⟨by decide, by decide, by decide, by decide, by decide⟩ rfl
  ⟨h.1, h.2.1, h.2.2.2.1, h.2.2.2.2.1, congrArg Prod.fst h.2.2.2.2.2.2⟩

/-- C30. The index that `SSD1306_DrawPixel` reads and writes is
`x + (y / 8) * 128 + 1` for every `x < 128` and `y < 64`; it lies behind the
1024 elements of `SSD1306_Buffer` exactly for `x = 127` and `56 ≤ y < 64`, where
it is 1024, whatever the colour and the `Inverted` flag. -/
theorem C30_DrawPixel_index_1024 (SSD1306 : SSD1306_t) (SSD1306_Buffer : Nat → Nat)
    (x y color : Nat) :
    SSD1306_Buffer_size = 1024 ∧
    (SSD1306_DrawPixel SSD1306 SSD1306_Buffer x y color).2 =
      (if x ≥ 128 ∨ y ≥ 64 then none else some (x + y / 8 * 128 + 1)) ∧
    ((∃ i, (SSD1306_DrawPixel SSD1306 SSD1306_Buffer x y color).2 = some i ∧
        SSD1306_Buffer_size ≤ i) ↔ (x = 127 ∧ 56 ≤ y ∧ y < 64)) ∧
    (SSD1306_DrawPixel SSD1306 SSD1306_Buffer 127 63 color).2 = some 1024 := by
  have hsz : SSD1306_Buffer_size = 1024 := by decide
  refine ⟨hsz, drawPixel_index _ _ _ _ _, ?_, ?_⟩
  · rw [drawPixel_index, hsz]
    constructor
    · rintro ⟨i, hi, hle⟩
      split_ifs at hi with hc
      cases hi
      omega
    · rintro ⟨hx, hy1, hy2⟩
      refine ⟨x + y / 8 * 128 + 1, ?_, by omega⟩
      rw [if_neg (by omega)]
  · rw [drawPixel_index]
    rfl

end BootMain
